import Mathlib

/-!
# Verification of the TrenchBroom linked-group synchronization engine

A shallow embedding of the linked-group synchronization core of TrenchBroom
(files `common/src/Model/GroupNode.cpp` and
`common/src/View/UpdateLinkedGroupsHelper.cpp`), together with proofs of the
behavioural claims about it.

Modelling conventions:
* Machine floating point geometry (the external `vecmath` collaborator) is
  modelled over the rationals; the spec treats the geometric math as an
  external black box, so only its algebraic structure matters here.
* C++ pointer identity of scene nodes is modelled by explicit reference
  values (paths into the document tree) carried alongside node values.
* UUID generation (`generateUuid`, external `Uuid.h`) is modelled by a
  monotone counter producing distinct natural numbers.
* Fallible operations return `Except String` mirroring `kdl::result` /
  `Error{...}` values; `ensure`/assertion aborts, which terminate the process
  in C++, are modelled as distinctively worded errors that the theorems show
  to be unreachable on the relevant paths.
-/

namespace TB

/-- Error values (`Error{"..."}` in the source carries just a message). -/
abbrev Err := String

/-! ## Geometry.

Modelled from the spec: the vector/matrix math (`vecmath`) is an external
collaborator ("the geometry/brush transformation math" is excluded and treated
as a black box).  Group transformations are affine ("transformation matrix
(affine)" in the spec's data model), so a transformation is a 3x3 linear part
plus a translation, over `ℚ`. -/

/-- A 3-dimensional vector (models `vm::vec3`). -/
structure Vec3 where
  x : ℚ
  y : ℚ
  z : ℚ
deriving DecidableEq, Repr

def Vec3.add (a b : Vec3) : Vec3 := ⟨a.x + b.x, a.y + b.y, a.z + b.z⟩

def Vec3.neg (a : Vec3) : Vec3 := ⟨-a.x, -a.y, -a.z⟩

def Vec3.zero : Vec3 := ⟨0, 0, 0⟩

/-- Componentwise `≤` on vectors (models `vm`'s componentwise comparison). -/
def Vec3.le (a b : Vec3) : Bool := a.x ≤ b.x && a.y ≤ b.y && a.z ≤ b.z

/-- Componentwise minimum. -/
def Vec3.cmin (a b : Vec3) : Vec3 := ⟨min a.x b.x, min a.y b.y, min a.z b.z⟩

/-- Componentwise maximum. -/
def Vec3.cmax (a b : Vec3) : Vec3 := ⟨max a.x b.x, max a.y b.y, max a.z b.z⟩

/-- A 3x3 matrix (the linear part of an affine `vm::mat4x4`). -/
structure Mat3 where
  m00 : ℚ
  m01 : ℚ
  m02 : ℚ
  m10 : ℚ
  m11 : ℚ
  m12 : ℚ
  m20 : ℚ
  m21 : ℚ
  m22 : ℚ
deriving DecidableEq, Repr

def Mat3.id : Mat3 := ⟨1, 0, 0, 0, 1, 0, 0, 0, 1⟩

def Mat3.mul (a b : Mat3) : Mat3 :=
  ⟨a.m00 * b.m00 + a.m01 * b.m10 + a.m02 * b.m20,
   a.m00 * b.m01 + a.m01 * b.m11 + a.m02 * b.m21,
   a.m00 * b.m02 + a.m01 * b.m12 + a.m02 * b.m22,
   a.m10 * b.m00 + a.m11 * b.m10 + a.m12 * b.m20,
   a.m10 * b.m01 + a.m11 * b.m11 + a.m12 * b.m21,
   a.m10 * b.m02 + a.m11 * b.m12 + a.m12 * b.m22,
   a.m20 * b.m00 + a.m21 * b.m10 + a.m22 * b.m20,
   a.m20 * b.m01 + a.m21 * b.m11 + a.m22 * b.m21,
   a.m20 * b.m02 + a.m21 * b.m12 + a.m22 * b.m22⟩

def Mat3.mulVec (a : Mat3) (v : Vec3) : Vec3 :=
  ⟨a.m00 * v.x + a.m01 * v.y + a.m02 * v.z,
   a.m10 * v.x + a.m11 * v.y + a.m12 * v.z,
   a.m20 * v.x + a.m21 * v.y + a.m22 * v.z⟩

def Mat3.det (a : Mat3) : ℚ :=
  a.m00 * (a.m11 * a.m22 - a.m12 * a.m21)
    - a.m01 * (a.m10 * a.m22 - a.m12 * a.m20)
    + a.m02 * (a.m10 * a.m21 - a.m11 * a.m20)

/-- Explicit adjugate-over-determinant inverse (only meaningful when
`det ≠ 0`; `vmInvert` guards the call). -/
def Mat3.inv (a : Mat3) : Mat3 :=
  let d := a.det
  ⟨(a.m11 * a.m22 - a.m12 * a.m21) / d,
   (a.m02 * a.m21 - a.m01 * a.m22) / d,
   (a.m01 * a.m12 - a.m02 * a.m11) / d,
   (a.m12 * a.m20 - a.m10 * a.m22) / d,
   (a.m00 * a.m22 - a.m02 * a.m20) / d,
   (a.m02 * a.m10 - a.m00 * a.m12) / d,
   (a.m10 * a.m21 - a.m11 * a.m20) / d,
   (a.m01 * a.m20 - a.m00 * a.m21) / d,
   (a.m00 * a.m11 - a.m01 * a.m10) / d⟩

/-- An affine transformation (models the `vm::mat4x4` transformations the
linked-group engine composes and inverts; the spec's data model declares a
group's transformation affine). -/
structure Affine where
  lin : Mat3
  tr : Vec3
deriving DecidableEq, Repr

def Affine.id : Affine := ⟨Mat3.id, Vec3.zero⟩

/-- Matrix product `a * b` of two affine transformations (apply `b`, then
`a`). -/
def Affine.comp (a b : Affine) : Affine :=
  ⟨a.lin.mul b.lin, (a.lin.mulVec b.tr).add a.tr⟩

/-- Apply a transformation to a point. -/
def Affine.apply (a : Affine) (v : Vec3) : Vec3 := (a.lin.mulVec v).add a.tr

/-- `vm::translation_matrix`. -/
def translationMatrix (v : Vec3) : Affine := ⟨Mat3.id, v⟩

/-- Modelled from the spec: `vm::invert` (external `vecmath`) returns a
success flag and the inverse; it fails exactly on singular matrices
(`NotInvertible` data-dependent failure in the spec's error taxonomy). -/
def vmInvert (a : Affine) : Bool × Affine :=
  if a.lin.det = 0 then (false, Affine.id)
  else
    let li := a.lin.inv
    (true, ⟨li, (li.mulVec a.tr).neg⟩)

/-- An axis-aligned bounding box (models `vm::bbox3`). -/
structure BBox where
  lo : Vec3
  hi : Vec3
deriving DecidableEq, Repr

/-- The box `vm::bbox3{s}`, spanning `[-s, s]` on every axis (the test
suite's `vm::bbox3(8192.0)` world bounds). -/
def BBox.cube (s : ℚ) : BBox := ⟨⟨-s, -s, -s⟩, ⟨s, s, s⟩⟩

/-- `vm::bbox3{0.0}`: the degenerate point box at the origin, the default
value used by `computeLogicalBounds` for childless composite nodes. -/
def BBox.zeroBox : BBox := ⟨Vec3.zero, Vec3.zero⟩

/-- `bbox.contains(other)`: componentwise containment. -/
def BBox.contains (w b : BBox) : Bool := w.lo.le b.lo && b.hi.le w.hi

/-- Smallest box containing both arguments (`vm::merge`). -/
def BBox.merge (a b : BBox) : BBox := ⟨a.lo.cmin b.lo, a.hi.cmax b.hi⟩

/-- The bounding box of a point. -/
def BBox.ofPoint (v : Vec3) : BBox := ⟨v, v⟩

/-- Bounding box of a list of points (point box at origin if empty). -/
def BBox.ofPoints : List Vec3 → BBox
  | [] => BBox.zeroBox
  | v :: vs => (BBox.ofPoints vs).merge (BBox.ofPoint v)

/-! ## Node contents.

The transformable payloads of scene nodes (`Model/Group.h`, `Model/Entity.h`,
`Model/Brush.h`, `Model/BezierPatch.h`).  Only `GroupNode.cpp` and the helper
are in scope; the content classes themselves are external collaborators, so
their operations are modelled from the spec's description of them. -/

/-- Content of a Group node: name, affine transformation, optional link-set
id (spec data model, `Model/Group.h`). -/
structure Group where
  name : String
  transformation : Affine
  linkedGroupId : Option String
deriving DecidableEq, Repr

/-- Modelled from the spec: `Group::transform` composes the given transform
onto the stored transformation ("apply T to the stored transformation
(compose)"). -/
def Group.transform (g : Group) (t : Affine) : Group :=
  { g with transformation := t.comp g.transformation }

/-- An entity key/value property (`Model/EntityProperties.h`). -/
abbrev EntityProperty := String × String

/-- Content of an Entity node: ordered key/value properties, the
protected-property key set, the optional per-link-set entity id, and the
entity's origin as its geometric content (spec data model,
`Model/Entity.h`).  Link ids are UUID strings in the source; UUIDs are
modelled as distinct naturals. -/
structure Entity where
  properties : List EntityProperty
  protectedProperties : List String
  linkId : Option Nat
  origin : Vec3
deriving DecidableEq, Repr

/-- Lookup of the first property with the given key. -/
def findProperty : List EntityProperty → String → Option String
  | [], _ => none
  | p :: ps, k => if p.1 = k then some p.2 else findProperty ps k

/-- `Entity::property(key)`: value of the first property with the given
key, if any. -/
def Entity.property (e : Entity) (key : String) : Option String :=
  findProperty e.properties key

/-- Modelled from the spec: `Entity::removeProperty` removes the property
with the given key. -/
def Entity.removeProperty (e : Entity) (key : String) : Entity :=
  { e with properties := e.properties.filter (fun p => p.1 ≠ key) }

/-- Update the first property with the given key in place, or append. -/
def updateOrAppend (key value : String) : List EntityProperty →
    List EntityProperty
  | [] => [(key, value)]
  | p :: ps => if p.1 = key then (key, value) :: ps else p :: updateOrAppend key value ps

/-- Modelled from the spec: `Entity::addOrUpdateProperty` updates the value
of an existing key in place, or appends a new property at the end
("removing then re-adding a key moves it to the end"). -/
def Entity.addOrUpdateProperty (e : Entity) (key value : String) : Entity :=
  { e with properties := updateOrAppend key value e.properties }

def Entity.setProtectedProperties (e : Entity) (keys : List String) : Entity :=
  { e with protectedProperties := keys }

def Entity.setLinkId (e : Entity) (i : Nat) : Entity := { e with linkId := some i }

def Entity.resetLinkId (e : Entity) : Entity := { e with linkId := none }

/-- Modelled from the spec: `Entity::transform` applies the transformation
to the entity's origin ("apply T to entity origin/geometry via the entity's
transform operation"). -/
def Entity.transform (e : Entity) (t : Affine) : Entity :=
  { e with origin := t.apply e.origin }

/-- Content of a Brush node, modelled by its vertex positions.  The real
brush geometry lives in the external `Model/Brush.h` collaborator. -/
structure Brush where
  vertices : List Vec3
deriving DecidableEq, Repr

/-- Modelled from the spec: `Brush::transform` applies the transformation to
the brush's geometry.  In the source this operation can fail on degenerate
geometry (surfaced as `TransformFailed`); no claim in scope exercises that
failure, so the modelled operation keeps the fallible signature but always
succeeds. -/
def Brush.transform (b : Brush) (_worldBounds : BBox) (t : Affine) :
    Except Err Brush :=
  .ok { vertices := b.vertices.map t.apply }

/-- Content of a Patch node, modelled by its control points (spec: "apply T
to the patch's control points"). -/
structure BezierPatch where
  controlPoints : List Vec3
deriving DecidableEq, Repr

def BezierPatch.transform (p : BezierPatch) (t : Affine) : BezierPatch :=
  { controlPoints := p.controlPoints.map t.apply }

/-! ## `kdl` helpers.

Sequential models of the `kdl` library combinators the engine uses. -/

/-- `kdl::fold_results`: collect a list of results into a result of a list,
returning the first error if any.  (`kdl::vec_transform` evaluates every
element eagerly; since the modelled element computations are pure, folding
the mapped list directly is observationally identical.) -/
def foldResults : List (Except Err α) → Except Err (List α)
  | [] => .ok []
  | .error e :: _ => .error e
  | .ok a :: rest => (foldResults rest).map (a :: ·)

/-- One pass of `std::unique`: drop adjacent duplicates. -/
def dedupAdjacent [DecidableEq α] : List α → List α
  | [] => []
  | [a] => [a]
  | a :: b :: t =>
    if a = b then dedupAdjacent (b :: t) else a :: dedupAdjacent (b :: t)

/-- `kdl::vec_sort_and_remove_duplicates` on strings (`std::sort` followed by
`std::unique`). -/
def vecSortAndRemoveDuplicates (l : List String) : List String :=
  dedupAdjacent (l.insertionSort (· ≤ ·))

/-! ## The scene-graph node tree.

The closed variant set {World, Layer, Group, Entity, Brush, Patch} of
`Model/Node.h`, as a rose tree.  The child list is a bespoke mutual inductive
(`NodeList`) so that all tree operations are structurally recursive and
kernel-reducible. -/

mutual
/-- A scene-graph node: one of the six variants, owning its children
(`Model/Node.h`). -/
inductive Node where
  | world (children : NodeList)
  | layer (children : NodeList)
  | group (content : Group) (children : NodeList)
  | entity (content : Entity) (children : NodeList)
  | brush (content : Brush) (children : NodeList)
  | patch (content : BezierPatch) (children : NodeList)
deriving DecidableEq, Repr

/-- An owned, ordered list of child nodes. -/
inductive NodeList where
  | nil
  | cons (head : Node) (tail : NodeList)
deriving DecidableEq, Repr
end

namespace NodeList

def length : NodeList → Nat
  | .nil => 0
  | .cons _ t => 1 + t.length

/-- The `i`-th child (`Node::children().at(i)` is only called with `i` in
bounds; out-of-range access is modelled by `none`). -/
def get? : NodeList → Nat → Option Node
  | .nil, _ => none
  | .cons h _, 0 => some h
  | .cons _ t, n + 1 => t.get? n

def toList : NodeList → List Node
  | .nil => []
  | .cons h t => h :: t.toList

def Mem (n : Node) : NodeList → Prop
  | .nil => False
  | .cons h t => n = h ∨ Mem n t

end NodeList

namespace Node

/-- `Node::children()`. -/
def children : Node → NodeList
  | .world cs | .layer cs | .group _ cs | .entity _ cs | .brush _ cs
  | .patch _ cs => cs

/-- `Node::childCount()`. -/
def childCount (n : Node) : Nat := n.children.length

end Node

mutual
/-- `Node::logicalBounds()`.  Composite nodes (`GroupNode`, and `WorldNode` /
`LayerNode`) compute `computeLogicalBounds(children, vm::bbox3{0.0})`: the
merge of the children's logical bounds, or the point box at the origin when
childless (`GroupNode::validateBounds`).  An `EntityNode` with brush children
uses the children's merged bounds; a childless (point) entity uses its
definition bounds, a cube of half-size 8 centred on its origin (modelled from
the defaults exercised by `tst_GroupNode.cpp`).  Brush and patch bounds are
the bounding boxes of their modelled geometry. -/
def Node.logicalBounds : Node → BBox
  | .world cs => childrenBounds cs BBox.zeroBox
  | .layer cs => childrenBounds cs BBox.zeroBox
  | .group _ cs => childrenBounds cs BBox.zeroBox
  | .entity e cs =>
    childrenBounds cs ⟨⟨e.origin.x - 8, e.origin.y - 8, e.origin.z - 8⟩,
                       ⟨e.origin.x + 8, e.origin.y + 8, e.origin.z + 8⟩⟩
  | .brush b _ => BBox.ofPoints b.vertices
  | .patch p _ => BBox.ofPoints p.controlPoints

/-- `computeLogicalBounds(children, defaultBounds)`: merge of the children's
logical bounds, or the default if there are none. -/
def childrenBounds : NodeList → BBox → BBox
  | .nil, dflt => dflt
  | .cons h t, _ => mergeRest t h.logicalBounds

/-- Merge of a node's bounds with the bounds of the remaining children. -/
def mergeRest : NodeList → BBox → BBox
  | .nil, acc => acc
  | .cons h t, acc => mergeRest t (acc.merge h.logicalBounds)
end

/-- An `ensure(false, msg)` abort (fatal assertion in the source), modelled
as a distinctively worded error. -/
def ensureFailed (msg : String) : Err := "ensure failed: " ++ msg

/-! ## Clone-and-Transform engine (`GroupNode.cpp`, anonymous namespace).

The source first computes every descendant's transformed content in a
parallel pre-pass (`kdl::vec_parallel_transform`), keyed by source-node
pointer, then reassembles the clone tree sequentially, pulling each node's
content out of that map (`cloneAndTransformRecursive`).  The content
transform is a pure function of the node's content, and each tree position
holds exactly one pointer, so looking the content up by pointer is
extensionally the same as recomputing it during reassembly; the model does
the latter.  The pre-pass maps any brush transform failure to
`Error{"Failed to transform a linked node"}`; the modelled brush transform
never fails, so the differing error priority between the two phases is not
observable. -/

mutual
/-- `cloneAndTransformRecursive`: clone one node, moving in its transformed
content, reject the clone if its (still childless) logical bounds leave the
world bounds, then clone and attach the children. -/
def cloneAndTransformRecursive (worldBounds : BBox) (transformation : Affine) :
    Node → Except Err Node
  | .world _ => .error (ensureFailed "Linked group structure is valid")
  | .layer _ => .error (ensureFailed "Linked group structure is valid")
  | .group g cs =>
    let clone := Node.group (g.transform transformation) .nil
    if worldBounds.contains clone.logicalBounds then
      (cloneAndTransformList worldBounds transformation cs).map
        (Node.group (g.transform transformation))
    else .error "Updating a linked node would exceed world bounds"
  | .entity e cs =>
    let clone := Node.entity (e.transform transformation) .nil
    if worldBounds.contains clone.logicalBounds then
      (cloneAndTransformList worldBounds transformation cs).map
        (Node.entity (e.transform transformation))
    else .error "Updating a linked node would exceed world bounds"
  | .brush b cs =>
    match b.transform worldBounds transformation with
    | .error _ => .error "Failed to transform a linked node"
    | .ok b2 =>
      let clone := Node.brush b2 .nil
      if worldBounds.contains clone.logicalBounds then
        (cloneAndTransformList worldBounds transformation cs).map (Node.brush b2)
      else .error "Updating a linked node would exceed world bounds"
  | .patch p cs =>
    let clone := Node.patch (p.transform transformation) .nil
    if worldBounds.contains clone.logicalBounds then
      (cloneAndTransformList worldBounds transformation cs).map
        (Node.patch (p.transform transformation))
    else .error "Updating a linked node would exceed world bounds"

/-- `kdl::fold_results` over the recursive clones of a child list. -/
def cloneAndTransformList (worldBounds : BBox) (transformation : Affine) :
    NodeList → Except Err NodeList
  | .nil => .ok .nil
  | .cons h rest => do
    let c ← cloneAndTransformRecursive worldBounds transformation h
    let cs ← cloneAndTransformList worldBounds transformation rest
    pure (.cons c cs)
end

/-- `cloneAndTransformChildren`: clone the children of `node` recursively,
applying the given transform (the node itself is skipped). -/
def cloneAndTransformChildren (node : Node) (worldBounds : BBox)
    (transformation : Affine) : Except Err NodeList :=
  cloneAndTransformList worldBounds transformation node.children

/-! ## Identity reconciliation (`preserveGroupNames`,
`preserveEntityProperties`). -/

mutual
/-- `preserveGroupNames` (list overload): walk cloned and corresponding
nodes pairwise, stopping at the shorter list. -/
def preserveGroupNames : NodeList → NodeList → NodeList
  | .nil, _ => .nil
  | l, .nil => l
  | .cons c cs, .cons o os =>
    .cons (preserveGroupNameNode c o) (preserveGroupNames cs os)

/-- Per-pair body of `preserveGroupNames`: a cloned group takes the
corresponding group's name and recurses; any other pairing is a silent
no-op. -/
def preserveGroupNameNode : Node → Node → Node
  | .group g gcs, o =>
    match o with
    | .group og ocs => .group { g with name := og.name } (preserveGroupNames gcs ocs)
    | _ => .group g gcs
  | n, _ => n
end

/-- The loop body of `preserveEntityProperties`: remove the key from the
clone, then re-add it with the corresponding entity's value if present. -/
def restoreProtectedProperty (correspondingEntity : Entity) (e : Entity)
    (propertyKey : String) : Entity :=
  let e2 := e.removeProperty propertyKey
  match correspondingEntity.property propertyKey with
  | some v => e2.addOrUpdateProperty propertyKey v
  | none => e2

/-- `preserveEntityProperties(EntityNode&, const EntityNode&)`: if either
side has protected properties, take the corresponding (old target) entity's
protected-property set, and for every key in the union of the two sets
remove the key from the clone and re-add it with the corresponding entity's
value when it has one. -/
def preserveEntityProperties (clonedEntity correspondingEntity : Entity) :
    Entity :=
  if clonedEntity.protectedProperties = [] ∧
      correspondingEntity.protectedProperties = [] then
    clonedEntity
  else
    let allProtectedProperties := vecSortAndRemoveDuplicates
      (clonedEntity.protectedProperties ++ correspondingEntity.protectedProperties)
    allProtectedProperties.foldl (restoreProtectedProperty correspondingEntity)
      (clonedEntity.setProtectedProperties
        correspondingEntity.protectedProperties)

mutual
/-- `preserveEntityProperties` (list overload): walk cloned and
corresponding nodes pairwise, stopping at the shorter list. -/
def preserveEntityPropertiesList : NodeList → NodeList → NodeList
  | .nil, _ => .nil
  | l, .nil => l
  | .cons c cs, .cons o os =>
    .cons (preserveEntityPropertiesNode c o) (preserveEntityPropertiesList cs os)

/-- Per-pair body: group pairs recurse, entity pairs merge properties, any
other pairing is a silent no-op. -/
def preserveEntityPropertiesNode : Node → Node → Node
  | .group g gcs, o =>
    match o with
    | .group _ ocs => .group g (preserveEntityPropertiesList gcs ocs)
    | _ => .group g gcs
  | .entity e ecs, o =>
    match o with
    | .entity oe _ => .entity (preserveEntityProperties e oe) ecs
    | _ => .entity e ecs
  | n, _ => n
end

/-! ## `updateLinkedGroups` (`GroupNode.cpp` 381-410). -/

/-- A `GroupNode*` as the update API sees it: C++ pointer identity is
modelled by an explicit reference (the node's path in the document tree, or
any unique tag), carried next to the group content and children. -/
structure GroupNode where
  ref : List Nat
  grp : Group
  children : NodeList
deriving DecidableEq, Repr

/-- The tree rooted at a group node. -/
def GroupNode.node (g : GroupNode) : Node := .group g.grp g.children

/-- `UpdateLinkedGroupsResult`: pairs of target-node reference and computed
replacement children. -/
abbrev UpdateLinkedGroupsResult := List (List Nat × NodeList)

/-- `updateLinkedGroups(sourceGroupNode, targetGroupNodes, worldBounds)`:
invert the source transformation (else `NotInvertible`), drop the source
itself from the target list (`kdl::vec_erase` by pointer), and for every
remaining target clone the source's children with
`target.transformation * inverse(source.transformation)`, then run both
reconciliation passes against the target's current children. -/
def updateLinkedGroups (sourceGroupNode : GroupNode)
    (targetGroupNodes : List GroupNode) (worldBounds : BBox) :
    Except Err UpdateLinkedGroupsResult :=
  let res := vmInvert sourceGroupNode.grp.transformation
  if res.1 then
    let invertedSourceTransformation := res.2
    let targetGroupNodesToUpdate :=
      targetGroupNodes.filter (fun t => t.ref ≠ sourceGroupNode.ref)
    foldResults (targetGroupNodesToUpdate.map fun targetGroupNode =>
      let transformation :=
        targetGroupNode.grp.transformation.comp invertedSourceTransformation
      (cloneAndTransformChildren sourceGroupNode.node worldBounds
          transformation).map
        fun newChildren =>
          (targetGroupNode.ref,
           preserveEntityPropertiesList
             (preserveGroupNames newChildren targetGroupNode.children)
             targetGroupNode.children))
  else .error "Group transformation is not invertible"

/-! ## Link-ID management (`GroupNode.cpp` 315-481). -/

/-- The variant tag of a node (`dynamic_cast` checks in the source test
only the variant). -/
inductive NodeKind where
  | world
  | layer
  | group
  | entity
  | brush
  | patch
deriving DecidableEq, Repr

def Node.kind : Node → NodeKind
  | .world _ => .world
  | .layer _ => .layer
  | .group _ _ => .group
  | .entity _ _ => .entity
  | .brush _ _ => .brush
  | .patch _ _ => .patch

/-- Replace a node's children, keeping its content. -/
def Node.withChildren : Node → NodeList → Node
  | .world _, cs => .world cs
  | .layer _, cs => .layer cs
  | .group g _, cs => .group g cs
  | .entity e _, cs => .entity e cs
  | .brush b _, cs => .brush b cs
  | .patch p _, cs => .patch p cs

/-- `groupNode.group().linkedGroupId()` for a group node (`none` for other
variants, which the C++ type system rules out). -/
def Node.linkedGroupId : Node → Option String
  | .group g _ => g.linkedGroupId
  | _ => none

/-- `checkType<N>(node, successResult)`: succeed with the given recursion
flag when the node has the expected variant, otherwise the structural
mismatch error. -/
def checkType (expected : NodeKind) (node : Node) (successResult : Bool) :
    Except Err Bool :=
  if node.kind = expected then .ok successResult
  else .error "Inconsistent linked group structure"

/-- `makeCopyLinkIds(containingLinkedGroupId)`: the per-position visitor of
the link-id copy walk.  Returns the recursion flag and the (possibly
updated) target node.  The source-layer case checks the target against
`WorldNode` exactly as the source does (`GroupNode.cpp` 351); it is
unreachable below a group.  The `ensure` that a source entity carries a
link id is modelled as a distinctively worded error. -/
def makeCopyLinkIds (containingLinkedGroupId : String)
    (sourceNode targetNode : Node) : Except Err (Bool × Node) :=
  match sourceNode with
  | .world _ => (checkType .world targetNode true).map ((·, targetNode))
  | .layer _ => (checkType .world targetNode true).map ((·, targetNode))
  | .group sg _ =>
    let nestedLinkedGroupId := sg.linkedGroupId
    let recurse : Bool :=
      nestedLinkedGroupId = none ∨
        nestedLinkedGroupId = some containingLinkedGroupId
    (checkType .group targetNode recurse).map ((·, targetNode))
  | .entity se _ =>
    match targetNode with
    | .entity te tcs =>
      match se.linkId with
      | none => .error (ensureFailed "Source entity has link ID")
      | some i => .ok (true, .entity (te.setLinkId i) tcs)
    | _ => .error "Inconsistent linked group structure"
  | .brush _ _ => (checkType .brush targetNode false).map ((·, targetNode))
  | .patch _ _ => (checkType .patch targetNode false).map ((·, targetNode))

/-- The result and final state of an in-place mutating walk: the C++
functions mutate the target through a reference and return `Result<void>`;
the model returns the updated target next to the result, also on failure
(mutations performed before the failure point persist, exactly as in the
source; `setLinkIds` relies on rollback to erase them). -/
abbrev WalkResult (α : Type) := Except Err Unit × α

mutual
/-- `visitNodesPerPosition` (the binary walker of `GroupNode.cpp` 315-336):
apply `f` at the corresponding pair, and if it asks to recurse, require
equal child counts and walk the children in lock-step. -/
def visitNodesPerPosition (f : Node → Node → Except Err (Bool × Node)) :
    Node → Node → WalkResult Node
  | sourceNode, targetNode =>
    match sourceNode with
    | .world cs => visitAt f (.world cs) cs targetNode
    | .layer cs => visitAt f (.layer cs) cs targetNode
    | .group g cs => visitAt f (.group g cs) cs targetNode
    | .entity e cs => visitAt f (.entity e cs) cs targetNode
    | .brush b cs => visitAt f (.brush b cs) cs targetNode
    | .patch p cs => visitAt f (.patch p cs) cs targetNode

/-- Body of `visitNodesPerPosition` at one pair, with the source node's
children passed separately for the recursive descent. -/
def visitAt (f : Node → Node → Except Err (Bool × Node)) (sourceNode : Node)
    (sourceChildren : NodeList) (targetNode : Node) : WalkResult Node :=
  match f sourceNode targetNode with
  | .error e => (.error e, targetNode)
  | .ok (recurse, targetNode2) =>
    if recurse then
      if sourceChildren.length = targetNode2.childCount then
        let res := visitChildrenPerPosition f sourceChildren
          targetNode2.children
        (res.1, targetNode2.withChildren res.2)
      else (.error "Inconsistent linked group structure", targetNode2)
    else (.ok (), targetNode2)

/-- Lock-step walk of two child lists.  `kdl::vec_transform` over the zip
range visits every pair eagerly; the first error (in order) is the overall
result, later mutations still happen. -/
def visitChildrenPerPosition (f : Node → Node → Except Err (Bool × Node)) :
    NodeList → NodeList → WalkResult NodeList
  | .nil, ts => (.ok (), ts)
  | .cons _ _, .nil => (.ok (), .nil)
  | .cons s ss, .cons t ts =>
    let hd := visitNodesPerPosition f s t
    let tl := visitChildrenPerPosition f ss ts
    (match hd.1 with
     | .error e => .error e
     | .ok _ => tl.1,
     .cons hd.2 tl.2)
end

/-- `copyLinkIds(sourceNode, targetNode)`: walk both trees copying link ids
positionally.  The source dereferences `*sourceNode.group().linkedGroupId()`
(callers guarantee it is engaged); the model defaults to `""` when not. -/
def copyLinkIds (sourceNode targetNode : Node) : WalkResult Node :=
  visitNodesPerPosition
    (makeCopyLinkIds (sourceNode.linkedGroupId.getD "")) sourceNode targetNode

mutual
/-- The recursive link-id assignment pass at the head of `setLinkIds`
(`GroupNode.cpp` 428-447): every entity under the source group receives a
fresh id (`generateUuid`, modelled by the counter), recursing through
entities and through groups that are unlinked or belong to the same link
set, but not into nested foreign linked groups. -/
def assignLinkIds (sourceLinkedGroupId : Option String) :
    Node → Nat → Node × Nat
  | .world cs, c => (.world cs, c)
  | .layer cs, c => (.layer cs, c)
  | .group g cs, c =>
    if g.linkedGroupId = none ∨ g.linkedGroupId = sourceLinkedGroupId then
      let res := assignLinkIdsList sourceLinkedGroupId cs c
      (.group g res.1, res.2)
    else (.group g cs, c)
  | .entity e cs, c =>
    let res := assignLinkIdsList sourceLinkedGroupId cs (c + 1)
    (.entity (e.setLinkId c) res.1, res.2)
  | .brush b cs, c => (.brush b cs, c)
  | .patch p cs, c => (.patch p cs, c)

def assignLinkIdsList (sourceLinkedGroupId : Option String) :
    NodeList → Nat → NodeList × Nat
  | .nil, c => (.nil, c)
  | .cons h t, c =>
    let rh := assignLinkIds sourceLinkedGroupId h c
    let rt := assignLinkIdsList sourceLinkedGroupId t rh.2
    (.cons rh.1 rt.1, rt.2)
end

mutual
/-- The per-node action of `resetLinkIds` (`GroupNode.cpp` 460-481): clear
the link id of every entity reached by recursing through world, layer and
group nodes; the entity case itself does not recurse further. -/
def resetLinkIdsNode : Node → Node
  | .world cs => .world (resetLinkIdsList cs)
  | .layer cs => .layer (resetLinkIdsList cs)
  | .group g cs => .group g (resetLinkIdsList cs)
  | .entity e cs => .entity e.resetLinkId cs
  | .brush b cs => .brush b cs
  | .patch p cs => .patch p cs

def resetLinkIdsList : NodeList → NodeList
  | .nil => .nil
  | .cons h t => .cons (resetLinkIdsNode h) (resetLinkIdsList t)
end

/-- `resetLinkIds(groupNodes)`. -/
def resetLinkIds (groupNodes : List Node) : List Node :=
  groupNodes.map resetLinkIdsNode

/-- `setLinkIds(groupNodes)`: reject link sets of fewer than two groups,
assign fresh ids below the first (source) group, copy them positionally to
every other group, and on any copy failure roll the whole list back with
`resetLinkIds`.  The model returns the updated group list and the advanced
uuid counter next to the result. -/
def setLinkIds (groupNodes : List Node) (ctr : Nat) :
    Except Err Unit × List Node × Nat :=
  match groupNodes with
  | g0 :: g1 :: rest =>
    let sourceLinkedGroupId := g0.linkedGroupId
    let ra := assignLinkIds sourceLinkedGroupId g0 ctr
    let copies := (g1 :: rest).map (fun t => copyLinkIds ra.1 t)
    let newGroups := ra.1 :: copies.map (·.2)
    match foldResults (copies.map (·.1)) with
    | .ok _ => (.ok (), newGroups, ra.2)
    | .error e => (.error e, resetLinkIds newGroups, ra.2)
  | _ => (.error "Link set must contain at least two groups", groupNodes, ctr)

/-! ## `UpdateLinkedGroupsHelper.cpp`. -/

namespace View

/-- The `<` the C++ `std::sort` uses on `std::optional<std::string>`:
`nullopt` sorts before every engaged value; engaged values compare by
string order.  Stated as the reflexive `≤` for the sort lemmas. -/
def optLe (a b : Option String) : Prop :=
  match a, b with
  | none, _ => True
  | some _, none => False
  | some x, some y => x ≤ y

instance : DecidableRel optLe := fun a b =>
  match a, b with
  | none, _ => .isTrue trivial
  | some _, none => .isFalse id
  | some x, some y => inferInstanceAs (Decidable (x ≤ y))

instance : IsTotal (Option String) optLe where
  total a b :=
    match a, b with
    | none, _ => .inl trivial
    | some _, none => .inr trivial
    | some x, some y => le_total x y

instance : IsTrans (Option String) optLe where
  trans a b c hab hbc :=
    match a, b, c with
    | none, _, _ => trivial
    | some _, none, _ => absurd hab id
    | some _, some _, none => absurd hbc id
    | some _, some _, some _ => le_trans hab hbc

theorem optLe_antisymm : ∀ {a b : Option String}, optLe a b → optLe b a → a = b
  | none, none, _, _ => rfl
  | none, some _, _, h => absurd h id
  | some _, none, h, _ => absurd h id
  | some _, some _, h1, h2 => congrArg some (le_antisymm h1 h2)

/-- `std::adjacent_find(begin, end) != end`: some element equals its
successor. -/
def hasAdjacentDuplicate [DecidableEq α] : List α → Bool
  | [] => false
  | [_] => false
  | a :: b :: t => a = b || hasAdjacentDuplicate (b :: t)

/-- `checkLinkedGroupsToUpdate(changedLinkedGroups)`: sort the groups'
`linkedGroupId`s and look for an adjacent duplicate; true iff there is
none. -/
def checkLinkedGroupsToUpdate (changedLinkedGroups : List GroupNode) : Bool :=
  !hasAdjacentDuplicate
    ((changedLinkedGroups.map (fun g => g.grp.linkedGroupId)).insertionSort
      optLe)

/-- The accumulator of `generateEntityLinkIds`: the uuid counter and the
entries of the result map.  A C++ map key (an `EntityNode*`) is modelled by
the pair of the node's index in the passed group list and its path below
that group. -/
abbrev GenState := Nat × List ((Nat × List Nat) × Nat)

/-- The visitor lambda of `generateEntityLinkIds`
(`UpdateLinkedGroupsHelper.cpp` 125-142): if the first node of the column
is an entity, generate one fresh id and record it for every node of the
column, failing if any of them is not an entity; otherwise skip the column.
The position is passed alongside to form the modelled map keys. -/
def genEntityLinkIdsVisitor (path : List Nat) (nodes : List Node)
    (st : GenState) : Option GenState :=
  match nodes with
  | [] => some st
  | first :: _ =>
    if first.kind = .entity then
      if nodes.all (fun n => n.kind = .entity) then
        some (st.1 + 1,
          st.2 ++ (List.range nodes.length).map (fun i => ((i, path), st.1)))
      else none
    else some st

def headOr (d : Node) : NodeList → Node
  | .nil => d
  | .cons h _ => h

def tailOf : NodeList → NodeList
  | .nil => .nil
  | .cons _ t => t

mutual
/-- `visitNodesPerPosition(nodes, f)` (the n-ary walker of
`UpdateLinkedGroupsHelper.cpp` 46-84), specialised to its one visitor and
to a nonempty column `first :: others` at position `path`: apply the
visitor, require all child counts to equal the first node's, then visit
the child columns in order.  `none` models the walk returning `false`. -/
def visitPosition (path : List Nat) (first : Node) (others : List Node)
    (st : GenState) : Option GenState :=
  match first with
  | .world cs => visitColumnsAt path (.world cs) cs others st
  | .layer cs => visitColumnsAt path (.layer cs) cs others st
  | .group g cs => visitColumnsAt path (.group g cs) cs others st
  | .entity e cs => visitColumnsAt path (.entity e cs) cs others st
  | .brush b cs => visitColumnsAt path (.brush b cs) cs others st
  | .patch p cs => visitColumnsAt path (.patch p cs) cs others st
termination_by 2 * sizeOf first

/-- Body of `visitPosition`, with the first node's children passed
separately for the descent. -/
def visitColumnsAt (path : List Nat) (first : Node)
    (firstChildren : NodeList) (others : List Node) (st : GenState) :
    Option GenState :=
  match genEntityLinkIdsVisitor path (first :: others) st with
  | none => none
  | some st2 =>
    if others.all (fun n => n.childCount = firstChildren.length) then
      visitColumns path 0 firstChildren (others.map Node.children) st2
    else none
termination_by 2 * sizeOf firstChildren + 1

/-- The `for (size_t i = 0; i < childCount; ++i)` loop: visit the `i`-th
child column, then the remaining ones. -/
def visitColumns (path : List Nat) (i : Nat) :
    NodeList → List NodeList → GenState → Option GenState
  | .nil, _, st => some st
  | .cons c cs, otherCols, st =>
    match visitPosition (path ++ [i]) c
        (otherCols.map (headOr (.world .nil))) st with
    | none => none
    | some st2 => visitColumns path (i + 1) cs (otherCols.map tailOf) st2
termination_by l _ _ => 2 * sizeOf l
end

/-- `generateEntityLinkIds(groupNodes)` (`UpdateLinkedGroupsHelper.cpp`
105-145): walk all groups positionally; every column whose first node is an
entity receives one fresh id, recorded for each node of the column; the
call returns `none` when the walk aborts.  The two `ensure` preconditions
(at least two groups, all sharing one engaged `linkedGroupId`) are carried
as hypotheses of the theorems about this function.  The walk starts at the
column of the passed group nodes themselves. -/
def generateEntityLinkIds (groupNodes : List Node) (ctr : Nat) :
    Option (List ((Nat × List Nat) × Nat)) :=
  match groupNodes with
  | [] => some []
  | g :: gs => (visitPosition [] g gs (ctr, [])).map (fun st => st.2)

/-- The applied state of an `UpdateLinkedGroupsHelper`
(`LinkedGroupUpdates`): pairs of an updated group node (by reference) and
the children that node owned before the update (owned detached nodes). -/
abbrev LinkedGroupUpdates := List (List Nat × NodeList)

/-- `UpdateLinkedGroupsHelper::collateWith(other)`
(`UpdateLinkedGroupsHelper.cpp` 167-199), on the two applied update lists:
for every update pair of `other` in order, if this helper has no pair for
the same node, append the pair to this helper's list, moving the old
children out of the other helper's pair (`std::move` leaves the other
pair's vector empty, but the pair itself stays in the other helper's
list); pairs for nodes this helper already updated are left alone in both
lists.  Returns (this helper's list, the other helper's list) after
collation. -/
def collateWith : LinkedGroupUpdates → LinkedGroupUpdates →
    LinkedGroupUpdates × LinkedGroupUpdates
  | myUpdates, [] => (myUpdates, [])
  | myUpdates, (theirGroupNodeToUpdate, theirOldChildren) :: restTheirs =>
    if myUpdates.any (fun p => p.1 = theirGroupNodeToUpdate) then
      let res := collateWith myUpdates restTheirs
      (res.1, (theirGroupNodeToUpdate, theirOldChildren) :: res.2)
    else
      let res :=
        collateWith (myUpdates ++ [(theirGroupNodeToUpdate, theirOldChildren)])
          restTheirs
      (res.1, (theirGroupNodeToUpdate, .nil) :: res.2)

/-- The slice of `MapDocumentCommandFacade` the update computation reads:
the world root and the configured world bounds. -/
structure MapDocumentCommandFacade where
  world : Node
  worldBounds : BBox

mutual
/-- Modelled from the spec: `Model::findLinkedGroups(roots, linkedGroupId)`
(external `ModelUtils`) returns the group nodes in the document whose
`linkedGroupId` equals the given id; references are the nodes' paths. -/
def findLinkedGroups (path : List Nat) (node : Node) (linkedGroupId : String) :
    List GroupNode :=
  match node with
  | .world cs => findLinkedGroupsList path 0 cs linkedGroupId
  | .layer cs => findLinkedGroupsList path 0 cs linkedGroupId
  | .group g cs =>
    if g.linkedGroupId = some linkedGroupId then
      ⟨path, g, cs⟩ :: findLinkedGroupsList path 0 cs linkedGroupId
    else findLinkedGroupsList path 0 cs linkedGroupId
  | .entity _ cs => findLinkedGroupsList path 0 cs linkedGroupId
  | .brush _ cs => findLinkedGroupsList path 0 cs linkedGroupId
  | .patch _ cs => findLinkedGroupsList path 0 cs linkedGroupId

def findLinkedGroupsList (path : List Nat) (i : Nat) (l : NodeList)
    (linkedGroupId : String) : List GroupNode :=
  match l with
  | .nil => []
  | .cons h t =>
    findLinkedGroups (path ++ [i]) h linkedGroupId ++
      findLinkedGroupsList path (i + 1) t linkedGroupId
end

/-- `UpdateLinkedGroupsHelper::computeLinkedGroupUpdates(changedLinkedGroups,
document)` (`UpdateLinkedGroupsHelper.cpp` 216-241): reject a batch holding
two members of one link set, then for every changed group update the other
live members of its link set, flattening all resulting update pairs. -/
def computeLinkedGroupUpdates (changedLinkedGroups : List GroupNode)
    (document : MapDocumentCommandFacade) : Except Err LinkedGroupUpdates :=
  if checkLinkedGroupsToUpdate changedLinkedGroups then
    (foldResults (changedLinkedGroups.map fun groupNode =>
      let groupNodesToUpdate :=
        (findLinkedGroups [] document.world
            (groupNode.grp.linkedGroupId.getD "")).filter
          (fun t => t.ref ≠ groupNode.ref)
      updateLinkedGroups groupNode groupNodesToUpdate
        document.worldBounds)).map List.flatten
  else .error "Cannot update multiple members of the same link set"

end View

/-! ## Auxiliary notions used to state the verified properties.

These definitions are derived from the embedded code above; they name the
quantities the properties talk about (individual clone bounds, tree
positions, structural isomorphism, ...). -/

/-- The logical bounds a node reports while it has no children: the box the
bounds check of `cloneAndTransformRecursive` actually tests, since children
are attached only after the check. -/
def Node.childlessBounds (n : Node) : BBox :=
  (n.withChildren .nil).logicalBounds

mutual
/-- The unchecked clone-and-transform of a subtree: every node's content
transformed (the pure content pre-pass of `cloneAndTransformChildren`),
with the tree structure kept.  `cloneAndTransformRecursive` returns exactly
this tree when every bounds check passes. -/
def transformTree (t : Affine) : Node → Node
  | .world cs => .world (transformForest t cs)
  | .layer cs => .layer (transformForest t cs)
  | .group g cs => .group (g.transform t) (transformForest t cs)
  | .entity e cs => .entity (e.transform t) (transformForest t cs)
  | .brush b cs =>
    .brush { vertices := b.vertices.map t.apply } (transformForest t cs)
  | .patch p cs => .patch (p.transform t) (transformForest t cs)

def transformForest (t : Affine) : NodeList → NodeList
  | .nil => .nil
  | .cons h rest => .cons (transformTree t h) (transformForest t rest)
end

mutual
/-- A subtree's nodes, root first, in depth-first order (the order of
`collectNodesToCloneAndTransform`). -/
def subtreeNodes : Node → List Node
  | .world cs => .world cs :: forestNodes cs
  | .layer cs => .layer cs :: forestNodes cs
  | .group g cs => .group g cs :: forestNodes cs
  | .entity e cs => .entity e cs :: forestNodes cs
  | .brush b cs => .brush b cs :: forestNodes cs
  | .patch p cs => .patch p cs :: forestNodes cs

def forestNodes : NodeList → List Node
  | .nil => []
  | .cons h rest => subtreeNodes h ++ forestNodes rest
end

/-- `collectNodesToCloneAndTransform(node)`: the node's descendants (the
node itself skipped), depth first. -/
def collectNodesToCloneAndTransform (node : Node) : List Node :=
  forestNodes node.children

mutual
/-- Whether a subtree is free of World and Layer nodes (the caller-side
invariant of the clone engine; hitting either variant is an `ensure`
abort). -/
def noWorldLayer : Node → Bool
  | .world _ => false
  | .layer _ => false
  | .group _ cs => noWorldLayerL cs
  | .entity _ cs => noWorldLayerL cs
  | .brush _ cs => noWorldLayerL cs
  | .patch _ cs => noWorldLayerL cs

def noWorldLayerL : NodeList → Bool
  | .nil => true
  | .cons h rest => noWorldLayer h && noWorldLayerL rest
end

mutual
/-- Every node of the transformed forest passes its individual bounds
check: the transformed content's childless bounds lie within the world
bounds. -/
def allFit (worldBounds : BBox) (t : Affine) : Node → Bool
  | .world cs => allFitL worldBounds t cs
  | .layer cs => allFitL worldBounds t cs
  | .group g cs =>
    worldBounds.contains (Node.group (g.transform t) .nil).logicalBounds &&
      allFitL worldBounds t cs
  | .entity e cs =>
    worldBounds.contains (Node.entity (e.transform t) .nil).logicalBounds &&
      allFitL worldBounds t cs
  | .brush b cs =>
    worldBounds.contains
        (Node.brush { vertices := b.vertices.map t.apply } .nil).logicalBounds &&
      allFitL worldBounds t cs
  | .patch p cs =>
    worldBounds.contains (Node.patch (p.transform t) .nil).logicalBounds &&
      allFitL worldBounds t cs

def allFitL (worldBounds : BBox) (t : Affine) : NodeList → Bool
  | .nil => true
  | .cons h rest => allFit worldBounds t h && allFitL worldBounds t rest
end

/-- The node at a tree position (a path of child indices). -/
def getAt : List Nat → Node → Option Node
  | [], n => some n
  | i :: p, n =>
    match n.children.get? i with
    | some c => getAt p c
    | none => none

/-- The link id of the entity at a position: `some o` when the position
holds an entity whose `linkId` is `o`, `none` when the position is absent
or not an entity. -/
def entityLinkIdAt (n : Node) (p : List Nat) : Option (Option Nat) :=
  match getAt p n with
  | some (.entity e _) => some e.linkId
  | _ => none

mutual
/-- No entity anywhere in the subtree has a link id set (the test helper
`hasAnyEntityLinks` being false, extended to look below every node). -/
def noLinkIdsSet : Node → Bool
  | .world cs => noLinkIdsSetL cs
  | .layer cs => noLinkIdsSetL cs
  | .group _ cs => noLinkIdsSetL cs
  | .entity e cs => e.linkId = none && noLinkIdsSetL cs
  | .brush _ cs => noLinkIdsSetL cs
  | .patch _ cs => noLinkIdsSetL cs

def noLinkIdsSetL : NodeList → Bool
  | .nil => true
  | .cons h rest => noLinkIdsSet h && noLinkIdsSetL rest
end

mutual
/-- Structural isomorphism: the same variant at every corresponding
position, with equal child counts (the property the link-id copy walk
validates). -/
def sameShape : Node → Node → Bool
  | .world cs, b => b.kind = NodeKind.world && sameShapeL cs b.children
  | .layer cs, b => b.kind = NodeKind.layer && sameShapeL cs b.children
  | .group _ cs, b => b.kind = NodeKind.group && sameShapeL cs b.children
  | .entity _ cs, b => b.kind = NodeKind.entity && sameShapeL cs b.children
  | .brush _ cs, b => b.kind = NodeKind.brush && sameShapeL cs b.children
  | .patch _ cs, b => b.kind = NodeKind.patch && sameShapeL cs b.children

def sameShapeL : NodeList → NodeList → Bool
  | .nil, .nil => true
  | .cons a as, .cons b bs => sameShape a b && sameShapeL as bs
  | _, _ => false
end

/-- Whether a node is a brush or patch node. -/
def Node.isBrushOrPatch (n : Node) : Bool :=
  n.kind = NodeKind.brush || n.kind = NodeKind.patch

def NodeList.allB (p : Node → Bool) : NodeList → Bool
  | .nil => true
  | .cons h rest => p h && NodeList.allB p rest

mutual
/-- Modelled from the spec: the containment rules of the scene graph
(external collaborators) for subtrees living inside groups — no World or
Layer nodes, entities contain only brush or patch nodes, brush and patch
nodes are leaves. -/
def sceneOk : Node → Bool
  | .world _ => false
  | .layer _ => false
  | .group _ cs => sceneOkL cs
  | .entity _ cs => NodeList.allB Node.isBrushOrPatch cs && sceneOkL cs
  | .brush _ cs => cs.length = 0
  | .patch _ cs => cs.length = 0

def sceneOkL : NodeList → Bool
  | .nil => true
  | .cons h rest => sceneOk h && sceneOkL rest
end

mutual
/-- Every group in the subtree either has no `linkedGroupId` or carries the
given one: the condition under which the link-id passes recurse through the
whole subtree (no nested foreign link sets). -/
def noForeignNested (sid : Option String) : Node → Bool
  | .world cs => noForeignNestedL sid cs
  | .layer cs => noForeignNestedL sid cs
  | .group g cs =>
    (g.linkedGroupId = none ∨ g.linkedGroupId = sid) && noForeignNestedL sid cs
  | .entity _ cs => noForeignNestedL sid cs
  | .brush _ cs => noForeignNestedL sid cs
  | .patch _ cs => noForeignNestedL sid cs

def noForeignNestedL (sid : Option String) : NodeList → Bool
  | .nil => true
  | .cons h rest => noForeignNested sid h && noForeignNestedL sid rest
end

/-- The link id found below a child list at a list position (the head index
selects the child, the tail descends into it). -/
def forestEntityLinkIdAt (l : NodeList) (p : List Nat) : Option (Option Nat) :=
  match p with
  | [] => none
  | i :: q =>
    match l.get? i with
    | some ch => entityLinkIdAt ch q
    | none => none

mutual
/-- Every entity in the subtree has a link id assigned. -/
def allIdsSet : Node → Bool
  | .world cs => allIdsSetL cs
  | .layer cs => allIdsSetL cs
  | .group _ cs => allIdsSetL cs
  | .entity e cs => e.linkId.isSome && allIdsSetL cs
  | .brush _ cs => allIdsSetL cs
  | .patch _ cs => allIdsSetL cs

def allIdsSetL : NodeList → Bool
  | .nil => true
  | .cons h rest => allIdsSet h && allIdsSetL rest
end

/-- Whether the node at a position below `x` is an entity node. -/
def entityAt (x : Node) (p : List Nat) : Bool :=
  match getAt p x with
  | some n => n.kind = NodeKind.entity
  | none => false

/-- The node at a position, defaulting to an empty world node (the walks
only read defaulted nodes at positions every tree carries). -/
def nodeAtD (x : Node) (p : List Nat) : Node :=
  (getAt p x).getD (.world .nil)

/-- Drop the first `k` children of a child list. -/
def tailN : Nat → NodeList → NodeList
  | 0, l => l
  | k + 1, l => tailN k (View.tailOf l)

/-- The structural fault the `generateEntityLinkIds` walk aborts on at the
column of a position: some node there has a child count different from the
first node's, or the first node is an entity while some other node is not.
A mixed column whose first node is not an entity is no fault: the visitor
skips it. -/
def badColumnAt (p : List Nat) (first : Node) (others : List Node) : Bool :=
  others.any (fun t =>
      !((nodeAtD t p).childCount = (nodeAtD first p).childCount)) ||
    ((nodeAtD first p).kind = NodeKind.entity &&
      others.any (fun t => !((nodeAtD t p).kind = NodeKind.entity)))

/-- Uniform-walk specification of one `generateEntityLinkIds` walk step
rooted at `path`: the walk succeeds, the uuid counter never decreases, and
the map entries appended to the accumulator are exactly one shared fresh id
per entity position of the first tree below `path`, given to every column
index below `n`, with distinct ids across distinct positions. -/
def WalkSpec (path : List Nat) (first : Node) (n : Nat)
    (res : Option View.GenState) (st : View.GenState) : Prop :=
  ∃ st2, res = some st2 ∧ st.1 ≤ st2.1 ∧
    ∃ Δ, st2.2 = st.2 ++ Δ ∧
      (∀ i q c, ((i, q), c) ∈ Δ →
        ∃ q0, q = path ++ q0 ∧ entityAt first q0 = true ∧
          i < n ∧ st.1 ≤ c ∧ c < st2.1) ∧
      (∀ q0, entityAt first q0 = true →
        ∃ c, ∀ i, i < n → ((i, path ++ q0), c) ∈ Δ) ∧
      (∀ i q c i2 q2 c2, ((i, q), c) ∈ Δ → ((i2, q2), c2) ∈ Δ →
        (c = c2 ↔ q = q2))

/-- The same specification for the column loop of the walk, at remaining
first-tree columns `cs` starting with column index `j`. -/
def ColsSpec (path : List Nat) (j : Nat) (cs : NodeList) (n : Nat)
    (res : Option View.GenState) (st : View.GenState) : Prop :=
  ∃ st2, res = some st2 ∧ st.1 ≤ st2.1 ∧
    ∃ Δ, st2.2 = st.2 ++ Δ ∧
      (∀ i q c, ((i, q), c) ∈ Δ →
        ∃ k ck q0, cs.get? k = some ck ∧ q = path ++ (j + k) :: q0 ∧
          entityAt ck q0 = true ∧ i < n ∧ st.1 ≤ c ∧ c < st2.1) ∧
      (∀ k ck q0, cs.get? k = some ck → entityAt ck q0 = true →
        ∃ c, ∀ i, i < n → ((i, path ++ (j + k) :: q0), c) ∈ Δ) ∧
      (∀ i q c i2 q2 c2, ((i, q), c) ∈ Δ → ((i2, q2), c2) ∈ Δ →
        (c = c2 ↔ q = q2))

/-! # Theorems -/

/-! ## Shared lemmas. -/

theorem nodup_of_sorted_no_adjdup :
    ∀ l : List (Option String), l.Sorted View.optLe →
      View.hasAdjacentDuplicate l = false → l.Nodup
  | [], _, _ => List.nodup_nil
  | [a], _, _ => List.nodup_singleton a
  | a :: b :: t, hs, hd => by
    rw [View.hasAdjacentDuplicate] at hd
    rw [Bool.or_eq_false_iff] at hd
    obtain ⟨hab, hrec⟩ := hd
    have hab' : a ≠ b := by simpa using hab
    have hsorted_tail : (b :: t).Sorted View.optLe := hs.tail
    have ih := nodup_of_sorted_no_adjdup (b :: t) hsorted_tail hrec
    rw [List.nodup_cons]
    refine ⟨?_, ih⟩
    intro hmem
    rcases List.mem_cons.mp hmem with h | h
    · exact hab' h
    · have h1 : View.optLe a b := (List.sorted_cons.mp hs).1 b (List.mem_cons_self b t)
      have h2 : View.optLe b a := (List.sorted_cons.mp hsorted_tail).1 a h
      exact hab' (View.optLe_antisymm h1 h2)

theorem not_nodup_of_adjdup [DecidableEq α] :
    ∀ l : List α, View.hasAdjacentDuplicate l = true → ¬ l.Nodup
  | a :: b :: t, hd, hn => by
    rw [View.hasAdjacentDuplicate, Bool.or_eq_true] at hd
    rcases hd with h | h
    · rw [List.nodup_cons] at hn
      exact hn.1 (by simp at h; simp [h])
    · exact not_nodup_of_adjdup (b :: t) h hn.of_cons

theorem checkLinkedGroupsToUpdate_iff (changedLinkedGroups : List GroupNode) :
    View.checkLinkedGroupsToUpdate changedLinkedGroups = true ↔
      (changedLinkedGroups.map (fun g => g.grp.linkedGroupId)).Nodup := by
  rw [View.checkLinkedGroupsToUpdate, Bool.not_eq_true']
  constructor
  · intro h
    exact ((List.perm_insertionSort View.optLe _).nodup_iff).mp
      (nodup_of_sorted_no_adjdup _ (List.sorted_insertionSort View.optLe _) h)
  · intro h
    by_contra hab
    rw [Bool.not_eq_false] at hab
    exact not_nodup_of_adjdup _ hab
      (((List.perm_insertionSort View.optLe _).nodup_iff).mpr h)

/-! ## C9: link set size guard. -/

/-- C9: `setLinkIds` called with zero or one groups fails with the
`LinkSetTooSmall` error ("Link set must contain at least two groups") and
mutates nothing: the groups and the uuid counter are returned unchanged. -/
theorem setLinkIds_link_set_too_small (groupNodes : List Node) (ctr : Nat)
    (h : groupNodes.length < 2) :
    setLinkIds groupNodes ctr =
      (.error "Link set must contain at least two groups", groupNodes, ctr) := by
  match groupNodes with
  | [] => rfl
  | [g] => rfl
  | g0 :: g1 :: rest => simp [List.length] at h; omega

theorem setLinkIds_link_set_too_small_witness :
    ([] : List Node).length < 2 ∧
      setLinkIds [] 0 =
        (.error "Link set must contain at least two groups", [], 0) :=
  ⟨by decide, setLinkIds_link_set_too_small [] 0 (by decide)⟩

/-! ## C1: collation of applied update batches. -/

/-- C1 (counterexample): an update pair whose target was updated only by
the other helper is *not* removed from the other helper's update list:
after `collateWith`, the other list still holds a pair for that target
(with its old children moved out), here `([0], nil)` rather than the empty
list the claim requires. -/
theorem collateWith_pair_remains :
    (View.collateWith [] [([0], NodeList.nil)] =
      ([([0], NodeList.nil)], [([0], NodeList.nil)])) ∧
    ((View.collateWith [] [([0], NodeList.nil)]).2.map Prod.fst ≠ []) := by
  constructor
  · rfl
  · intro h
    simp [View.collateWith] at h

/-- C1 (amended): assuming each target appears at most once in the other
helper's update list, `collateWith` (1) keeps every pair of this helper's
list unchanged — for a target updated by both helpers this helper's earlier
old-children win, the other's are not adopted — and appends, in order, the
pairs of the other helper whose targets this helper did not update; and
(2) in the other helper's list every adopted pair has its old-children
moved out (left empty), while the pair itself remains in that list; pairs
for targets updated by both helpers stay untouched in the other list. -/
theorem collateWith_spec (myUpdates theirUpdates : View.LinkedGroupUpdates)
    (hnd : (theirUpdates.map Prod.fst).Nodup) :
    (View.collateWith myUpdates theirUpdates).1 =
      myUpdates ++ theirUpdates.filter
        (fun p => !(myUpdates.any (fun q => q.1 = p.1))) ∧
    (View.collateWith myUpdates theirUpdates).2 =
      theirUpdates.map
        (fun p => if myUpdates.any (fun q => q.1 = p.1) then p
                  else (p.1, NodeList.nil)) := by
  induction theirUpdates generalizing myUpdates with
  | nil => simp [View.collateWith]
  | cons p rest ih =>
    rw [List.map_cons, List.nodup_cons] at hnd
    obtain ⟨hp, hrest⟩ := hnd
    have hnotin : ∀ r ∈ rest, r.1 ≠ p.1 := fun r hr heq =>
      hp (List.mem_map.mpr ⟨r, hr, heq⟩)
    by_cases hmem : myUpdates.any (fun q => q.1 = p.1) = true
    · obtain ⟨ih1, ih2⟩ := ih myUpdates hrest
      have hstep : View.collateWith myUpdates (p :: rest) =
          ((View.collateWith myUpdates rest).1,
           p :: (View.collateWith myUpdates rest).2) := by
        simp [View.collateWith, hmem]
      rw [hstep]
      constructor
      · rw [ih1, List.filter_cons]
        simp [hmem]
      · rw [ih2, List.map_cons]
        simp [hmem]
    · obtain ⟨ih1, ih2⟩ := ih (myUpdates ++ [p]) hrest
      have hstep : View.collateWith myUpdates (p :: rest) =
          ((View.collateWith (myUpdates ++ [p]) rest).1,
           (p.1, NodeList.nil) ::
             (View.collateWith (myUpdates ++ [p]) rest).2) := by
        simp [View.collateWith, hmem]
      have hcond : ∀ r ∈ rest,
          ((myUpdates ++ [p]).any (fun q => decide (q.1 = r.1))) =
            (myUpdates.any (fun q => decide (q.1 = r.1))) := by
        intro r hr
        have hd : decide (p.1 = r.1) = false :=
          decide_eq_false (fun h => hnotin r hr h.symm)
        rw [List.any_append]
        simp [hd]
      rw [hstep]
      constructor
      · rw [ih1, List.filter_cons]
        have hfilt : rest.filter
            (fun r => !((myUpdates ++ [p]).any (fun q => decide (q.1 = r.1)))) =
            rest.filter
              (fun r => !(myUpdates.any (fun q => decide (q.1 = r.1)))) := by
          apply List.filter_congr
          intro r hr
          rw [hcond r hr]
        rw [hfilt]
        simp [hmem]
      · rw [ih2, List.map_cons]
        have hmap : rest.map (fun r =>
            if (myUpdates ++ [p]).any (fun q => decide (q.1 = r.1)) then r
            else (r.1, NodeList.nil)) =
          rest.map (fun r =>
            if myUpdates.any (fun q => decide (q.1 = r.1)) then r
            else (r.1, NodeList.nil)) := by
          apply List.map_congr_left
          intro r hr
          rw [hcond r hr]
        rw [hmap]
        simp [hmem]

theorem collateWith_spec_witness :
    (([([1], NodeList.nil)] : View.LinkedGroupUpdates).map Prod.fst).Nodup ∧
    (View.collateWith [([0], NodeList.nil)] [([1], NodeList.nil)]).1 =
      [([0], NodeList.nil)] ++
        ([([1], NodeList.nil)] : View.LinkedGroupUpdates).filter
          (fun p =>
            !(([([0], NodeList.nil)] : View.LinkedGroupUpdates).any
              (fun q => q.1 = p.1))) ∧
    (View.collateWith [([0], NodeList.nil)] [([1], NodeList.nil)]).2 =
      ([([1], NodeList.nil)] : View.LinkedGroupUpdates).map
        (fun p =>
          if ([([0], NodeList.nil)] : View.LinkedGroupUpdates).any
              (fun q => q.1 = p.1) then p
          else (p.1, NodeList.nil)) :=
  ⟨by decide,
   (collateWith_spec [([0], NodeList.nil)] [([1], NodeList.nil)] (by decide)).1,
   (collateWith_spec [([0], NodeList.nil)] [([1], NodeList.nil)] (by decide)).2⟩

/-! ## C8: no-op target lists. -/

/-- C8 (counterexample): `updateLinkedGroups(g, {}, wb)` does not succeed
for every source group: the source's transformation is inverted before the
target list is examined, so a source with a singular transformation makes
even the empty-target call fail with the `NotInvertible` error. -/
theorem updateLinkedGroups_noop_requires_invertible :
    updateLinkedGroups
        ⟨[], ⟨"g", ⟨⟨0, 0, 0, 0, 0, 0, 0, 0, 0⟩, ⟨0, 0, 0⟩⟩, none⟩, .nil⟩ []
        (BBox.cube 8192) =
      .error "Group transformation is not invertible" := by
  norm_num [updateLinkedGroups, vmInvert, Mat3.det]

/-- C8 (amended): provided the source group's transformation is invertible,
`updateLinkedGroups(g, {}, wb)` and `updateLinkedGroups(g, {g}, wb)` both
succeed with an empty result list: the source is filtered out of the target
list before any processing. -/
theorem updateLinkedGroups_noop_targets (sourceGroupNode : GroupNode)
    (worldBounds : BBox)
    (h : (vmInvert sourceGroupNode.grp.transformation).1 = true) :
    updateLinkedGroups sourceGroupNode [] worldBounds = .ok [] ∧
    updateLinkedGroups sourceGroupNode [sourceGroupNode] worldBounds =
      .ok [] := by
  constructor <;> simp [updateLinkedGroups, h, foldResults]

theorem updateLinkedGroups_noop_targets_witness :
    (vmInvert (⟨[], ⟨"g", Affine.id, none⟩, .nil⟩ : GroupNode).grp.transformation).1
        = true ∧
    updateLinkedGroups ⟨[], ⟨"g", Affine.id, none⟩, .nil⟩ [] (BBox.cube 8192) =
      .ok [] ∧
    updateLinkedGroups ⟨[], ⟨"g", Affine.id, none⟩, .nil⟩
        [⟨[], ⟨"g", Affine.id, none⟩, .nil⟩] (BBox.cube 8192) = .ok [] := by
  have hinv : (vmInvert (⟨[], ⟨"g", Affine.id, none⟩,
      .nil⟩ : GroupNode).grp.transformation).1 = true := by
    norm_num [vmInvert, Affine.id, Mat3.det, Mat3.id]
  exact ⟨hinv,
    (updateLinkedGroups_noop_targets _ (BBox.cube 8192) hinv).1,
    (updateLinkedGroups_noop_targets _ (BBox.cube 8192) hinv).2⟩

/-! ## C7: same-link-set batch guard. -/

/-- C7: `checkLinkedGroupsToUpdate(groups)` is true exactly when no two
entries of the group list share a `linkedGroupId`; and a batch containing
two members of one link set makes `computeLinkedGroupUpdates` fail with the
`SameLinkSetMultipleMembers` error ("Cannot update multiple members of the
same link set") — its result is that error unconditionally, so no
clone-and-transform computation can influence it. -/
theorem checkLinkedGroupsToUpdate_spec
    (changedLinkedGroups : List GroupNode) :
    (View.checkLinkedGroupsToUpdate changedLinkedGroups = true ↔
      (changedLinkedGroups.map (fun g => g.grp.linkedGroupId)).Nodup) ∧
    (∀ document : View.MapDocumentCommandFacade,
      ¬ (changedLinkedGroups.map (fun g => g.grp.linkedGroupId)).Nodup →
        View.computeLinkedGroupUpdates changedLinkedGroups document =
          .error "Cannot update multiple members of the same link set") := by
  refine ⟨checkLinkedGroupsToUpdate_iff changedLinkedGroups, ?_⟩
  intro document h
  have hc : View.checkLinkedGroupsToUpdate changedLinkedGroups = false := by
    by_contra hx
    rw [Bool.not_eq_false] at hx
    exact h ((checkLinkedGroupsToUpdate_iff _).mp hx)
  simp [View.computeLinkedGroupUpdates, hc]

theorem checkLinkedGroupsToUpdate_spec_witness :
    ¬ (([⟨[0], ⟨"a", Affine.id, none⟩, .nil⟩,
         ⟨[1], ⟨"b", Affine.id, none⟩, .nil⟩] : List GroupNode).map
        (fun g => g.grp.linkedGroupId)).Nodup ∧
    View.computeLinkedGroupUpdates
        [⟨[0], ⟨"a", Affine.id, none⟩, .nil⟩,
         ⟨[1], ⟨"b", Affine.id, none⟩, .nil⟩]
        ⟨.world .nil, BBox.zeroBox⟩ =
      .error "Cannot update multiple members of the same link set" :=
  ⟨by decide,
   (checkLinkedGroupsToUpdate_spec _).2 ⟨.world .nil, BBox.zeroBox⟩ (by decide)⟩


/-! ## C3: protected-property preservation. -/


theorem findProperty_filter_self (ps : List EntityProperty) (k : String) :
    findProperty (ps.filter (fun p => !decide (p.1 = k))) k = none := by
  induction ps with
  | nil => rfl
  | cons p ps ih =>
    rw [List.filter_cons]
    by_cases h : p.1 = k
    · simp [h, ih]
    · simp [h, findProperty, ih]

theorem findProperty_filter_other (ps : List EntityProperty) (k j : String)
    (h : j ≠ k) :
    findProperty (ps.filter (fun p => !decide (p.1 = k))) j =
      findProperty ps j := by
  induction ps with
  | nil => rfl
  | cons p ps ih =>
    rw [List.filter_cons]
    by_cases hp : p.1 = k
    · have : p.1 ≠ j := by rw [hp]; exact fun hh => h hh.symm
      simp [hp, findProperty, this, ih, Ne.symm h]
    · by_cases hj : p.1 = j
      · simp [hp, findProperty, hj, h]
      · simp [hp, findProperty, hj, ih]

theorem findProperty_updateOrAppend_self (ps : List EntityProperty)
    (k v : String) :
    findProperty (updateOrAppend k v ps) k = some v := by
  induction ps with
  | nil => simp [updateOrAppend, findProperty]
  | cons p ps ih =>
    rw [updateOrAppend]
    by_cases h : p.1 = k
    · simp [h, findProperty]
    · simp [h, findProperty, ih]

theorem findProperty_updateOrAppend_other (ps : List EntityProperty)
    (k v j : String) (h : j ≠ k) :
    findProperty (updateOrAppend k v ps) j = findProperty ps j := by
  induction ps with
  | nil => simp [updateOrAppend, findProperty, h, Ne.symm h]
  | cons p ps ih =>
    rw [updateOrAppend]
    by_cases hp : p.1 = k
    · have : k ≠ j := Ne.symm h
      simp [hp, findProperty, this]
    · by_cases hj : p.1 = j
      · simp [hp, findProperty, hj, h]
      · simp [hp, findProperty, hj, ih]

theorem restoreProtectedProperty_property_self (o e : Entity) (k : String) :
    (restoreProtectedProperty o e k).property k = o.property k := by
  rw [restoreProtectedProperty]
  cases ho : o.property k with
  | none =>
    simp [Entity.property, Entity.removeProperty, findProperty_filter_self]
  | some v =>
    simp [Entity.property, Entity.addOrUpdateProperty, Entity.removeProperty,
      findProperty_updateOrAppend_self]

theorem restoreProtectedProperty_property_other (o e : Entity) (k j : String)
    (h : j ≠ k) :
    (restoreProtectedProperty o e k).property j = e.property j := by
  rw [restoreProtectedProperty]
  cases ho : o.property k with
  | none =>
    simp [Entity.property, Entity.removeProperty, findProperty_filter_other _ _ _ h]
  | some v =>
    simp [Entity.property, Entity.addOrUpdateProperty, Entity.removeProperty,
      findProperty_updateOrAppend_other _ _ _ _ h,
      findProperty_filter_other _ _ _ h]

theorem restoreProtectedProperty_protected (o e : Entity) (k : String) :
    (restoreProtectedProperty o e k).protectedProperties =
      e.protectedProperties := by
  rw [restoreProtectedProperty]
  cases o.property k <;>
    simp [Entity.addOrUpdateProperty, Entity.removeProperty]

theorem foldl_restore_property (o : Entity) (L : List String) :
    ∀ e k, ((L.foldl (restoreProtectedProperty o) e).property k) =
      if k ∈ L then o.property k else e.property k := by
  induction L with
  | nil => intro e k; simp
  | cons g L ih =>
    intro e k
    rw [List.foldl_cons, ih]
    by_cases hkL : k ∈ L
    · simp [hkL, List.mem_cons]
    · by_cases hkg : k = g
      · subst hkg
        simp [hkL, restoreProtectedProperty_property_self]
      · simp [hkL, hkg, restoreProtectedProperty_property_other o e g k hkg]

theorem foldl_restore_protected (o : Entity) (L : List String) :
    ∀ e, ((L.foldl (restoreProtectedProperty o) e).protectedProperties) =
      e.protectedProperties := by
  induction L with
  | nil => intro e; rfl
  | cons g L ih =>
    intro e
    rw [List.foldl_cons, ih, restoreProtectedProperty_protected]

theorem mem_dedupAdjacent [DecidableEq α] :
    ∀ l : List α, ∀ a, a ∈ dedupAdjacent l ↔ a ∈ l
  | [], _ => Iff.rfl
  | [_], _ => Iff.rfl
  | b :: c :: t, a => by
    rw [dedupAdjacent]
    by_cases h : b = c
    · rw [if_pos h, mem_dedupAdjacent (c :: t) a]
      subst h
      simp only [List.mem_cons]
      tauto
    · rw [if_neg h]
      simp only [List.mem_cons, mem_dedupAdjacent (c :: t) a]

theorem mem_vecSortAndRemoveDuplicates (l : List String) (k : String) :
    k ∈ vecSortAndRemoveDuplicates l ↔ k ∈ l := by
  rw [vecSortAndRemoveDuplicates, mem_dedupAdjacent]
  exact (List.perm_insertionSort _ l).mem_iff



theorem preserveEntityPropertiesList_get :
    ∀ (cs os : NodeList) (i : Nat),
    (preserveEntityPropertiesList cs os).get? i =
      match cs.get? i, os.get? i with
      | some c, some o => some (preserveEntityPropertiesNode c o)
      | some c, none => some c
      | none, _ => none
  | .nil, os, i => by
    cases os <;> simp [preserveEntityPropertiesList, NodeList.get?]
  | .cons c cs, .nil, i => by
    cases i with
    | zero => simp [preserveEntityPropertiesList, NodeList.get?]
    | succ n =>
      simp only [preserveEntityPropertiesList, NodeList.get?]
      cases cs.get? n <;> rfl
  | .cons c cs, .cons o os, 0 => by
    simp [preserveEntityPropertiesList, NodeList.get?]
  | .cons c cs, .cons o os, n + 1 => by
    have ih := preserveEntityPropertiesList_get cs os n
    simp [preserveEntityPropertiesList, NodeList.get?, ih]

/-- C3: during identity reconciliation, a positionally corresponding pair
of a cloned entity and an old-target entity where at least one side has a
non-empty protected-property set is merged as follows: the clone at that
position becomes `preserveEntityProperties c o`, whose properties agree
with the old target's value on every key of the union of both sides'
protected keys (so a key absent from the old target stays removed), agree
with the clone on every other key, and whose protected-property set is
exactly the old target's. -/
theorem preserveEntityProperties_protected_merge
    (cs os : NodeList) (i : Nat) (c o : Entity) (ccs ocs : NodeList)
    (hc : cs.get? i = some (.entity c ccs))
    (ho : os.get? i = some (.entity o ocs))
    (hprot : c.protectedProperties ≠ [] ∨ o.protectedProperties ≠ []) :
    (preserveEntityPropertiesList cs os).get? i =
      some (.entity (preserveEntityProperties c o) ccs) ∧
    (preserveEntityProperties c o).protectedProperties =
      o.protectedProperties ∧
    (∀ k, k ∈ c.protectedProperties ∨ k ∈ o.protectedProperties →
      (preserveEntityProperties c o).property k = o.property k) ∧
    (∀ k, k ∉ c.protectedProperties → k ∉ o.protectedProperties →
      (preserveEntityProperties c o).property k = c.property k) := by
  have hif : ¬ (c.protectedProperties = [] ∧ o.protectedProperties = []) := by
    tauto
  refine ⟨?_, ?_, ?_, ?_⟩
  · rw [preserveEntityPropertiesList_get, hc, ho]
    rfl
  · rw [preserveEntityProperties, if_neg hif, foldl_restore_protected]
    rfl
  · intro k hk
    rw [preserveEntityProperties, if_neg hif, foldl_restore_property]
    have hmem : k ∈ vecSortAndRemoveDuplicates
        (c.protectedProperties ++ o.protectedProperties) := by
      rw [mem_vecSortAndRemoveDuplicates, List.mem_append]
      exact hk
    rw [if_pos hmem]
  · intro k hk1 hk2
    rw [preserveEntityProperties, if_neg hif, foldl_restore_property]
    have hmem : k ∉ vecSortAndRemoveDuplicates
        (c.protectedProperties ++ o.protectedProperties) := by
      rw [mem_vecSortAndRemoveDuplicates, List.mem_append]
      tauto
    rw [if_neg hmem]
    rfl



theorem preserveEntityProperties_protected_merge_witness :
    ((NodeList.cons
        (.entity ⟨[("some_key", "other_value")], ["some_key"], none,
          ⟨0, 0, 0⟩⟩ .nil) .nil).get? 0 =
      some (.entity ⟨[("some_key", "other_value")], ["some_key"], none,
        ⟨0, 0, 0⟩⟩ .nil)) ∧
    ((NodeList.cons
        (.entity ⟨[("some_key", "some_value")], [], none,
          ⟨0, 0, 0⟩⟩ .nil) .nil).get? 0 =
      some (.entity ⟨[("some_key", "some_value")], [], none,
        ⟨0, 0, 0⟩⟩ .nil)) ∧
    ((["some_key"] : List String) ≠ [] ∨ ([] : List String) ≠ []) ∧
    ((preserveEntityPropertiesList
        (NodeList.cons
          (.entity ⟨[("some_key", "other_value")], ["some_key"], none,
            ⟨0, 0, 0⟩⟩ .nil) .nil)
        (NodeList.cons
          (.entity ⟨[("some_key", "some_value")], [], none,
            ⟨0, 0, 0⟩⟩ .nil) .nil)).get? 0 =
      some (.entity
        (preserveEntityProperties
          ⟨[("some_key", "other_value")], ["some_key"], none, ⟨0, 0, 0⟩⟩
          ⟨[("some_key", "some_value")], [], none, ⟨0, 0, 0⟩⟩) .nil)) ∧
    (preserveEntityProperties
        ⟨[("some_key", "other_value")], ["some_key"], none, ⟨0, 0, 0⟩⟩
        ⟨[("some_key", "some_value")], [], none,
          ⟨0, 0, 0⟩⟩).protectedProperties = [] ∧
    (∀ k, k ∈ (["some_key"] : List String) ∨ k ∈ ([] : List String) →
      (preserveEntityProperties
          ⟨[("some_key", "other_value")], ["some_key"], none, ⟨0, 0, 0⟩⟩
          ⟨[("some_key", "some_value")], [], none, ⟨0, 0, 0⟩⟩).property k =
        (⟨[("some_key", "some_value")], [], none,
          ⟨0, 0, 0⟩⟩ : Entity).property k) := by
  have h := preserveEntityProperties_protected_merge
    (NodeList.cons
      (.entity ⟨[("some_key", "other_value")], ["some_key"], none,
        ⟨0, 0, 0⟩⟩ .nil) .nil)
    (NodeList.cons
      (.entity ⟨[("some_key", "some_value")], [], none,
        ⟨0, 0, 0⟩⟩ .nil) .nil)
    0 _ _ _ _ rfl rfl (by decide)
  exact ⟨rfl, rfl, by decide, h.1, h.2.1, h.2.2.1⟩



/-! ## C2: transform composition. -/


theorem foldResults_ok_mem {α β : Type} (f : α → Except Err β) :
    ∀ (l : List α) (r : List β), foldResults (l.map f) = .ok r →
      ∀ x ∈ l, ∃ y, f x = .ok y ∧ y ∈ r
  | [], _, _, x, hx => absurd hx (List.not_mem_nil x)
  | a :: l, r, h, x, hx => by
    rw [List.map_cons] at h
    cases hfa : f a with
    | error e => rw [hfa] at h; simp [foldResults] at h
    | ok y =>
      rw [hfa] at h
      cases hrest : foldResults (l.map f) with
      | error e => rw [foldResults, hrest] at h; simp [Except.map] at h
      | ok rs =>
        rw [foldResults, hrest] at h
        simp only [Except.map, Except.ok.injEq] at h
        rcases List.mem_cons.mp hx with rfl | hx'
        · exact ⟨y, hfa, by rw [← h]; exact List.mem_cons_self _ _⟩
        · obtain ⟨z, hz1, hz2⟩ := foldResults_ok_mem f l rs hrest x hx'
          exact ⟨z, hz1, by rw [← h]; exact List.mem_cons_of_mem _ hz2⟩

/-- C2: when the source group's transformation is invertible, the
replacement children computed by `updateLinkedGroups` for each target are
exactly the source's children cloned with the composed transformation
`target.transformation * inverse(source.transformation)` (followed by the
two name/property reconciliation passes against the target's current
children); in the concrete test scenario — source translated by (1,0,0)
containing an entity moved to origin (1,0,3), target translated by
(1,2,0) — the replacement entity's origin is (1,2,3). -/
theorem updateLinkedGroups_transform_composition :
    (∀ (sourceGroupNode : GroupNode) (targetGroupNodes : List GroupNode)
        (worldBounds : BBox) (r : UpdateLinkedGroupsResult),
      updateLinkedGroups sourceGroupNode targetGroupNodes worldBounds =
          .ok r →
        (vmInvert sourceGroupNode.grp.transformation).1 = true ∧
        ∀ t ∈ targetGroupNodes.filter
            (fun t => t.ref ≠ sourceGroupNode.ref),
          ∃ newChildren,
            cloneAndTransformChildren sourceGroupNode.node worldBounds
                (t.grp.transformation.comp
                  (vmInvert sourceGroupNode.grp.transformation).2) =
              .ok newChildren ∧
            (t.ref,
              preserveEntityPropertiesList
                (preserveGroupNames newChildren t.children)
                t.children) ∈ r) ∧
    updateLinkedGroups
        ⟨[0], ⟨"name", translationMatrix ⟨1, 0, 0⟩, none⟩,
          .cons (.entity ⟨[], [], none, ⟨1, 0, 3⟩⟩ .nil) .nil⟩
        [⟨[1], ⟨"name", translationMatrix ⟨1, 2, 0⟩, none⟩,
          .cons (.entity ⟨[], [], none, ⟨1, 2, 0⟩⟩ .nil) .nil⟩]
        (BBox.cube 8192) =
      .ok [([1], .cons (.entity ⟨[], [], none, ⟨1, 2, 3⟩⟩ .nil) .nil)] := by
  constructor
  · intro sourceGroupNode targetGroupNodes worldBounds r hok
    cases hinv : (vmInvert sourceGroupNode.grp.transformation).1 with
    | false =>
      rw [updateLinkedGroups] at hok
      rw [hinv] at hok
      simp at hok
    | true =>
      refine ⟨rfl, ?_⟩
      rw [updateLinkedGroups] at hok
      rw [hinv] at hok
      simp only [if_true] at hok
      intro t ht
      obtain ⟨y, hy, hyr⟩ := foldResults_ok_mem _ _ r hok t ht
      cases hcl : cloneAndTransformChildren sourceGroupNode.node worldBounds
          (t.grp.transformation.comp
            (vmInvert sourceGroupNode.grp.transformation).2) with
      | error e => rw [hcl] at hy; simp [Except.map] at hy
      | ok nc =>
        rw [hcl] at hy
        simp only [Except.map, Except.ok.injEq] at hy
        refine ⟨nc, rfl, ?_⟩
        rw [show (t.ref, preserveEntityPropertiesList
            (preserveGroupNames nc t.children) t.children) = y from hy]
        exact hyr
  · norm_num [updateLinkedGroups, vmInvert, translationMatrix, Mat3.det,
      Mat3.id, Mat3.inv, Mat3.mulVec, Mat3.mul, Vec3.neg, Vec3.zero,
      Vec3.add, Affine.id, Affine.comp, Affine.apply, GroupNode.node,
      cloneAndTransformChildren, cloneAndTransformList,
      cloneAndTransformRecursive, Node.children, Node.logicalBounds,
      childrenBounds, mergeRest, BBox.cube, BBox.contains, Vec3.le,
      Entity.transform, foldResults, preserveGroupNames,
      preserveGroupNameNode, preserveEntityPropertiesList,
      preserveEntityPropertiesNode, preserveEntityProperties,
      NodeList.length, Except.map]



theorem updateLinkedGroups_transform_composition_witness :
    (updateLinkedGroups
        ⟨[0], ⟨"name", translationMatrix ⟨1, 0, 0⟩, none⟩,
          .cons (.entity ⟨[], [], none, ⟨1, 0, 3⟩⟩ .nil) .nil⟩
        [⟨[1], ⟨"name", translationMatrix ⟨1, 2, 0⟩, none⟩,
          .cons (.entity ⟨[], [], none, ⟨1, 2, 0⟩⟩ .nil) .nil⟩]
        (BBox.cube 8192) =
      .ok [([1], .cons (.entity ⟨[], [], none, ⟨1, 2, 3⟩⟩ .nil) .nil)]) ∧
    ((vmInvert (⟨[0], ⟨"name", translationMatrix ⟨1, 0, 0⟩, none⟩,
        .cons (.entity ⟨[], [], none, ⟨1, 0, 3⟩⟩ .nil) .nil⟩ :
          GroupNode).grp.transformation).1 = true ∧
      ∀ t ∈ ([⟨[1], ⟨"name", translationMatrix ⟨1, 2, 0⟩, none⟩,
            .cons (.entity ⟨[], [], none, ⟨1, 2, 0⟩⟩ .nil) .nil⟩] :
              List GroupNode).filter
          (fun t => t.ref ≠ ([0] : List Nat)),
        ∃ newChildren,
          cloneAndTransformChildren
              (⟨[0], ⟨"name", translationMatrix ⟨1, 0, 0⟩, none⟩,
                .cons (.entity ⟨[], [], none, ⟨1, 0, 3⟩⟩ .nil) .nil⟩ :
                  GroupNode).node (BBox.cube 8192)
              (t.grp.transformation.comp
                (vmInvert (translationMatrix ⟨1, 0, 0⟩)).2) =
            .ok newChildren ∧
          (t.ref,
            preserveEntityPropertiesList
              (preserveGroupNames newChildren t.children) t.children) ∈
            [(([1] : List Nat),
              NodeList.cons (.entity ⟨[], [], none, ⟨1, 2, 3⟩⟩ .nil) .nil)]) :=
  ⟨updateLinkedGroups_transform_composition.2,
   updateLinkedGroups_transform_composition.1 _ _ _ _
     updateLinkedGroups_transform_composition.2⟩



/-! ## C10 and C4: per-node bounds enforcement. -/


mutual

theorem cloneAndTransformRecursive_eq (worldBounds : BBox) (t : Affine) :
    ∀ n : Node, noWorldLayer n = true →
      cloneAndTransformRecursive worldBounds t n =
        if allFit worldBounds t n then .ok (transformTree t n)
        else .error "Updating a linked node would exceed world bounds"
  | .world _, h => by simp [noWorldLayer] at h
  | .layer _, h => by simp [noWorldLayer] at h
  | .group g cs, h => by
    rw [noWorldLayer] at h
    rw [cloneAndTransformRecursive, allFit, transformTree,
      cloneAndTransformList_eq worldBounds t cs h]
    by_cases hb : worldBounds.contains
        (Node.group (g.transform t) .nil).logicalBounds
    · by_cases hcs : allFitL worldBounds t cs
      · simp [hb, hcs, Except.map]
      · simp [hb, hcs, Except.map]
    · simp [hb]
  | .entity e cs, h => by
    rw [noWorldLayer] at h
    rw [cloneAndTransformRecursive, allFit, transformTree,
      cloneAndTransformList_eq worldBounds t cs h]
    by_cases hb : worldBounds.contains
        (Node.entity (e.transform t) .nil).logicalBounds
    · by_cases hcs : allFitL worldBounds t cs
      · simp [hb, hcs, Except.map]
      · simp [hb, hcs, Except.map]
    · simp [hb]
  | .brush b cs, h => by
    rw [noWorldLayer] at h
    rw [cloneAndTransformRecursive, allFit, transformTree,
      cloneAndTransformList_eq worldBounds t cs h]
    rw [Brush.transform]
    by_cases hb : worldBounds.contains
        (Node.brush { vertices := b.vertices.map t.apply } .nil).logicalBounds
    · by_cases hcs : allFitL worldBounds t cs
      · simp [hb, hcs, Except.map]
      · simp [hb, hcs, Except.map]
    · simp [hb]
  | .patch p cs, h => by
    rw [noWorldLayer] at h
    rw [cloneAndTransformRecursive, allFit, transformTree,
      cloneAndTransformList_eq worldBounds t cs h]
    by_cases hb : worldBounds.contains
        (Node.patch (p.transform t) .nil).logicalBounds
    · by_cases hcs : allFitL worldBounds t cs
      · simp [hb, hcs, Except.map]
      · simp [hb, hcs, Except.map]
    · simp [hb]

theorem cloneAndTransformList_eq (worldBounds : BBox) (t : Affine) :
    ∀ l : NodeList, noWorldLayerL l = true →
      cloneAndTransformList worldBounds t l =
        if allFitL worldBounds t l then .ok (transformForest t l)
        else .error "Updating a linked node would exceed world bounds"
  | .nil, _ => by simp [cloneAndTransformList, allFitL, transformForest]
  | .cons h rest, hw => by
    rw [noWorldLayerL, Bool.and_eq_true] at hw
    rw [cloneAndTransformList, allFitL, transformForest,
      cloneAndTransformRecursive_eq worldBounds t h hw.1,
      cloneAndTransformList_eq worldBounds t rest hw.2]
    by_cases h1 : allFit worldBounds t h
    · by_cases h2 : allFitL worldBounds t rest
      · simp [h1, h2, Bind.bind, Except.bind, Pure.pure, Except.pure]
      · simp [h1, h2, Bind.bind, Except.bind]
    · simp [h1, Bind.bind, Except.bind]

end



theorem contains_merge (w a b : BBox) (ha : w.contains a = true)
    (hb : w.contains b = true) : w.contains (a.merge b) = true := by
  simp only [BBox.contains, Vec3.le, BBox.merge, Vec3.cmin, Vec3.cmax,
    Bool.and_eq_true, decide_eq_true_eq, le_min_iff, max_le_iff] at *
  tauto

theorem self_mem_subtreeNodes : ∀ n : Node, n ∈ subtreeNodes n
  | .world cs => by rw [subtreeNodes]; exact List.mem_cons_self _ _
  | .layer cs => by rw [subtreeNodes]; exact List.mem_cons_self _ _
  | .group g cs => by rw [subtreeNodes]; exact List.mem_cons_self _ _
  | .entity e cs => by rw [subtreeNodes]; exact List.mem_cons_self _ _
  | .brush b cs => by rw [subtreeNodes]; exact List.mem_cons_self _ _
  | .patch p cs => by rw [subtreeNodes]; exact List.mem_cons_self _ _

mutual

theorem subtreeNodes_trans :
    ∀ (h : Node) (n m : Node), n ∈ subtreeNodes h → m ∈ subtreeNodes n →
      m ∈ subtreeNodes h
  | .world cs, n, m, hn, hm => by
    rw [subtreeNodes] at hn ⊢
    rcases List.mem_cons.mp hn with rfl | hn'
    · rw [subtreeNodes] at hm; exact hm
    · exact List.mem_cons_of_mem _ (forestNodes_trans cs n m hn' hm)
  | .layer cs, n, m, hn, hm => by
    rw [subtreeNodes] at hn ⊢
    rcases List.mem_cons.mp hn with rfl | hn'
    · rw [subtreeNodes] at hm; exact hm
    · exact List.mem_cons_of_mem _ (forestNodes_trans cs n m hn' hm)
  | .group g cs, n, m, hn, hm => by
    rw [subtreeNodes] at hn ⊢
    rcases List.mem_cons.mp hn with rfl | hn'
    · rw [subtreeNodes] at hm; exact hm
    · exact List.mem_cons_of_mem _ (forestNodes_trans cs n m hn' hm)
  | .entity e cs, n, m, hn, hm => by
    rw [subtreeNodes] at hn ⊢
    rcases List.mem_cons.mp hn with rfl | hn'
    · rw [subtreeNodes] at hm; exact hm
    · exact List.mem_cons_of_mem _ (forestNodes_trans cs n m hn' hm)
  | .brush b cs, n, m, hn, hm => by
    rw [subtreeNodes] at hn ⊢
    rcases List.mem_cons.mp hn with rfl | hn'
    · rw [subtreeNodes] at hm; exact hm
    · exact List.mem_cons_of_mem _ (forestNodes_trans cs n m hn' hm)
  | .patch p cs, n, m, hn, hm => by
    rw [subtreeNodes] at hn ⊢
    rcases List.mem_cons.mp hn with rfl | hn'
    · rw [subtreeNodes] at hm; exact hm
    · exact List.mem_cons_of_mem _ (forestNodes_trans cs n m hn' hm)

theorem forestNodes_trans :
    ∀ (l : NodeList) (n m : Node), n ∈ forestNodes l → m ∈ subtreeNodes n →
      m ∈ forestNodes l
  | .nil, n, m, hn, _ => by rw [forestNodes] at hn; exact absurd hn (List.not_mem_nil n)
  | .cons h t, n, m, hn, hm => by
    rw [forestNodes] at hn ⊢
    rcases List.mem_append.mp hn with hn' | hn'
    · exact List.mem_append_left _ (subtreeNodes_trans h n m hn' hm)
    · exact List.mem_append_right _ (forestNodes_trans t n m hn' hm)

end

mutual

theorem contains_logicalBounds_of_childless (w : BBox) :
    ∀ n : Node, (∀ m ∈ subtreeNodes n, w.contains m.childlessBounds = true) →
      w.contains n.logicalBounds = true
  | .world cs, h => by
    rw [subtreeNodes] at h
    have hself := h _ (List.mem_cons_self _ _)
    rw [Node.childlessBounds, Node.withChildren, Node.logicalBounds,
      childrenBounds] at hself
    rw [Node.logicalBounds]
    exact contains_childrenBounds_of_childless w cs BBox.zeroBox
      (fun m hm => h m (List.mem_cons_of_mem _ hm)) hself
  | .layer cs, h => by
    rw [subtreeNodes] at h
    have hself := h _ (List.mem_cons_self _ _)
    rw [Node.childlessBounds, Node.withChildren, Node.logicalBounds,
      childrenBounds] at hself
    rw [Node.logicalBounds]
    exact contains_childrenBounds_of_childless w cs BBox.zeroBox
      (fun m hm => h m (List.mem_cons_of_mem _ hm)) hself
  | .group g cs, h => by
    rw [subtreeNodes] at h
    have hself := h _ (List.mem_cons_self _ _)
    rw [Node.childlessBounds, Node.withChildren, Node.logicalBounds,
      childrenBounds] at hself
    rw [Node.logicalBounds]
    exact contains_childrenBounds_of_childless w cs BBox.zeroBox
      (fun m hm => h m (List.mem_cons_of_mem _ hm)) hself
  | .entity e cs, h => by
    rw [subtreeNodes] at h
    have hself := h _ (List.mem_cons_self _ _)
    rw [Node.childlessBounds, Node.withChildren, Node.logicalBounds,
      childrenBounds] at hself
    rw [Node.logicalBounds]
    exact contains_childrenBounds_of_childless w cs _
      (fun m hm => h m (List.mem_cons_of_mem _ hm)) hself
  | .brush b cs, h => by
    have hself := h _ (self_mem_subtreeNodes _)
    rw [Node.childlessBounds, Node.withChildren, Node.logicalBounds] at hself
    rw [Node.logicalBounds]
    exact hself
  | .patch p cs, h => by
    have hself := h _ (self_mem_subtreeNodes _)
    rw [Node.childlessBounds, Node.withChildren, Node.logicalBounds] at hself
    rw [Node.logicalBounds]
    exact hself

theorem contains_childrenBounds_of_childless (w : BBox) :
    ∀ (l : NodeList) (dflt : BBox),
      (∀ m ∈ forestNodes l, w.contains m.childlessBounds = true) →
      w.contains dflt = true →
      w.contains (childrenBounds l dflt) = true
  | .nil, dflt, _, hd => by rw [childrenBounds]; exact hd
  | .cons h t, dflt, hm, _ => by
    rw [childrenBounds]
    have hh : w.contains h.logicalBounds = true := by
      refine contains_logicalBounds_of_childless w h (fun m hmem => ?_)
      exact hm m (by rw [forestNodes]; exact List.mem_append_left _ hmem)
    exact contains_mergeRest_of_childless w t h.logicalBounds
      (fun m hmem => hm m
        (by rw [forestNodes]; exact List.mem_append_right _ hmem))
      hh

theorem contains_mergeRest_of_childless (w : BBox) :
    ∀ (l : NodeList) (acc : BBox),
      (∀ m ∈ forestNodes l, w.contains m.childlessBounds = true) →
      w.contains acc = true → w.contains (mergeRest l acc) = true
  | .nil, acc, _, hacc => by rw [mergeRest]; exact hacc
  | .cons h t, acc, hm, hacc => by
    rw [mergeRest]
    have hh : w.contains h.logicalBounds = true := by
      refine contains_logicalBounds_of_childless w h (fun m hmem => ?_)
      exact hm m (by rw [forestNodes]; exact List.mem_append_left _ hmem)
    exact contains_mergeRest_of_childless w t (acc.merge h.logicalBounds)
      (fun m hmem => hm m
        (by rw [forestNodes]; exact List.mem_append_right _ hmem))
      (contains_merge w acc h.logicalBounds hacc hh)

end



mutual

theorem allFit_iff (w : BBox) (t : Affine) :
    ∀ n : Node, noWorldLayer n = true → (allFit w t n = true ↔
      ∀ m ∈ subtreeNodes (transformTree t n),
        w.contains m.childlessBounds = true)
  | .world cs, h => by rw [noWorldLayer] at h; exact absurd h (by simp)
  | .layer cs, h => by rw [noWorldLayer] at h; exact absurd h (by simp)
  | .group g cs, h => by
    rw [noWorldLayer] at h
    rw [allFit, transformTree, subtreeNodes, Bool.and_eq_true]
    rw [allFitL_iff w t cs h]
    constructor
    · intro hc m hm
      rcases List.mem_cons.mp hm with rfl | hm'
      · rw [Node.childlessBounds, Node.withChildren]
        exact hc.1
      · exact hc.2 m hm'
    · intro hc
      refine ⟨?_, fun m hm => hc m (List.mem_cons_of_mem _ hm)⟩
      have := hc _ (List.mem_cons_self _ _)
      rw [Node.childlessBounds, Node.withChildren] at this
      exact this
  | .entity e cs, h => by
    rw [noWorldLayer] at h
    rw [allFit, transformTree, subtreeNodes, Bool.and_eq_true]
    rw [allFitL_iff w t cs h]
    constructor
    · intro hc m hm
      rcases List.mem_cons.mp hm with rfl | hm'
      · rw [Node.childlessBounds, Node.withChildren]
        exact hc.1
      · exact hc.2 m hm'
    · intro hc
      refine ⟨?_, fun m hm => hc m (List.mem_cons_of_mem _ hm)⟩
      have := hc _ (List.mem_cons_self _ _)
      rw [Node.childlessBounds, Node.withChildren] at this
      exact this
  | .brush b cs, h => by
    rw [noWorldLayer] at h
    rw [allFit, transformTree, subtreeNodes, Bool.and_eq_true]
    rw [allFitL_iff w t cs h]
    constructor
    · intro hc m hm
      rcases List.mem_cons.mp hm with rfl | hm'
      · rw [Node.childlessBounds, Node.withChildren]
        exact hc.1
      · exact hc.2 m hm'
    · intro hc
      refine ⟨?_, fun m hm => hc m (List.mem_cons_of_mem _ hm)⟩
      have := hc _ (List.mem_cons_self _ _)
      rw [Node.childlessBounds, Node.withChildren] at this
      exact this
  | .patch p cs, h => by
    rw [noWorldLayer] at h
    rw [allFit, transformTree, subtreeNodes, Bool.and_eq_true]
    rw [allFitL_iff w t cs h]
    constructor
    · intro hc m hm
      rcases List.mem_cons.mp hm with rfl | hm'
      · rw [Node.childlessBounds, Node.withChildren]
        exact hc.1
      · exact hc.2 m hm'
    · intro hc
      refine ⟨?_, fun m hm => hc m (List.mem_cons_of_mem _ hm)⟩
      have := hc _ (List.mem_cons_self _ _)
      rw [Node.childlessBounds, Node.withChildren] at this
      exact this

theorem allFitL_iff (w : BBox) (t : Affine) :
    ∀ l : NodeList, noWorldLayerL l = true → (allFitL w t l = true ↔
      ∀ m ∈ forestNodes (transformForest t l),
        w.contains m.childlessBounds = true)
  | .nil, _ => by
    rw [allFitL, transformForest, forestNodes]
    simp
  | .cons h rest, hw => by
    rw [noWorldLayerL, Bool.and_eq_true] at hw
    rw [allFitL, transformForest, forestNodes, Bool.and_eq_true]
    rw [allFit_iff w t h hw.1, allFitL_iff w t rest hw.2]
    constructor
    · intro hc m hm
      rcases List.mem_append.mp hm with hm' | hm'
      · exact hc.1 m hm'
      · exact hc.2 m hm'
    · intro hc
      exact ⟨fun m hm => hc m (List.mem_append_left _ hm),
        fun m hm => hc m (List.mem_append_right _ hm)⟩

end



theorem foldResults_first_error {α β : Type} (f : α → Except Err β)
    (msg : Err) :
    ∀ l : List α, (∀ x ∈ l, (∃ y, f x = .ok y) ∨ f x = .error msg) →
      (∃ x ∈ l, f x = .error msg) → foldResults (l.map f) = .error msg
  | [], _, hex => by
    obtain ⟨x, hx, _⟩ := hex
    exact absurd hx (List.not_mem_nil x)
  | a :: l, hall, hex => by
    rw [List.map_cons]
    cases hfa : f a with
    | error e =>
      have he : e = msg := by
        rcases hall a (List.mem_cons_self _ _) with ⟨y, hy⟩ | h
        · rw [hfa] at hy; simp at hy
        · rw [hfa] at h; simpa using h
      rw [he, foldResults]
    | ok y =>
      have hex2 : ∃ x ∈ l, f x = .error msg := by
        rcases hex with ⟨x, hx, hfx⟩
        rcases List.mem_cons.mp hx with rfl | hx'
        · rw [hfa] at hfx; simp at hfx
        · exact ⟨x, hx', hfx⟩
      have ih := foldResults_first_error f msg l
        (fun x hx => hall x (List.mem_cons_of_mem _ hx)) hex2
      rw [foldResults, ih]
      rfl

/-- C10: in the clone-and-transform reassembly pass, each clone's
world-bounds check is evaluated before that clone's children are attached.
For a cloned Group node the checked box is therefore the logical bounds of
a childless group — the degenerate `vm::bbox3{0.0}` point box at the origin
— independent of the group's subtree; and the whole pass succeeds exactly
when every individual transformed clone's childless bounds (entity, brush
and patch boxes, and the origin point box for groups) lie within the world
bounds — the assembled bounds of a cloned group subtree are never
consulted. -/
theorem cloneAndTransform_bounds_per_node :
    (∀ (worldBounds : BBox) (t : Affine) (g : Group) (cs : NodeList),
      cloneAndTransformRecursive worldBounds t (.group g cs) =
        if worldBounds.contains BBox.zeroBox then
          (cloneAndTransformList worldBounds t cs).map
            (Node.group (g.transform t))
        else .error "Updating a linked node would exceed world bounds") ∧
    (∀ (worldBounds : BBox) (t : Affine) (l : NodeList),
      noWorldLayerL l = true →
      (cloneAndTransformList worldBounds t l = .ok (transformForest t l) ↔
        ∀ m ∈ forestNodes (transformForest t l),
          worldBounds.contains m.childlessBounds = true)) := by
  constructor
  · intro worldBounds t g cs
    have hb : (Node.group (g.transform t) NodeList.nil).logicalBounds =
        BBox.zeroBox := by
      rw [Node.logicalBounds, childrenBounds]
    rw [cloneAndTransformRecursive, hb]
  · intro worldBounds t l hw
    rw [cloneAndTransformList_eq worldBounds t l hw,
      ← allFitL_iff worldBounds t l hw]
    by_cases hfit : allFitL worldBounds t l
    · simp [hfit]
    · simp [hfit]

theorem cloneAndTransform_bounds_per_node_witness :
    noWorldLayerL (NodeList.cons
        (.entity ⟨[], [], none, ⟨0, 0, 0⟩⟩ .nil) .nil) = true ∧
    (cloneAndTransformRecursive (BBox.cube 8192) Affine.id
        (.group ⟨"g", Affine.id, none⟩
          (NodeList.cons (.entity ⟨[], [], none, ⟨0, 0, 0⟩⟩ .nil) .nil)) =
      if (BBox.cube 8192).contains BBox.zeroBox then
        (cloneAndTransformList (BBox.cube 8192) Affine.id
            (NodeList.cons (.entity ⟨[], [], none, ⟨0, 0, 0⟩⟩ .nil) .nil)).map
          (Node.group (Group.transform ⟨"g", Affine.id, none⟩ Affine.id))
      else .error "Updating a linked node would exceed world bounds") ∧
    (cloneAndTransformList (BBox.cube 8192) Affine.id
        (NodeList.cons (.entity ⟨[], [], none, ⟨0, 0, 0⟩⟩ .nil) .nil) =
        .ok (transformForest Affine.id
          (NodeList.cons (.entity ⟨[], [], none, ⟨0, 0, 0⟩⟩ .nil) .nil)) ↔
      ∀ m ∈ forestNodes (transformForest Affine.id
          (NodeList.cons (.entity ⟨[], [], none, ⟨0, 0, 0⟩⟩ .nil) .nil)),
        (BBox.cube 8192).contains m.childlessBounds = true) := by
  refine ⟨?_, cloneAndTransform_bounds_per_node.1 _ _ _ _,
    cloneAndTransform_bounds_per_node.2 _ _ _ ?_⟩
  · simp [noWorldLayerL, noWorldLayer]
  · simp [noWorldLayerL, noWorldLayer]

/-- C4: if the source transformation is invertible and, for some target,
some node of the transformed clone forest has a logical bounding box not
contained in the world bounds, then the whole `updateLinkedGroups` call
fails with the `ExceedsWorldBounds` error ("Updating a linked node would
exceed world bounds"); no update pairs are returned, so no target is
modified. -/
theorem updateLinkedGroups_exceeds_world_bounds
    (sourceGroupNode : GroupNode) (targetGroupNodes : List GroupNode)
    (worldBounds : BBox) (tgt : GroupNode) (n : Node)
    (hnwl : noWorldLayerL sourceGroupNode.children = true)
    (hinv : (vmInvert sourceGroupNode.grp.transformation).1 = true)
    (hmem : tgt ∈ targetGroupNodes) (hne : tgt.ref ≠ sourceGroupNode.ref)
    (hn : n ∈ forestNodes (transformForest
      (tgt.grp.transformation.comp
        (vmInvert sourceGroupNode.grp.transformation).2)
      sourceGroupNode.children))
    (hviol : worldBounds.contains n.logicalBounds = false) :
    updateLinkedGroups sourceGroupNode targetGroupNodes worldBounds =
      .error "Updating a linked node would exceed world bounds" := by
  simp only [updateLinkedGroups, hinv, if_true]
  apply foldResults_first_error
  · intro x hx
    have hch : cloneAndTransformChildren sourceGroupNode.node worldBounds
        (x.grp.transformation.comp
          (vmInvert sourceGroupNode.grp.transformation).2) =
        cloneAndTransformList worldBounds
          (x.grp.transformation.comp
            (vmInvert sourceGroupNode.grp.transformation).2)
          sourceGroupNode.children := rfl
    rw [hch, cloneAndTransformList_eq _ _ _ hnwl]
    by_cases hfit : allFitL worldBounds
        (x.grp.transformation.comp
          (vmInvert sourceGroupNode.grp.transformation).2)
        sourceGroupNode.children
    · left
      rw [if_pos hfit]
      exact ⟨_, rfl⟩
    · right
      rw [if_neg hfit]
      rfl
  · refine ⟨tgt, List.mem_filter.mpr ⟨hmem, by simpa using hne⟩, ?_⟩
    have hch : cloneAndTransformChildren sourceGroupNode.node worldBounds
        (tgt.grp.transformation.comp
          (vmInvert sourceGroupNode.grp.transformation).2) =
        cloneAndTransformList worldBounds
          (tgt.grp.transformation.comp
            (vmInvert sourceGroupNode.grp.transformation).2)
          sourceGroupNode.children := rfl
    rw [hch, cloneAndTransformList_eq _ _ _ hnwl]
    have hnofit : allFitL worldBounds
        (tgt.grp.transformation.comp
          (vmInvert sourceGroupNode.grp.transformation).2)
        sourceGroupNode.children = false := by
      by_contra hx
      rw [Bool.not_eq_false] at hx
      have hall := (allFitL_iff _ _ _ hnwl).mp hx
      have hcont := contains_logicalBounds_of_childless worldBounds n
        (fun m hm => hall m (forestNodes_trans _ n m hn hm))
      rw [hcont] at hviol
      exact absurd hviol (by simp)
    rw [if_neg (by rw [hnofit]; simp)]
    rfl



theorem updateLinkedGroups_exceeds_world_bounds_witness :
    noWorldLayerL (⟨[0], ⟨"g", Affine.id, none⟩,
        .cons (.entity ⟨[], [], none, ⟨0, 0, 0⟩⟩ .nil) .nil⟩ :
          GroupNode).children = true ∧
    (vmInvert (⟨[0], ⟨"g", Affine.id, none⟩,
        .cons (.entity ⟨[], [], none, ⟨0, 0, 0⟩⟩ .nil) .nil⟩ :
          GroupNode).grp.transformation).1 = true ∧
    (⟨[1], ⟨"g", translationMatrix ⟨8190, 0, 0⟩, none⟩, .nil⟩ : GroupNode) ∈
      [(⟨[1], ⟨"g", translationMatrix ⟨8190, 0, 0⟩, none⟩, .nil⟩ :
        GroupNode)] ∧
    (⟨[1], ⟨"g", translationMatrix ⟨8190, 0, 0⟩, none⟩, .nil⟩ :
      GroupNode).ref ≠ ([0] : List Nat) ∧
    (Node.entity
        ((⟨[], [], none, ⟨0, 0, 0⟩⟩ : Entity).transform
          ((translationMatrix ⟨8190, 0, 0⟩).comp
            (vmInvert Affine.id).2)) .nil) ∈
      forestNodes (transformForest
        ((translationMatrix ⟨8190, 0, 0⟩).comp (vmInvert Affine.id).2)
        (NodeList.cons (.entity ⟨[], [], none, ⟨0, 0, 0⟩⟩ .nil) .nil)) ∧
    (BBox.cube 8192).contains
        (Node.entity
          ((⟨[], [], none, ⟨0, 0, 0⟩⟩ : Entity).transform
            ((translationMatrix ⟨8190, 0, 0⟩).comp
              (vmInvert Affine.id).2)) .nil).logicalBounds = false ∧
    updateLinkedGroups
        ⟨[0], ⟨"g", Affine.id, none⟩,
          .cons (.entity ⟨[], [], none, ⟨0, 0, 0⟩⟩ .nil) .nil⟩
        [⟨[1], ⟨"g", translationMatrix ⟨8190, 0, 0⟩, none⟩, .nil⟩]
        (BBox.cube 8192) =
      .error "Updating a linked node would exceed world bounds" := by
  have h1 : noWorldLayerL (⟨[0], ⟨"g", Affine.id, none⟩,
      .cons (.entity ⟨[], [], none, ⟨0, 0, 0⟩⟩ .nil) .nil⟩ :
        GroupNode).children = true := by
    simp [noWorldLayerL, noWorldLayer]
  have h2 : (vmInvert (⟨[0], ⟨"g", Affine.id, none⟩,
      .cons (.entity ⟨[], [], none, ⟨0, 0, 0⟩⟩ .nil) .nil⟩ :
        GroupNode).grp.transformation).1 = true := by
    norm_num [vmInvert, Affine.id, Mat3.det, Mat3.id]
  have h3 : (⟨[1], ⟨"g", translationMatrix ⟨8190, 0, 0⟩, none⟩, .nil⟩ :
      GroupNode) ∈
      [(⟨[1], ⟨"g", translationMatrix ⟨8190, 0, 0⟩, none⟩, .nil⟩ :
        GroupNode)] := List.mem_cons_self _ _
  have h4 : (⟨[1], ⟨"g", translationMatrix ⟨8190, 0, 0⟩, none⟩, .nil⟩ :
      GroupNode).ref ≠ ([0] : List Nat) := by decide
  have h5 : (Node.entity
      ((⟨[], [], none, ⟨0, 0, 0⟩⟩ : Entity).transform
        ((translationMatrix ⟨8190, 0, 0⟩).comp (vmInvert Affine.id).2))
      .nil) ∈
      forestNodes (transformForest
        ((translationMatrix ⟨8190, 0, 0⟩).comp (vmInvert Affine.id).2)
        (NodeList.cons (.entity ⟨[], [], none, ⟨0, 0, 0⟩⟩ .nil) .nil)) := by
    rw [transformForest, transformTree, transformForest, forestNodes,
      subtreeNodes, forestNodes]
    exact List.mem_append_left _ (List.mem_cons_self _ _)
  have h6 : (BBox.cube 8192).contains
      (Node.entity
        ((⟨[], [], none, ⟨0, 0, 0⟩⟩ : Entity).transform
          ((translationMatrix ⟨8190, 0, 0⟩).comp
            (vmInvert Affine.id).2)) .nil).logicalBounds = false := by
    norm_num [BBox.cube, BBox.contains, Vec3.le, Node.logicalBounds,
      childrenBounds, Entity.transform, Affine.comp, Affine.apply,
      translationMatrix, vmInvert, Affine.id, Mat3.det, Mat3.id, Mat3.inv,
      Mat3.mul, Mat3.mulVec, Vec3.add, Vec3.neg, Vec3.zero]
  exact ⟨h1, h2, h3, h4, h5, h6,
    updateLinkedGroups_exceeds_world_bounds _ _ _ _ _ h1 h2 h3 h4 h5 h6⟩


end TB

namespace TB

theorem entityLinkIdAt_nil_entity (e : Entity) (cs : NodeList) :
    entityLinkIdAt (.entity e cs) [] = some e.linkId := rfl

theorem entityLinkIdAt_cons (n : Node) (i : Nat) (q : List Nat) :
    entityLinkIdAt n (i :: q) = forestEntityLinkIdAt n.children (i :: q) := by
  rw [entityLinkIdAt, forestEntityLinkIdAt, getAt]
  cases n.children.get? i with
  | none => rfl
  | some c => rfl

theorem forestEntityLinkIdAt_cons_zero (h : Node) (t : NodeList)
    (q : List Nat) :
    forestEntityLinkIdAt (.cons h t) (0 :: q) = entityLinkIdAt h q := rfl

theorem forestEntityLinkIdAt_cons_succ (h : Node) (t : NodeList) (i : Nat)
    (q : List Nat) :
    forestEntityLinkIdAt (.cons h t) ((i + 1) :: q) =
      forestEntityLinkIdAt t (i :: q) := rfl

theorem forestEntityLinkIdAt_nil (p : List Nat) :
    forestEntityLinkIdAt .nil p = none := by
  cases p with
  | nil => rfl
  | cons i q => cases i <;> rfl

theorem NodeList.length_eq_zero : ∀ l : NodeList, l.length = 0 ↔ l = .nil
  | .nil => by simp [NodeList.length]
  | .cons h t => by
    simp [NodeList.length]

theorem sameShapeL_length : ∀ as bs : NodeList, sameShapeL as bs = true →
    as.length = bs.length
  | .nil, .nil, _ => rfl
  | .nil, .cons _ _, h => by simp [sameShapeL] at h
  | .cons _ _, .nil, h => by simp [sameShapeL] at h
  | .cons a as, .cons b bs, h => by
    rw [sameShapeL, Bool.and_eq_true] at h
    rw [NodeList.length, NodeList.length, sameShapeL_length as bs h.2]

theorem Node.withChildren_children (n : Node) (cs : NodeList) :
    (n.withChildren cs).children = cs := by
  cases n <;> rfl

theorem Node.withChildren_kind (n : Node) (cs : NodeList) :
    (n.withChildren cs).kind = n.kind := by
  cases n <;> rfl

theorem assign_linkedGroupId (sid : Option String) (n : Node) (c : Nat) :
    (assignLinkIds sid n c).1.linkedGroupId = n.linkedGroupId := by
  cases n <;> rw [assignLinkIds] <;> first
    | rfl
    | (split <;> rfl)

theorem assign_kind (sid : Option String) (n : Node) (c : Nat) :
    (assignLinkIds sid n c).1.kind = n.kind := by
  cases n <;> rw [assignLinkIds] <;> first
    | rfl
    | (split <;> rfl)

end TB

namespace TB

theorem assignLinkIdsList_allB (sid : Option String) :
    ∀ (l : NodeList) (c : Nat),
      NodeList.allB Node.isBrushOrPatch (assignLinkIdsList sid l c).1 =
        NodeList.allB Node.isBrushOrPatch l
  | .nil, c => by simp [assignLinkIdsList]
  | .cons h t, c => by
    simp only [assignLinkIdsList, NodeList.allB, Node.isBrushOrPatch,
      assign_kind, assignLinkIdsList_allB sid t]

mutual

theorem assign_sceneOk (sid : Option String) :
    ∀ (n : Node) (c : Nat), sceneOk (assignLinkIds sid n c).1 = sceneOk n
  | .world cs, c => by simp [assignLinkIds]
  | .layer cs, c => by simp [assignLinkIds]
  | .group g cs, c => by
    rw [assignLinkIds]
    split
    · simp only [sceneOk, assign_sceneOkL sid cs c]
    · rfl
  | .entity e cs, c => by
    simp only [assignLinkIds, sceneOk, assignLinkIdsList_allB,
      assign_sceneOkL sid cs (c + 1)]
  | .brush b cs, c => by simp [assignLinkIds]
  | .patch p cs, c => by simp [assignLinkIds]

theorem assign_sceneOkL (sid : Option String) :
    ∀ (l : NodeList) (c : Nat),
      sceneOkL (assignLinkIdsList sid l c).1 = sceneOkL l
  | .nil, c => by simp [assignLinkIdsList]
  | .cons h t, c => by
    simp only [assignLinkIdsList, sceneOkL, assign_sceneOk sid h c,
      assign_sceneOkL sid t]

end

mutual

theorem assign_noForeign (sid sid2 : Option String) :
    ∀ (n : Node) (c : Nat),
      noForeignNested sid2 (assignLinkIds sid n c).1 = noForeignNested sid2 n
  | .world cs, c => by simp [assignLinkIds]
  | .layer cs, c => by simp [assignLinkIds]
  | .group g cs, c => by
    rw [assignLinkIds]
    split
    · simp only [noForeignNested, assign_noForeignL sid sid2 cs c]
    · rfl
  | .entity e cs, c => by
    simp only [assignLinkIds, noForeignNested,
      assign_noForeignL sid sid2 cs (c + 1)]
  | .brush b cs, c => by simp [assignLinkIds]
  | .patch p cs, c => by simp [assignLinkIds]

theorem assign_noForeignL (sid sid2 : Option String) :
    ∀ (l : NodeList) (c : Nat),
      noForeignNestedL sid2 (assignLinkIdsList sid l c).1 =
        noForeignNestedL sid2 l
  | .nil, c => by simp [assignLinkIdsList]
  | .cons h t, c => by
    simp only [assignLinkIdsList, noForeignNestedL,
      assign_noForeign sid sid2 h c, assign_noForeignL sid sid2 t]

end

mutual

theorem assign_shape (sid : Option String) :
    ∀ (n : Node) (c : Nat) (m : Node),
      sameShape (assignLinkIds sid n c).1 m = sameShape n m
  | .world cs, c, m => by simp [assignLinkIds]
  | .layer cs, c, m => by simp [assignLinkIds]
  | .group g cs, c, m => by
    rw [assignLinkIds]
    split
    · simp only [sameShape, assign_shapeL sid cs c]
    · rfl
  | .entity e cs, c, m => by
    simp only [assignLinkIds, sameShape, assign_shapeL sid cs (c + 1)]
  | .brush b cs, c, m => by simp [assignLinkIds]
  | .patch p cs, c, m => by simp [assignLinkIds]

theorem assign_shapeL (sid : Option String) :
    ∀ (l : NodeList) (c : Nat) (m : NodeList),
      sameShapeL (assignLinkIdsList sid l c).1 m = sameShapeL l m
  | .nil, c, m => by simp [assignLinkIdsList]
  | .cons h t, c, m => by
    cases m with
    | nil => simp [assignLinkIdsList, sameShapeL]
    | cons b bs =>
      simp only [assignLinkIdsList, sameShapeL, assign_shape sid h c,
        assign_shapeL sid t]

end

mutual

theorem assign_sets_all (sid : Option String) :
    ∀ (n : Node) (c : Nat), sceneOk n = true →
      noForeignNested sid n = true →
      allIdsSet (assignLinkIds sid n c).1 = true
  | .world cs, c, hso, _ => by simp [sceneOk] at hso
  | .layer cs, c, hso, _ => by simp [sceneOk] at hso
  | .group g cs, c, hso, hnf => by
    rw [sceneOk] at hso
    rw [noForeignNested, Bool.and_eq_true] at hnf
    rw [assignLinkIds, if_pos (by simpa using hnf.1)]
    simp only [allIdsSet]
    exact assign_sets_allL sid cs c hso hnf.2
  | .entity e cs, c, hso, hnf => by
    rw [sceneOk, Bool.and_eq_true] at hso
    rw [noForeignNested] at hnf
    simp only [assignLinkIds, allIdsSet, Entity.setLinkId, Option.isSome,
      Bool.true_and]
    exact assign_sets_allL sid cs (c + 1) hso.2 hnf
  | .brush b cs, c, hso, _ => by
    rw [sceneOk] at hso
    have : cs = .nil := (NodeList.length_eq_zero cs).mp (by simpa using hso)
    subst this
    simp [assignLinkIds, allIdsSet, allIdsSetL]
  | .patch p cs, c, hso, _ => by
    rw [sceneOk] at hso
    have : cs = .nil := (NodeList.length_eq_zero cs).mp (by simpa using hso)
    subst this
    simp [assignLinkIds, allIdsSet, allIdsSetL]

theorem assign_sets_allL (sid : Option String) :
    ∀ (l : NodeList) (c : Nat), sceneOkL l = true →
      noForeignNestedL sid l = true →
      allIdsSetL (assignLinkIdsList sid l c).1 = true
  | .nil, c, _, _ => by simp [assignLinkIdsList, allIdsSetL]
  | .cons h t, c, hso, hnf => by
    rw [sceneOkL, Bool.and_eq_true] at hso
    rw [noForeignNestedL, Bool.and_eq_true] at hnf
    simp only [assignLinkIdsList, allIdsSetL, Bool.and_eq_true]
    exact ⟨assign_sets_all sid h c hso.1 hnf.1,
      assign_sets_allL sid t _ hso.2 hnf.2⟩

end

end TB

namespace TB

mutual

theorem assign_spec (sid : Option String) :
    ∀ (n : Node) (c : Nat), sceneOk n = true →
      noForeignNested sid n = true →
      c ≤ (assignLinkIds sid n c).2 ∧
      (∀ p o, entityLinkIdAt (assignLinkIds sid n c).1 p = some o →
        ∃ k, o = some k ∧ c ≤ k ∧ k < (assignLinkIds sid n c).2) ∧
      (∀ p q k j,
        entityLinkIdAt (assignLinkIds sid n c).1 p = some (some k) →
        entityLinkIdAt (assignLinkIds sid n c).1 q = some (some j) →
        p ≠ q → k ≠ j)
  | .world cs, c, hso, _ => by simp [sceneOk] at hso
  | .layer cs, c, hso, _ => by simp [sceneOk] at hso
  | .group g cs, c, hso, hnf => by
    rw [sceneOk] at hso
    rw [noForeignNested, Bool.and_eq_true] at hnf
    obtain ⟨hl1, hl2, hl3⟩ := assign_specL sid cs c hso hnf.2
    rw [assignLinkIds]
    rw [if_pos (by simpa using hnf.1)]
    refine ⟨hl1, ?_, ?_⟩
    · intro p o hp
      match p with
      | [] => exact absurd hp (by rw [entityLinkIdAt]; simp [getAt])
      | i :: q =>
        rw [entityLinkIdAt_cons] at hp
        exact hl2 (i :: q) o hp
    · intro p q k j hp hq hne
      match p, q with
      | [], _ => exact absurd hp (by rw [entityLinkIdAt]; simp [getAt])
      | _ :: _, [] => exact absurd hq (by rw [entityLinkIdAt]; simp [getAt])
      | i :: a, i2 :: b =>
        rw [entityLinkIdAt_cons] at hp hq
        exact hl3 (i :: a) (i2 :: b) k j hp hq hne
  | .entity e cs, c, hso, hnf => by
    rw [sceneOk, Bool.and_eq_true] at hso
    rw [noForeignNested] at hnf
    obtain ⟨hl1, hl2, hl3⟩ := assign_specL sid cs (c + 1) hso.2 hnf
    rw [assignLinkIds]
    refine ⟨by omega, ?_, ?_⟩
    · intro p o hp
      match p with
      | [] =>
        rw [entityLinkIdAt] at hp
        simp [getAt, Entity.setLinkId] at hp
        exact ⟨c, by rw [← hp], le_refl c, by omega⟩
      | i :: q =>
        rw [entityLinkIdAt_cons] at hp
        obtain ⟨k, hk, hk1, hk2⟩ := hl2 (i :: q) o hp
        exact ⟨k, hk, by omega, hk2⟩
    · intro p q k j hp hq hne
      match p, q with
      | [], [] => exact absurd rfl hne
      | [], i :: b =>
        rw [entityLinkIdAt] at hp
        simp [getAt, Entity.setLinkId] at hp
        rw [entityLinkIdAt_cons] at hq
        obtain ⟨j2, hj2, hj3, _⟩ := hl2 (i :: b) (some j) hq
        rw [Option.some.injEq] at hj2
        omega
      | i :: a, [] =>
        rw [entityLinkIdAt] at hq
        simp [getAt, Entity.setLinkId] at hq
        rw [entityLinkIdAt_cons] at hp
        obtain ⟨k2, hk2, hk3, _⟩ := hl2 (i :: a) (some k) hp
        rw [Option.some.injEq] at hk2
        omega
      | i :: a, i2 :: b =>
        rw [entityLinkIdAt_cons] at hp hq
        exact hl3 (i :: a) (i2 :: b) k j hp hq hne
  | .brush bb cs, c, hso, _ => by
    rw [sceneOk] at hso
    have hnil : cs = .nil := (NodeList.length_eq_zero cs).mp (by simpa using hso)
    subst hnil
    rw [assignLinkIds]
    refine ⟨le_refl c, ?_, ?_⟩
    · intro p o hp
      match p with
      | [] => exact absurd hp (by rw [entityLinkIdAt]; simp [getAt])
      | i :: q =>
        rw [entityLinkIdAt_cons] at hp
        rw [show (Node.brush bb NodeList.nil).children = NodeList.nil from rfl,
          forestEntityLinkIdAt_nil] at hp
        exact absurd hp (by simp)
    · intro p q k j hp hq hne
      match p with
      | [] => exact absurd hp (by rw [entityLinkIdAt]; simp [getAt])
      | i :: a =>
        rw [entityLinkIdAt_cons] at hp
        rw [show (Node.brush bb NodeList.nil).children = NodeList.nil from rfl,
          forestEntityLinkIdAt_nil] at hp
        exact absurd hp (by simp)
  | .patch pp cs, c, hso, _ => by
    rw [sceneOk] at hso
    have hnil : cs = .nil := (NodeList.length_eq_zero cs).mp (by simpa using hso)
    subst hnil
    rw [assignLinkIds]
    refine ⟨le_refl c, ?_, ?_⟩
    · intro p o hp
      match p with
      | [] => exact absurd hp (by rw [entityLinkIdAt]; simp [getAt])
      | i :: q =>
        rw [entityLinkIdAt_cons] at hp
        rw [show (Node.patch pp NodeList.nil).children = NodeList.nil from rfl,
          forestEntityLinkIdAt_nil] at hp
        exact absurd hp (by simp)
    · intro p q k j hp hq hne
      match p with
      | [] => exact absurd hp (by rw [entityLinkIdAt]; simp [getAt])
      | i :: a =>
        rw [entityLinkIdAt_cons] at hp
        rw [show (Node.patch pp NodeList.nil).children = NodeList.nil from rfl,
          forestEntityLinkIdAt_nil] at hp
        exact absurd hp (by simp)

theorem assign_specL (sid : Option String) :
    ∀ (l : NodeList) (c : Nat), sceneOkL l = true →
      noForeignNestedL sid l = true →
      c ≤ (assignLinkIdsList sid l c).2 ∧
      (∀ p o, forestEntityLinkIdAt (assignLinkIdsList sid l c).1 p = some o →
        ∃ k, o = some k ∧ c ≤ k ∧ k < (assignLinkIdsList sid l c).2) ∧
      (∀ p q k j,
        forestEntityLinkIdAt (assignLinkIdsList sid l c).1 p = some (some k) →
        forestEntityLinkIdAt (assignLinkIdsList sid l c).1 q = some (some j) →
        p ≠ q → k ≠ j)
  | .nil, c, _, _ => by
    rw [assignLinkIdsList]
    refine ⟨le_refl c, ?_, ?_⟩
    · intro p o hp
      rw [forestEntityLinkIdAt_nil] at hp
      exact absurd hp (by simp)
    · intro p q k j hp _ _
      rw [forestEntityLinkIdAt_nil] at hp
      exact absurd hp (by simp)
  | .cons h t, c, hso, hnf => by
    rw [sceneOkL, Bool.and_eq_true] at hso
    rw [noForeignNestedL, Bool.and_eq_true] at hnf
    obtain ⟨hh1, hh2, hh3⟩ := assign_spec sid h c hso.1 hnf.1
    obtain ⟨ht1, ht2, ht3⟩ :=
      assign_specL sid t (assignLinkIds sid h c).2 hso.2 hnf.2
    rw [assignLinkIdsList]
    refine ⟨by omega, ?_, ?_⟩
    · intro p o hp
      match p with
      | [] => exact absurd hp (by rw [forestEntityLinkIdAt]; simp)
      | 0 :: q =>
        rw [forestEntityLinkIdAt_cons_zero] at hp
        obtain ⟨k, hk, hk1, hk2⟩ := hh2 q o hp
        exact ⟨k, hk, hk1, by omega⟩
      | (i + 1) :: q =>
        rw [forestEntityLinkIdAt_cons_succ] at hp
        obtain ⟨k, hk, hk1, hk2⟩ := ht2 (i :: q) o hp
        exact ⟨k, hk, by omega, hk2⟩
    · intro p q k j hp hq hne
      match p, q with
      | [], _ => exact absurd hp (by rw [forestEntityLinkIdAt]; simp)
      | _ :: _, [] => exact absurd hq (by rw [forestEntityLinkIdAt]; simp)
      | 0 :: a, 0 :: b =>
        rw [forestEntityLinkIdAt_cons_zero] at hp hq
        exact hh3 a b k j hp hq (by intro hx; exact hne (by rw [hx]))
      | 0 :: a, (i + 1) :: b =>
        rw [forestEntityLinkIdAt_cons_zero] at hp
        rw [forestEntityLinkIdAt_cons_succ] at hq
        obtain ⟨k2, hk2, hk3, hk4⟩ := hh2 a (some k) hp
        obtain ⟨j2, hj2, hj3, hj4⟩ := ht2 (i :: b) (some j) hq
        rw [Option.some.injEq] at hk2 hj2
        omega
      | (i + 1) :: a, 0 :: b =>
        rw [forestEntityLinkIdAt_cons_succ] at hp
        rw [forestEntityLinkIdAt_cons_zero] at hq
        obtain ⟨k2, hk2, hk3, hk4⟩ := ht2 (i :: a) (some k) hp
        obtain ⟨j2, hj2, hj3, hj4⟩ := hh2 b (some j) hq
        rw [Option.some.injEq] at hk2 hj2
        omega
      | (i + 1) :: a, (i2 + 1) :: b =>
        rw [forestEntityLinkIdAt_cons_succ] at hp hq
        refine ht3 (i :: a) (i2 :: b) k j hp hq ?_
        intro hx
        rw [List.cons.injEq] at hx
        exact hne (by rw [List.cons.injEq]; exact ⟨by omega, hx.2⟩)

end

end TB

namespace TB

mutual

theorem copyWalk_spec (cid : String) :
    ∀ (s t : Node), sceneOk s = true → sceneOk t = true →
      noForeignNested (some cid) s = true → allIdsSet s = true →
      (sameShape s t = true →
        (visitNodesPerPosition (makeCopyLinkIds cid) s t).1 = .ok () ∧
        ∀ p, entityLinkIdAt
            (visitNodesPerPosition (makeCopyLinkIds cid) s t).2 p =
          entityLinkIdAt s p) ∧
      (sameShape s t = false →
        (visitNodesPerPosition (makeCopyLinkIds cid) s t).1 =
          .error "Inconsistent linked group structure")
  | .world cs, t, hss, _, _, _ => by simp [sceneOk] at hss
  | .layer cs, t, hss, _, _, _ => by simp [sceneOk] at hss
  | .group sg cs, t, hss, hst, hnf, hids => by
    rw [sceneOk] at hss
    rw [noForeignNested, Bool.and_eq_true] at hnf
    rw [allIdsSet] at hids
    have hrec : (decide (sg.linkedGroupId = none ∨
        sg.linkedGroupId = some cid)) = true := by simpa using hnf.1
    cases t with
    | group tg tcs =>
      rw [sceneOk] at hst
      have hf : makeCopyLinkIds cid (.group sg cs) (.group tg tcs) =
          .ok (true, .group tg tcs) := by
        rw [makeCopyLinkIds, checkType]
        simp [Node.kind, hrec, Except.map]
      rw [visitNodesPerPosition]
      simp only [visitAt, hf, Node.childCount, Node.children]
      obtain ⟨hLtrue, hLfalse⟩ :=
        copyWalkL_spec cid cs tcs hss hst hnf.2 hids
      constructor
      · intro hsh
        simp only [sameShape, Node.kind, Bool.true_and] at hsh
        have hlen : cs.length = tcs.length := sameShapeL_length cs tcs hsh
        obtain ⟨hok, hposs⟩ := hLtrue hsh
        refine ⟨by simp [hlen, hok], ?_⟩
        intro p
        match p with
        | [] => simp [hlen]; rfl
        | i :: q =>
          simp only [hlen, if_true, if_pos]
          rw [entityLinkIdAt_cons, entityLinkIdAt_cons,
            Node.withChildren_children]
          exact hposs (i :: q)
      · intro hsh
        simp only [sameShape, Node.kind, Bool.true_and] at hsh
        by_cases hlen : cs.length = tcs.length
        · simp [hlen, hLfalse hlen hsh]
        · simp [hlen]
    | world tcs =>
      rw [visitNodesPerPosition, visitAt, makeCopyLinkIds, checkType]
      simp [Node.kind, sameShape, Except.map]
    | layer tcs =>
      rw [visitNodesPerPosition, visitAt, makeCopyLinkIds, checkType]
      simp [Node.kind, sameShape, Except.map]
    | entity te tcs =>
      rw [visitNodesPerPosition, visitAt, makeCopyLinkIds, checkType]
      simp [Node.kind, sameShape, Except.map]
    | brush tb tcs =>
      rw [visitNodesPerPosition, visitAt, makeCopyLinkIds, checkType]
      simp [Node.kind, sameShape, Except.map]
    | patch tp tcs =>
      rw [visitNodesPerPosition, visitAt, makeCopyLinkIds, checkType]
      simp [Node.kind, sameShape, Except.map]
  | .entity se cs, t, hss, hst, hnf, hids => by
    rw [sceneOk, Bool.and_eq_true] at hss
    rw [noForeignNested] at hnf
    rw [allIdsSet, Bool.and_eq_true] at hids
    obtain ⟨k, hk⟩ := Option.isSome_iff_exists.mp hids.1
    cases t with
    | entity te tcs =>
      rw [sceneOk, Bool.and_eq_true] at hst
      have hf : makeCopyLinkIds cid (.entity se cs) (.entity te tcs) =
          .ok (true, .entity (te.setLinkId k) tcs) := by
        rw [makeCopyLinkIds, hk]
      rw [visitNodesPerPosition]
      simp only [visitAt, hf, Node.childCount, Node.children]
      obtain ⟨hLtrue, hLfalse⟩ :=
        copyWalkL_spec cid cs tcs hss.2 hst.2 hnf hids.2
      constructor
      · intro hsh
        simp only [sameShape, Node.kind, Bool.true_and] at hsh
        have hlen : cs.length = tcs.length := sameShapeL_length cs tcs hsh
        obtain ⟨hok, hposs⟩ := hLtrue hsh
        refine ⟨by simp [hlen, hok], ?_⟩
        intro p
        match p with
        | [] =>
          simp only [hlen, if_true, if_pos]
          show some (te.setLinkId k).linkId = some se.linkId
          rw [Entity.setLinkId, hk]
        | i :: q =>
          simp only [hlen, if_true, if_pos]
          rw [entityLinkIdAt_cons, entityLinkIdAt_cons,
            Node.withChildren_children]
          exact hposs (i :: q)
      · intro hsh
        simp only [sameShape, Node.kind, Bool.true_and] at hsh
        by_cases hlen : cs.length = tcs.length
        · simp [hlen, hLfalse hlen hsh]
        · simp [hlen]
    | world tcs =>
      have hf : makeCopyLinkIds cid (.entity se cs) (.world tcs) =
          .error "Inconsistent linked group structure" := rfl
      rw [visitNodesPerPosition]
      simp [visitAt, hf, sameShape, Node.kind]
    | layer tcs =>
      have hf : makeCopyLinkIds cid (.entity se cs) (.layer tcs) =
          .error "Inconsistent linked group structure" := rfl
      rw [visitNodesPerPosition]
      simp [visitAt, hf, sameShape, Node.kind]
    | group tg tcs =>
      have hf : makeCopyLinkIds cid (.entity se cs) (.group tg tcs) =
          .error "Inconsistent linked group structure" := rfl
      rw [visitNodesPerPosition]
      simp [visitAt, hf, sameShape, Node.kind]
    | brush tb tcs =>
      have hf : makeCopyLinkIds cid (.entity se cs) (.brush tb tcs) =
          .error "Inconsistent linked group structure" := rfl
      rw [visitNodesPerPosition]
      simp [visitAt, hf, sameShape, Node.kind]
    | patch tp tcs =>
      have hf : makeCopyLinkIds cid (.entity se cs) (.patch tp tcs) =
          .error "Inconsistent linked group structure" := rfl
      rw [visitNodesPerPosition]
      simp [visitAt, hf, sameShape, Node.kind]
  | .brush sb cs, t, hss, hst, hnf, hids => by
    rw [sceneOk] at hss
    have hnil : cs = .nil := (NodeList.length_eq_zero cs).mp (by simpa using hss)
    subst hnil
    cases t with
    | brush tb tcs =>
      rw [sceneOk] at hst
      have htnil : tcs = .nil :=
        (NodeList.length_eq_zero tcs).mp (by simpa using hst)
      subst htnil
      have hf : makeCopyLinkIds cid (.brush sb .nil) (.brush tb .nil) =
          .ok (false, .brush tb .nil) := by
        rw [makeCopyLinkIds, checkType]
        simp [Node.kind, Except.map]
      rw [visitNodesPerPosition]
      simp only [visitAt, hf]
      constructor
      · intro _
        refine ⟨by simp, ?_⟩
        intro p
        match p with
        | [] => rfl
        | i :: q => rfl
      · intro hsh
        simp [sameShape, Node.kind, sameShapeL] at hsh
    | world tcs =>
      rw [visitNodesPerPosition, visitAt, makeCopyLinkIds, checkType]
      simp [sameShape, Node.kind, Except.map]
    | layer tcs =>
      rw [visitNodesPerPosition, visitAt, makeCopyLinkIds, checkType]
      simp [sameShape, Node.kind, Except.map]
    | group tg tcs =>
      rw [visitNodesPerPosition, visitAt, makeCopyLinkIds, checkType]
      simp [sameShape, Node.kind, Except.map]
    | entity te tcs =>
      rw [visitNodesPerPosition, visitAt, makeCopyLinkIds, checkType]
      simp [sameShape, Node.kind, Except.map]
    | patch tp tcs =>
      rw [visitNodesPerPosition, visitAt, makeCopyLinkIds, checkType]
      simp [sameShape, Node.kind, Except.map]
  | .patch sp cs, t, hss, hst, hnf, hids => by
    rw [sceneOk] at hss
    have hnil : cs = .nil := (NodeList.length_eq_zero cs).mp (by simpa using hss)
    subst hnil
    cases t with
    | patch tp tcs =>
      rw [sceneOk] at hst
      have htnil : tcs = .nil :=
        (NodeList.length_eq_zero tcs).mp (by simpa using hst)
      subst htnil
      have hf : makeCopyLinkIds cid (.patch sp .nil) (.patch tp .nil) =
          .ok (false, .patch tp .nil) := by
        rw [makeCopyLinkIds, checkType]
        simp [Node.kind, Except.map]
      rw [visitNodesPerPosition]
      simp only [visitAt, hf]
      constructor
      · intro _
        refine ⟨by simp, ?_⟩
        intro p
        match p with
        | [] => rfl
        | i :: q => rfl
      · intro hsh
        simp [sameShape, Node.kind, sameShapeL] at hsh
    | world tcs =>
      rw [visitNodesPerPosition, visitAt, makeCopyLinkIds, checkType]
      simp [sameShape, Node.kind, Except.map]
    | layer tcs =>
      rw [visitNodesPerPosition, visitAt, makeCopyLinkIds, checkType]
      simp [sameShape, Node.kind, Except.map]
    | group tg tcs =>
      rw [visitNodesPerPosition, visitAt, makeCopyLinkIds, checkType]
      simp [sameShape, Node.kind, Except.map]
    | entity te tcs =>
      rw [visitNodesPerPosition, visitAt, makeCopyLinkIds, checkType]
      simp [sameShape, Node.kind, Except.map]
    | brush tb tcs =>
      rw [visitNodesPerPosition, visitAt, makeCopyLinkIds, checkType]
      simp [sameShape, Node.kind, Except.map]

theorem copyWalkL_spec (cid : String) :
    ∀ (ss ts : NodeList), sceneOkL ss = true → sceneOkL ts = true →
      noForeignNestedL (some cid) ss = true → allIdsSetL ss = true →
      (sameShapeL ss ts = true →
        (visitChildrenPerPosition (makeCopyLinkIds cid) ss ts).1 = .ok () ∧
        ∀ p, forestEntityLinkIdAt
            (visitChildrenPerPosition (makeCopyLinkIds cid) ss ts).2 p =
          forestEntityLinkIdAt ss p) ∧
      (ss.length = ts.length → sameShapeL ss ts = false →
        (visitChildrenPerPosition (makeCopyLinkIds cid) ss ts).1 =
          .error "Inconsistent linked group structure")
  | .nil, .nil, _, _, _, _ => by
    rw [visitChildrenPerPosition]
    exact ⟨fun _ => ⟨rfl, fun p => rfl⟩, fun _ h => by simp [sameShapeL] at h⟩
  | .nil, .cons t ts, _, _, _, _ => by
    refine ⟨fun h => by simp [sameShapeL] at h, fun hlen _ => ?_⟩
    rw [NodeList.length, NodeList.length] at hlen
    omega
  | .cons s ss, .nil, _, _, _, _ => by
    refine ⟨fun h => by simp [sameShapeL] at h, fun hlen _ => ?_⟩
    rw [NodeList.length, NodeList.length] at hlen
    omega
  | .cons s ss, .cons t ts, hss, hst, hnf, hids => by
    rw [sceneOkL, Bool.and_eq_true] at hss hst
    rw [noForeignNestedL, Bool.and_eq_true] at hnf
    rw [allIdsSetL, Bool.and_eq_true] at hids
    obtain ⟨hNtrue, hNfalse⟩ :=
      copyWalk_spec cid s t hss.1 hst.1 hnf.1 hids.1
    obtain ⟨hLtrue, hLfalse⟩ :=
      copyWalkL_spec cid ss ts hss.2 hst.2 hnf.2 hids.2
    rw [visitChildrenPerPosition]
    constructor
    · intro hsh
      rw [sameShapeL, Bool.and_eq_true] at hsh
      obtain ⟨hok1, hpos1⟩ := hNtrue hsh.1
      obtain ⟨hok2, hpos2⟩ := hLtrue hsh.2
      rw [hok1, hok2]
      refine ⟨rfl, ?_⟩
      intro p
      match p with
      | [] => rfl
      | 0 :: q =>
        rw [forestEntityLinkIdAt_cons_zero, forestEntityLinkIdAt_cons_zero]
        exact hpos1 q
      | (i + 1) :: q =>
        rw [forestEntityLinkIdAt_cons_succ, forestEntityLinkIdAt_cons_succ]
        exact hpos2 (i :: q)
    · intro hlen hsh
      rw [sameShapeL] at hsh
      rw [NodeList.length, NodeList.length] at hlen
      cases hs1 : sameShape s t with
      | false =>
        rw [hNfalse hs1]
      | true =>
        obtain ⟨hok1, _⟩ := hNtrue hs1
        rw [hok1]
        rw [hs1, Bool.true_and] at hsh
        exact hLfalse (by omega) hsh

end

end TB

namespace TB

theorem except_map_pair_ok {α : Type} (x : Except Err Bool) (t : α) (r : Bool)
    (t2 : α) (h : x.map ((·, t)) = .ok (r, t2)) : t2 = t := by
  cases x with
  | error e => simp [Except.map] at h
  | ok b =>
    simp [Except.map] at h
    exact h.2.symm

theorem makeCopyLinkIds_snd_kind (cid : String) (s t : Node) (r : Bool)
    (t2 : Node) (h : makeCopyLinkIds cid s t = .ok (r, t2)) :
    t2.kind = t.kind := by
  cases s with
  | world cs => rw [makeCopyLinkIds] at h; rw [except_map_pair_ok _ _ _ _ h]
  | layer cs => rw [makeCopyLinkIds] at h; rw [except_map_pair_ok _ _ _ _ h]
  | group sg cs => rw [makeCopyLinkIds] at h; rw [except_map_pair_ok _ _ _ _ h]
  | brush sb cs => rw [makeCopyLinkIds] at h; rw [except_map_pair_ok _ _ _ _ h]
  | patch sp cs => rw [makeCopyLinkIds] at h; rw [except_map_pair_ok _ _ _ _ h]
  | entity se cs =>
    cases t with
    | entity te tcs =>
      cases hli : se.linkId with
      | none => simp [makeCopyLinkIds, hli] at h
      | some i =>
        simp only [makeCopyLinkIds, hli, Except.ok.injEq, Prod.mk.injEq] at h
        rw [← h.2]
        rfl
    | world tcs => simp [makeCopyLinkIds] at h
    | layer tcs => simp [makeCopyLinkIds] at h
    | group tg tcs => simp [makeCopyLinkIds] at h
    | brush tb tcs => simp [makeCopyLinkIds] at h
    | patch tp tcs => simp [makeCopyLinkIds] at h

theorem makeCopyLinkIds_snd_sceneOk (cid : String) (s t : Node) (r : Bool)
    (t2 : Node) (h : makeCopyLinkIds cid s t = .ok (r, t2)) :
    sceneOk t2 = sceneOk t := by
  cases s with
  | world cs => rw [makeCopyLinkIds] at h; rw [except_map_pair_ok _ _ _ _ h]
  | layer cs => rw [makeCopyLinkIds] at h; rw [except_map_pair_ok _ _ _ _ h]
  | group sg cs => rw [makeCopyLinkIds] at h; rw [except_map_pair_ok _ _ _ _ h]
  | brush sb cs => rw [makeCopyLinkIds] at h; rw [except_map_pair_ok _ _ _ _ h]
  | patch sp cs => rw [makeCopyLinkIds] at h; rw [except_map_pair_ok _ _ _ _ h]
  | entity se cs =>
    cases t with
    | entity te tcs =>
      cases hli : se.linkId with
      | none => simp [makeCopyLinkIds, hli] at h
      | some i =>
        simp only [makeCopyLinkIds, hli, Except.ok.injEq, Prod.mk.injEq] at h
        rw [← h.2, sceneOk, sceneOk]
    | world tcs => simp [makeCopyLinkIds] at h
    | layer tcs => simp [makeCopyLinkIds] at h
    | group tg tcs => simp [makeCopyLinkIds] at h
    | brush tb tcs => simp [makeCopyLinkIds] at h
    | patch tp tcs => simp [makeCopyLinkIds] at h

theorem copy_kindW (cid : String) (s t : Node) :
    ((visitNodesPerPosition (makeCopyLinkIds cid) s t).2).kind = t.kind := by
  have hmain : ∀ cs : NodeList,
      ((visitAt (makeCopyLinkIds cid) s cs t).2).kind = t.kind := by
    intro cs
    cases hf : makeCopyLinkIds cid s t with
    | error e => simp [visitAt, hf]
    | ok p =>
      obtain ⟨r, t2⟩ := p
      have hk : t2.kind = t.kind := makeCopyLinkIds_snd_kind cid s t r t2 hf
      rw [visitAt, hf]
      cases r with
      | false => simpa using hk
      | true =>
        by_cases hlen : cs.length = t2.childCount
        · simpa [hlen, Node.withChildren_kind] using hk
        · simpa [hlen] using hk
  cases s <;> (rw [visitNodesPerPosition]; exact hmain _)

theorem copy_lengthL (cid : String) : ∀ (ss ts : NodeList),
    ((visitChildrenPerPosition (makeCopyLinkIds cid) ss ts).2).length =
      ts.length
  | .nil, ts => by rw [visitChildrenPerPosition]
  | .cons s ss, .nil => by rw [visitChildrenPerPosition]
  | .cons s ss, .cons t ts => by
    rw [visitChildrenPerPosition]
    simp only [NodeList.length]
    rw [copy_lengthL cid ss ts]

theorem copy_allBL (cid : String) : ∀ (ss ts : NodeList),
    NodeList.allB Node.isBrushOrPatch
        ((visitChildrenPerPosition (makeCopyLinkIds cid) ss ts).2) =
      NodeList.allB Node.isBrushOrPatch ts
  | .nil, ts => by rw [visitChildrenPerPosition]
  | .cons s ss, .nil => by rw [visitChildrenPerPosition]
  | .cons s ss, .cons t ts => by
    rw [visitChildrenPerPosition]
    simp only [NodeList.allB]
    rw [copy_allBL cid ss ts]
    congr 1
    rw [Node.isBrushOrPatch, Node.isBrushOrPatch, copy_kindW]

end TB

namespace TB

theorem visitAt_sceneOk (cid : String) (s : Node) (cs : NodeList) (t : Node)
    (hrec : ∀ ts, sceneOkL ts = true →
      sceneOkL (visitChildrenPerPosition (makeCopyLinkIds cid) cs ts).2 = true)
    (hst : sceneOk t = true) :
    sceneOk (visitAt (makeCopyLinkIds cid) s cs t).2 = true := by
  cases hf : makeCopyLinkIds cid s t with
  | error e => simpa [visitAt, hf] using hst
  | ok p =>
    obtain ⟨r, t2⟩ := p
    have hs2 : sceneOk t2 = true := by
      rw [makeCopyLinkIds_snd_sceneOk cid s t r t2 hf]; exact hst
    cases r with
    | false =>
      simp only [visitAt, hf]
      simpa using hs2
    | true =>
      simp only [visitAt, hf]
      by_cases hlen : cs.length = t2.childCount
      · rw [if_pos hlen]
        cases t2 with
        | world tcs => simp [sceneOk] at hs2
        | layer tcs => simp [sceneOk] at hs2
        | group tg tcs =>
          show sceneOk (.group tg _) = true
          rw [sceneOk]
          exact hrec tcs (by simpa [sceneOk] using hs2)
        | entity te tcs =>
          rw [sceneOk, Bool.and_eq_true] at hs2
          show sceneOk (.entity te _) = true
          rw [sceneOk, Bool.and_eq_true]
          refine ⟨?_, hrec tcs hs2.2⟩
          rw [show (Node.entity te tcs).children = tcs from rfl]
          rw [copy_allBL]
          exact hs2.1
        | brush tb tcs =>
          rw [sceneOk] at hs2
          show sceneOk (.brush tb _) = true
          rw [sceneOk, show (Node.brush tb tcs).children = tcs from rfl,
            copy_lengthL]
          exact hs2
        | patch tp tcs =>
          rw [sceneOk] at hs2
          show sceneOk (.patch tp _) = true
          rw [sceneOk, show (Node.patch tp tcs).children = tcs from rfl,
            copy_lengthL]
          exact hs2
      · rw [if_neg hlen]
        exact hs2

mutual

theorem copy_sceneOk (cid : String) :
    ∀ (s t : Node), sceneOk t = true →
      sceneOk (visitNodesPerPosition (makeCopyLinkIds cid) s t).2 = true
  | .world cs, t, hst => by
    rw [visitNodesPerPosition]
    exact visitAt_sceneOk cid _ cs t (fun ts h => copy_sceneOkL cid cs ts h) hst
  | .layer cs, t, hst => by
    rw [visitNodesPerPosition]
    exact visitAt_sceneOk cid _ cs t (fun ts h => copy_sceneOkL cid cs ts h) hst
  | .group sg cs, t, hst => by
    rw [visitNodesPerPosition]
    exact visitAt_sceneOk cid _ cs t (fun ts h => copy_sceneOkL cid cs ts h) hst
  | .entity se cs, t, hst => by
    rw [visitNodesPerPosition]
    exact visitAt_sceneOk cid _ cs t (fun ts h => copy_sceneOkL cid cs ts h) hst
  | .brush sb cs, t, hst => by
    rw [visitNodesPerPosition]
    exact visitAt_sceneOk cid _ cs t (fun ts h => copy_sceneOkL cid cs ts h) hst
  | .patch sp cs, t, hst => by
    rw [visitNodesPerPosition]
    exact visitAt_sceneOk cid _ cs t (fun ts h => copy_sceneOkL cid cs ts h) hst

theorem copy_sceneOkL (cid : String) :
    ∀ (ss ts : NodeList), sceneOkL ts = true →
      sceneOkL (visitChildrenPerPosition (makeCopyLinkIds cid) ss ts).2 = true
  | .nil, ts, hst => by rw [visitChildrenPerPosition]; exact hst
  | .cons s ss, .nil, hst => by rw [visitChildrenPerPosition]; rfl
  | .cons s ss, .cons t ts, hst => by
    rw [sceneOkL, Bool.and_eq_true] at hst
    rw [visitChildrenPerPosition]
    show sceneOkL (.cons _ _) = true
    rw [sceneOkL, Bool.and_eq_true]
    exact ⟨copy_sceneOk cid s t hst.1, copy_sceneOkL cid ss ts hst.2⟩

end

end TB

namespace TB

theorem noLinkIds_of_leafList : ∀ (l : NodeList),
    NodeList.allB Node.isBrushOrPatch l = true → sceneOkL l = true →
    noLinkIdsSetL l = true
  | .nil, _, _ => rfl
  | .cons h t, hb, hs => by
    rw [NodeList.allB, Bool.and_eq_true] at hb
    rw [sceneOkL, Bool.and_eq_true] at hs
    rw [noLinkIdsSetL, Bool.and_eq_true]
    refine ⟨?_, noLinkIds_of_leafList t hb.2 hs.2⟩
    have hb1 := hb.1
    have hs1 := hs.1
    cases h with
    | world cs => simp [Node.isBrushOrPatch, Node.kind] at hb1
    | layer cs => simp [Node.isBrushOrPatch, Node.kind] at hb1
    | group g cs => simp [Node.isBrushOrPatch, Node.kind] at hb1
    | entity e cs => simp [Node.isBrushOrPatch, Node.kind] at hb1
    | brush b cs =>
      rw [sceneOk] at hs1
      have : cs = .nil := (NodeList.length_eq_zero cs).mp (by simpa using hs1)
      subst this
      rfl
    | patch p cs =>
      rw [sceneOk] at hs1
      have : cs = .nil := (NodeList.length_eq_zero cs).mp (by simpa using hs1)
      subst this
      rfl

mutual

theorem reset_clears : ∀ (n : Node), sceneOk n = true →
    noLinkIdsSet (resetLinkIdsNode n) = true
  | .world cs, h => by simp [sceneOk] at h
  | .layer cs, h => by simp [sceneOk] at h
  | .group g cs, h => by
    rw [sceneOk] at h
    rw [resetLinkIdsNode]
    show noLinkIdsSetL (resetLinkIdsList cs) = true
    exact reset_clearsL cs h
  | .entity e cs, h => by
    rw [sceneOk, Bool.and_eq_true] at h
    rw [resetLinkIdsNode]
    show noLinkIdsSet (.entity e.resetLinkId cs) = true
    rw [noLinkIdsSet, Bool.and_eq_true]
    exact ⟨by simp [Entity.resetLinkId], noLinkIds_of_leafList cs h.1 h.2⟩
  | .brush b cs, h => by
    rw [sceneOk] at h
    have : cs = .nil := (NodeList.length_eq_zero cs).mp (by simpa using h)
    subst this
    rfl
  | .patch p cs, h => by
    rw [sceneOk] at h
    have : cs = .nil := (NodeList.length_eq_zero cs).mp (by simpa using h)
    subst this
    rfl

theorem reset_clearsL : ∀ (l : NodeList), sceneOkL l = true →
    noLinkIdsSetL (resetLinkIdsList l) = true
  | .nil, _ => rfl
  | .cons h t, hs => by
    rw [sceneOkL, Bool.and_eq_true] at hs
    rw [resetLinkIdsList]
    show noLinkIdsSetL (.cons _ _) = true
    rw [noLinkIdsSetL, Bool.and_eq_true]
    exact ⟨reset_clears h hs.1, reset_clearsL t hs.2⟩

end

theorem foldResults_units_ok : ∀ (l : List (Except Err Unit)),
    (∀ x ∈ l, x = .ok ()) → foldResults l = .ok (l.map fun _ => ()) := by
  intro l
  induction l with
  | nil => intro _; rfl
  | cons x xs ih =>
    intro h
    have hx : x = .ok () := h x (List.mem_cons_self x xs)
    subst hx
    rw [show foldResults (Except.ok () :: xs) =
        (foldResults xs).map (() :: ·) from rfl]
    rw [ih (fun y hy => h y (List.mem_cons_of_mem _ hy))]
    rfl

theorem foldResults_error_of (msg : Err) : ∀ (l : List (Except Err Unit)),
    (∀ x ∈ l, x = .ok () ∨ x = .error msg) → (∃ x ∈ l, x = .error msg) →
    foldResults l = .error msg := by
  intro l
  induction l with
  | nil =>
    intro _ hex
    obtain ⟨x, hx, _⟩ := hex
    exact absurd hx (List.not_mem_nil x)
  | cons x xs ih =>
    intro hall hex
    cases hall x (List.mem_cons_self x xs) with
    | inr hx =>
      subst hx
      rfl
    | inl hx =>
      subst hx
      have hex2 : ∃ y ∈ xs, y = .error msg := by
        obtain ⟨y, hy, hye⟩ := hex
        cases List.mem_cons.mp hy with
        | inl h0 => rw [h0] at hye; exact absurd hye (by simp)
        | inr h0 => exact ⟨y, h0, hye⟩
      rw [show foldResults (Except.ok () :: xs) =
          (foldResults xs).map (() :: ·) from rfl]
      rw [ih (fun y hy => hall y (List.mem_cons_of_mem _ hy)) hex2]
      rfl

theorem setLinkIds_eq (grp : Group) (cs0 : NodeList) (t1 : Node)
    (rest : List Node) (ctr : Nat) (sid : String)
    (hsid : grp.linkedGroupId = some sid) :
    setLinkIds (Node.group grp cs0 :: t1 :: rest) ctr =
      (match foldResults (((t1 :: rest).map (fun t =>
          visitNodesPerPosition (makeCopyLinkIds sid)
            (assignLinkIds (some sid) (.group grp cs0) ctr).1 t)).map (·.1))
       with
       | .ok _ =>
         (.ok (),
          (assignLinkIds (some sid) (.group grp cs0) ctr).1 ::
            ((t1 :: rest).map (fun t =>
              visitNodesPerPosition (makeCopyLinkIds sid)
                (assignLinkIds (some sid) (.group grp cs0) ctr).1 t)).map (·.2),
          (assignLinkIds (some sid) (.group grp cs0) ctr).2)
       | .error e =>
         (.error e,
          resetLinkIds
            ((assignLinkIds (some sid) (.group grp cs0) ctr).1 ::
              ((t1 :: rest).map (fun t =>
                visitNodesPerPosition (makeCopyLinkIds sid)
                  (assignLinkIds (some sid) (.group grp cs0) ctr).1 t)).map
                (·.2)),
          (assignLinkIds (some sid) (.group grp cs0) ctr).2)) := by
  have hA : (assignLinkIds (some sid) (Node.group grp cs0) ctr).1.linkedGroupId
      = some sid := by
    rw [assign_linkedGroupId]
    exact hsid
  rw [setLinkIds]
  simp only [show (Node.group grp cs0).linkedGroupId = some sid from hsid,
    copyLinkIds, hA, Option.getD_some]

end TB

namespace TB

/-- C5: `setLinkIds` on a link set of two or more structurally isomorphic
groups succeeds, assigning entities at equal tree positions equal link ids
and entities at distinct positions distinct link ids, with every entity
position receiving an id; on any structural mismatch between the source
group and one of the others it returns the `Inconsistent linked group
structure` error and afterwards no entity under any of the returned groups
has a link id set.  Stated under scene-graph well-formedness of all passed
groups, a source group carrying its link-set id, and no foreign nested
link sets below the source. -/
theorem setLinkIds_spec (grp : Group) (cs0 : NodeList) (t1 : Node)
    (rest : List Node) (ctr : Nat) (sid : String)
    (hsid : grp.linkedGroupId = some sid)
    (hs0 : sceneOk (.group grp cs0) = true)
    (hst : ∀ t ∈ t1 :: rest, sceneOk t = true)
    (hnf : noForeignNested (some sid) (.group grp cs0) = true) :
    ((∀ t ∈ t1 :: rest, sameShape (.group grp cs0) t = true) →
      (setLinkIds (.group grp cs0 :: t1 :: rest) ctr).1 = .ok () ∧
      (∀ r ∈ (setLinkIds (.group grp cs0 :: t1 :: rest) ctr).2.1,
        ∀ p o, entityLinkIdAt r p = some o → ∃ k, o = some k) ∧
      (∀ r1 ∈ (setLinkIds (.group grp cs0 :: t1 :: rest) ctr).2.1,
        ∀ r2 ∈ (setLinkIds (.group grp cs0 :: t1 :: rest) ctr).2.1,
        (∀ p, entityLinkIdAt r1 p = entityLinkIdAt r2 p) ∧
        (∀ p q k j, entityLinkIdAt r1 p = some (some k) →
          entityLinkIdAt r2 q = some (some j) → p ≠ q → k ≠ j))) ∧
    ((∃ t ∈ t1 :: rest, sameShape (.group grp cs0) t = false) →
      (setLinkIds (.group grp cs0 :: t1 :: rest) ctr).1 =
        .error "Inconsistent linked group structure" ∧
      ∀ r ∈ (setLinkIds (.group grp cs0 :: t1 :: rest) ctr).2.1,
        noLinkIdsSet r = true) := by
  have hAscene :
      sceneOk (assignLinkIds (some sid) (.group grp cs0) ctr).1 = true := by
    rw [assign_sceneOk]; exact hs0
  have hAnf : noForeignNested (some sid)
      (assignLinkIds (some sid) (.group grp cs0) ctr).1 = true := by
    rw [assign_noForeign]; exact hnf
  have hAids :
      allIdsSet (assignLinkIds (some sid) (.group grp cs0) ctr).1 = true :=
    assign_sets_all (some sid) (.group grp cs0) ctr hs0 hnf
  obtain ⟨-, hAall, hAinj⟩ :=
    assign_spec (some sid) (.group grp cs0) ctr hs0 hnf
  have hW := fun (t : Node) (ht : t ∈ t1 :: rest) =>
    copyWalk_spec sid (assignLinkIds (some sid) (.group grp cs0) ctr).1 t
      hAscene (hst t ht) hAnf hAids
  rw [setLinkIds_eq grp cs0 t1 rest ctr sid hsid]
  constructor
  · intro hiso
    have hok : ∀ x ∈ ((t1 :: rest).map fun t =>
        visitNodesPerPosition (makeCopyLinkIds sid)
          (assignLinkIds (some sid) (.group grp cs0) ctr).1 t).map
        (fun x => x.1), x = .ok () := by
      intro x hx
      rw [List.mem_map] at hx
      obtain ⟨w, hw, hwx⟩ := hx
      rw [List.mem_map] at hw
      obtain ⟨t, ht, hwt⟩ := hw
      rw [← hwx, ← hwt]
      exact ((hW t ht).1 (by rw [assign_shape]; exact hiso t ht)).1
    have hfold := foldResults_units_ok _ hok
    simp only [hfold]
    have htrans : ∀ r ∈ (assignLinkIds (some sid) (.group grp cs0) ctr).1 ::
        ((t1 :: rest).map fun t =>
          visitNodesPerPosition (makeCopyLinkIds sid)
            (assignLinkIds (some sid) (.group grp cs0) ctr).1 t).map
          (fun x => x.2),
        ∀ p, entityLinkIdAt r p =
          entityLinkIdAt (assignLinkIds (some sid) (.group grp cs0) ctr).1
            p := by
      intro r hr p
      rcases List.mem_cons.mp hr with h0 | h0
      · rw [h0]
      · rw [List.mem_map] at h0
        obtain ⟨w, hw, hwr⟩ := h0
        rw [List.mem_map] at hw
        obtain ⟨t, ht, hwt⟩ := hw
        rw [← hwr, ← hwt]
        exact ((hW t ht).1 (by rw [assign_shape]; exact hiso t ht)).2 p
    refine ⟨trivial, ?_, ?_⟩
    · intro r hr p o hp
      rw [htrans r hr p] at hp
      obtain ⟨k, hk, -, -⟩ := hAall p o hp
      exact ⟨k, hk⟩
    · intro r1 hr1 r2 hr2
      refine ⟨fun p => by rw [htrans r1 hr1 p, htrans r2 hr2 p], ?_⟩
      intro p q k j hp hq hpq
      rw [htrans r1 hr1 p] at hp
      rw [htrans r2 hr2 q] at hq
      exact hAinj p q k j hp hq hpq
  · intro hmis
    have hall : ∀ x ∈ ((t1 :: rest).map fun t =>
        visitNodesPerPosition (makeCopyLinkIds sid)
          (assignLinkIds (some sid) (.group grp cs0) ctr).1 t).map
        (fun x => x.1),
        x = .ok () ∨ x = .error "Inconsistent linked group structure" := by
      intro x hx
      rw [List.mem_map] at hx
      obtain ⟨w, hw, hwx⟩ := hx
      rw [List.mem_map] at hw
      obtain ⟨t, ht, hwt⟩ := hw
      cases hsh : sameShape (.group grp cs0) t with
      | true =>
        left
        rw [← hwx, ← hwt]
        exact ((hW t ht).1 (by rw [assign_shape]; exact hsh)).1
      | false =>
        right
        rw [← hwx, ← hwt]
        exact (hW t ht).2 (by rw [assign_shape]; exact hsh)
    have hex : ∃ x ∈ ((t1 :: rest).map fun t =>
        visitNodesPerPosition (makeCopyLinkIds sid)
          (assignLinkIds (some sid) (.group grp cs0) ctr).1 t).map
        (fun x => x.1),
        x = .error "Inconsistent linked group structure" := by
      obtain ⟨t0, ht0, hsh0⟩ := hmis
      refine ⟨(visitNodesPerPosition (makeCopyLinkIds sid)
        (assignLinkIds (some sid) (.group grp cs0) ctr).1 t0).1, ?_, ?_⟩
      · rw [List.mem_map]
        refine ⟨_, ?_, rfl⟩
        rw [List.mem_map]
        exact ⟨t0, ht0, rfl⟩
      · exact (hW t0 ht0).2 (by rw [assign_shape]; exact hsh0)
    have hfold := foldResults_error_of _ _ hall hex
    simp only [hfold]
    refine ⟨trivial, ?_⟩
    intro r hr
    rw [resetLinkIds, List.mem_map] at hr
    obtain ⟨x, hx, hxr⟩ := hr
    rw [← hxr]
    rcases List.mem_cons.mp hx with h0 | h0
    · rw [h0]
      exact reset_clears _ hAscene
    · rw [List.mem_map] at h0
      obtain ⟨w, hw, hwx2⟩ := h0
      rw [List.mem_map] at hw
      obtain ⟨t, ht, hwt⟩ := hw
      rw [← hwx2, ← hwt]
      exact reset_clears _ (copy_sceneOk sid _ t (hst t ht))

end TB

namespace TB

/-- Witness: a two-group link set, each group holding one entity, passes
`setLinkIds` successfully. -/
theorem setLinkIds_spec_witness :
    (⟨"g", Affine.id, some "a"⟩ : Group).linkedGroupId = some "a" ∧
    sceneOk (.group ⟨"g", Affine.id, some "a"⟩
      (.cons (.entity ⟨[], [], none, ⟨0, 0, 0⟩⟩ .nil) .nil)) = true ∧
    (∀ t ∈ [Node.group ⟨"h", Affine.id, some "a"⟩
        (.cons (.entity ⟨[], [], none, ⟨0, 0, 0⟩⟩ .nil) .nil)],
      sceneOk t = true) ∧
    noForeignNested (some "a") (.group ⟨"g", Affine.id, some "a"⟩
      (.cons (.entity ⟨[], [], none, ⟨0, 0, 0⟩⟩ .nil) .nil)) = true ∧
    (∀ t ∈ [Node.group ⟨"h", Affine.id, some "a"⟩
        (.cons (.entity ⟨[], [], none, ⟨0, 0, 0⟩⟩ .nil) .nil)],
      sameShape (.group ⟨"g", Affine.id, some "a"⟩
        (.cons (.entity ⟨[], [], none, ⟨0, 0, 0⟩⟩ .nil) .nil)) t = true) ∧
    (setLinkIds (.group ⟨"g", Affine.id, some "a"⟩
        (.cons (.entity ⟨[], [], none, ⟨0, 0, 0⟩⟩ .nil) .nil) ::
      [Node.group ⟨"h", Affine.id, some "a"⟩
        (.cons (.entity ⟨[], [], none, ⟨0, 0, 0⟩⟩ .nil) .nil)]) 0).1 =
      .ok () :=
  ⟨rfl, by decide, by decide, by decide, by decide,
    ((setLinkIds_spec ⟨"g", Affine.id, some "a"⟩
        (.cons (.entity ⟨[], [], none, ⟨0, 0, 0⟩⟩ .nil) .nil)
        (Node.group ⟨"h", Affine.id, some "a"⟩
          (.cons (.entity ⟨[], [], none, ⟨0, 0, 0⟩⟩ .nil) .nil))
        [] 0 "a" rfl (by decide) (by decide) (by decide)).1
      (by decide)).1⟩

end TB

namespace TB

theorem getAt_singleton (t : Node) (i : Nat) :
    getAt [i] t = t.children.get? i := by
  rw [getAt]
  cases t.children.get? i with
  | none => rfl
  | some c => rfl

theorem getAt_cons_some (x : Node) (i : Nat) (q : List Nat) (c : Node)
    (hc : x.children.get? i = some c) : getAt (i :: q) x = getAt q c := by
  rw [getAt, hc]

theorem nodeAtD_nil (x : Node) : nodeAtD x [] = x := rfl

theorem nodeAtD_cons (x : Node) (i : Nat) (q : List Nat) (c : Node)
    (hc : x.children.get? i = some c) : nodeAtD x (i :: q) = nodeAtD c q := by
  rw [nodeAtD, nodeAtD, getAt_cons_some x i q c hc]

theorem nodeAtD_singleton (x : Node) (i : Nat) :
    nodeAtD x [i] = (x.children.get? i).getD (.world .nil) := by
  rw [nodeAtD, getAt_singleton]

theorem entityAt_nil (x : Node) :
    entityAt x [] = decide (x.kind = NodeKind.entity) := rfl

theorem entityAt_cons_some (x : Node) (i : Nat) (q : List Nat) (c : Node)
    (hc : x.children.get? i = some c) :
    entityAt x (i :: q) = entityAt c q := by
  rw [entityAt, entityAt, getAt_cons_some x i q c hc]

theorem entityAt_cons_none (x : Node) (i : Nat) (q : List Nat)
    (hc : x.children.get? i = none) : entityAt x (i :: q) = false := by
  rw [entityAt, getAt, hc]

theorem tailN_succ (k : Nat) (l : NodeList) :
    tailN (k + 1) l = tailN k (View.tailOf l) := rfl

theorem headOr_tailN_get (d : Node) : ∀ (k : Nat) (l : NodeList),
    View.headOr d (tailN k l) = (l.get? k).getD d
  | 0, .nil => rfl
  | 0, .cons h t => rfl
  | k + 1, .nil => by
    rw [tailN_succ, show View.tailOf .nil = .nil from rfl,
      headOr_tailN_get d k .nil]
    rfl
  | k + 1, .cons h t => by
    rw [tailN_succ, show View.tailOf (.cons h t) = t from rfl,
      headOr_tailN_get d k t]
    rfl

theorem sameShape_eq (x y : Node) :
    sameShape x y =
      (decide (y.kind = x.kind) && sameShapeL x.children y.children) := by
  cases x <;> rfl

theorem sameShape_kind (x y : Node) (h : sameShape x y = true) :
    y.kind = x.kind := by
  rw [sameShape_eq, Bool.and_eq_true] at h
  simpa using h.1

theorem sameShape_children (x y : Node) (h : sameShape x y = true) :
    sameShapeL x.children y.children = true := by
  rw [sameShape_eq, Bool.and_eq_true] at h
  exact h.2

theorem sameShape_childCount (x y : Node) (h : sameShape x y = true) :
    y.childCount = x.childCount := by
  rw [Node.childCount, Node.childCount]
  exact (sameShapeL_length x.children y.children
    (sameShape_children x y h)).symm

theorem sameShapeL_get_some : ∀ (as bs : NodeList) (i : Nat) (a : Node),
    sameShapeL as bs = true → as.get? i = some a →
    ∃ b, bs.get? i = some b ∧ sameShape a b = true
  | .nil, _, i, a, _, ha => by simp [NodeList.get?] at ha
  | .cons x xs, .nil, i, a, h, _ => by simp [sameShapeL] at h
  | .cons x xs, .cons y ys, 0, a, h, ha => by
    rw [sameShapeL, Bool.and_eq_true] at h
    rw [NodeList.get?, Option.some.injEq] at ha
    subst ha
    exact ⟨y, rfl, h.1⟩
  | .cons x xs, .cons y ys, i + 1, a, h, ha => by
    rw [sameShapeL, Bool.and_eq_true] at h
    rw [NodeList.get?] at ha
    obtain ⟨b, hb, hs⟩ := sameShapeL_get_some xs ys i a h.2 ha
    exact ⟨b, hb, hs⟩

end TB

namespace TB

theorem visitColumns_bad (path : List Nat) :
    ∀ (cs : NodeList) (k : Nat) (otherCols : List NodeList) (j : Nat)
      (ck : Node) (st : View.GenState),
      cs.get? k = some ck →
      (∀ st2, View.visitPosition (path ++ [j + k]) ck
        (otherCols.map (fun o => View.headOr (.world .nil) (tailN k o)))
        st2 = none) →
      View.visitColumns path j cs otherCols st = none
  | .nil, k, _, _, _, _, hk, _ => by simp [NodeList.get?] at hk
  | .cons c cs, 0, otherCols, j, ck, st, hk, hnone => by
    rw [NodeList.get?, Option.some.injEq] at hk
    subst hk
    rw [View.visitColumns]
    have h0 : (otherCols.map (fun o => View.headOr (Node.world .nil)
        (tailN 0 o))) = otherCols.map (View.headOr (.world .nil)) := rfl
    rw [h0, Nat.add_zero] at hnone
    rw [hnone st]
  | .cons c cs, k + 1, otherCols, j, ck, st, hk, hnone => by
    rw [NodeList.get?] at hk
    rw [View.visitColumns]
    cases hv : View.visitPosition (path ++ [j]) c
        (otherCols.map (View.headOr (.world .nil))) st with
    | none => rfl
    | some st2 =>
      have hnone2 : ∀ st3, View.visitPosition (path ++ [(j + 1) + k]) ck
          ((otherCols.map View.tailOf).map
            (fun o => View.headOr (.world .nil) (tailN k o))) st3 = none := by
        intro st3
        rw [List.map_map]
        rw [show (j + 1) + k = j + (k + 1) by omega]
        have heq : ((fun o => View.headOr (Node.world .nil) (tailN k o)) ∘
            View.tailOf) =
            fun o => View.headOr (Node.world .nil) (tailN (k + 1) o) := by
          funext o
          rw [Function.comp_apply, tailN_succ]
        rw [heq]
        exact hnone st3
      exact visitColumns_bad path cs k (otherCols.map View.tailOf) (j + 1)
        ck st2 hk hnone2

end TB

namespace TB

theorem visitColumnsAt_bad_root (path : List Nat) (first : Node)
    (cs : NodeList) (others : List Node) (st : View.GenState)
    (hcs : first.children = cs)
    (hbad : badColumnAt [] first others = true) :
    View.visitColumnsAt path first cs others st = none := by
  rw [badColumnAt] at hbad
  simp only [nodeAtD_nil] at hbad
  rw [View.visitColumnsAt]
  cases hv : View.genEntityLinkIdsVisitor path (first :: others) st with
  | none => simp only [hv]
  | some st2 =>
    simp only [hv]
    rcases Bool.or_eq_true_iff.mp hbad with hcnt | hmix
    · obtain ⟨t, ht, htc⟩ := List.any_eq_true.mp hcnt
      have hall : others.all (fun n => n.childCount = cs.length) = false := by
        cases hA : others.all (fun n => decide (n.childCount = cs.length)) with
        | false => rfl
        | true =>
          have h2 := List.all_eq_true.mp hA t ht
          rw [← hcs] at h2
          rw [show first.children.length = first.childCount from rfl] at h2
          rw [h2] at htc
          simp at htc
      rw [if_neg (by simp [hall])]
    · obtain ⟨hke, hne⟩ := Bool.and_eq_true_iff.mp hmix
      obtain ⟨t, ht, htk⟩ := List.any_eq_true.mp hne
      have hvn : View.genEntityLinkIdsVisitor path (first :: others) st =
          none := by
        rw [View.genEntityLinkIdsVisitor]
        rw [if_pos (of_decide_eq_true hke)]
        have hall2 : (first :: others).all
            (fun n => n.kind = NodeKind.entity) = false := by
          cases hA : (first :: others).all
              (fun n => decide (n.kind = NodeKind.entity)) with
          | false => rfl
          | true =>
            have h2 := List.all_eq_true.mp hA t (List.mem_cons_of_mem _ ht)
            rw [h2] at htk
            simp at htk
        rw [if_neg (by simp [hall2])]
      rw [hvn] at hv
      simp at hv

theorem visitColumnsAt_bad_step (path : List Nat) (first : Node)
    (cs : NodeList) (others : List Node) (st : View.GenState) (i : Nat)
    (c : Node) (hgc : cs.get? i = some c)
    (hrec : ∀ st3, View.visitPosition (path ++ [i]) c
      (others.map (fun t => nodeAtD t [i])) st3 = none) :
    View.visitColumnsAt path first cs others st = none := by
  rw [View.visitColumnsAt]
  cases hv : View.genEntityLinkIdsVisitor path (first :: others) st with
  | none => simp only [hv]
  | some st2 =>
    simp only [hv]
    by_cases hall : others.all (fun n => n.childCount = cs.length) = true
    · rw [if_pos hall]
      apply visitColumns_bad path cs i (others.map Node.children) 0 c st2 hgc
      intro st3
      rw [Nat.zero_add]
      have hmap : (others.map Node.children).map
          (fun o => View.headOr (.world .nil) (tailN i o)) =
          others.map (fun t => nodeAtD t [i]) := by
        rw [List.map_map]
        have hfun : ((fun o => View.headOr (Node.world .nil) (tailN i o)) ∘
            Node.children) = fun t => nodeAtD t [i] := by
          funext t
          rw [Function.comp_apply, headOr_tailN_get, nodeAtD_singleton]
        rw [hfun]
      rw [hmap]
      exact hrec st3
    · rw [if_neg hall]

theorem visitPosition_bad : ∀ (p : List Nat) (first : Node)
      (others : List Node) (path : List Nat) (st : View.GenState),
      (∀ t ∈ others, (getAt p t).isSome = true) →
      (getAt p first).isSome = true →
      badColumnAt p first others = true →
      View.visitPosition path first others st = none
  | [], first, others, path, st, _, _, hbad => by
    cases first with
    | world cs =>
      rw [View.visitPosition]
      exact visitColumnsAt_bad_root path _ cs others st rfl hbad
    | layer cs =>
      rw [View.visitPosition]
      exact visitColumnsAt_bad_root path _ cs others st rfl hbad
    | group g cs =>
      rw [View.visitPosition]
      exact visitColumnsAt_bad_root path _ cs others st rfl hbad
    | entity e cs =>
      rw [View.visitPosition]
      exact visitColumnsAt_bad_root path _ cs others st rfl hbad
    | brush b cs =>
      rw [View.visitPosition]
      exact visitColumnsAt_bad_root path _ cs others st rfl hbad
    | patch pp cs =>
      rw [View.visitPosition]
      exact visitColumnsAt_bad_root path _ cs others st rfl hbad
  | i :: q, first, others, path, st, hoth, hfst, hbad => by
    cases hgc : first.children.get? i with
    | none =>
      rw [getAt, hgc] at hfst
      simp at hfst
    | some c =>
      have hq : (getAt q c).isSome = true := by
        rw [getAt_cons_some first i q c hgc] at hfst
        exact hfst
      have hcts : ∀ t ∈ others, ∃ ct, t.children.get? i = some ct ∧
          (getAt q ct).isSome = true := by
        intro t ht
        have h2 := hoth t ht
        cases hg : t.children.get? i with
        | none =>
          rw [getAt, hg] at h2
          simp at h2
        | some ct =>
          rw [getAt_cons_some t i q ct hg] at h2
          exact ⟨ct, rfl, h2⟩
      have hoth2 : ∀ x ∈ others.map (fun t => nodeAtD t [i]),
          (getAt q x).isSome = true := by
        intro x hx
        rw [List.mem_map] at hx
        obtain ⟨t, ht, hval⟩ := hx
        obtain ⟨ct, hg, hsome⟩ := hcts t ht
        rw [← hval, nodeAtD_singleton, hg]
        exact hsome
      have hbad2 : badColumnAt q c
          (others.map (fun t => nodeAtD t [i])) = true := by
        rw [badColumnAt] at hbad ⊢
        rcases Bool.or_eq_true_iff.mp hbad with hcnt | hmix
        · apply Bool.or_eq_true_iff.mpr
          left
          obtain ⟨t, ht, hb⟩ := List.any_eq_true.mp hcnt
          obtain ⟨ct, hg, -⟩ := hcts t ht
          apply List.any_eq_true.mpr
          refine ⟨nodeAtD t [i], List.mem_map.mpr ⟨t, ht, rfl⟩, ?_⟩
          rw [nodeAtD_singleton, hg, Option.getD_some,
            ← nodeAtD_cons t i q ct hg, ← nodeAtD_cons first i q c hgc]
          exact hb
        · apply Bool.or_eq_true_iff.mpr
          right
          obtain ⟨hke, hne⟩ := Bool.and_eq_true_iff.mp hmix
          apply Bool.and_eq_true_iff.mpr
          refine ⟨by rw [← nodeAtD_cons first i q c hgc]; exact hke, ?_⟩
          obtain ⟨t, ht, hb⟩ := List.any_eq_true.mp hne
          obtain ⟨ct, hg, -⟩ := hcts t ht
          apply List.any_eq_true.mpr
          refine ⟨nodeAtD t [i], List.mem_map.mpr ⟨t, ht, rfl⟩, ?_⟩
          rw [nodeAtD_singleton, hg, Option.getD_some,
            ← nodeAtD_cons t i q ct hg]
          exact hb
      have hrec : ∀ st3, View.visitPosition (path ++ [i]) c
          (others.map (fun t => nodeAtD t [i])) st3 = none :=
        fun st3 => visitPosition_bad q c (others.map (fun t => nodeAtD t [i]))
          (path ++ [i]) st3 hoth2 hq hbad2
      cases first with
      | world cs =>
        rw [View.visitPosition]
        exact visitColumnsAt_bad_step path _ cs others st i c hgc hrec
      | layer cs =>
        rw [View.visitPosition]
        exact visitColumnsAt_bad_step path _ cs others st i c hgc hrec
      | group g cs =>
        rw [View.visitPosition]
        exact visitColumnsAt_bad_step path _ cs others st i c hgc hrec
      | entity e cs =>
        rw [View.visitPosition]
        exact visitColumnsAt_bad_step path _ cs others st i c hgc hrec
      | brush b cs =>
        rw [View.visitPosition]
        exact visitColumnsAt_bad_step path _ cs others st i c hgc hrec
      | patch pp cs =>
        rw [View.visitPosition]
        exact visitColumnsAt_bad_step path _ cs others st i c hgc hrec

end TB

namespace TB

theorem genVisitor_uniform_entity (path : List Nat) (first : Node)
    (others : List Node) (st : View.GenState)
    (hk : first.kind = NodeKind.entity)
    (hsh : ∀ t ∈ others, sameShape first t = true) :
    View.genEntityLinkIdsVisitor path (first :: others) st =
      some (st.1 + 1, st.2 ++ (List.range (others.length + 1)).map
        (fun i => ((i, path), st.1))) := by
  rw [View.genEntityLinkIdsVisitor, if_pos hk, if_pos]
  · rw [show (first :: others).length = others.length + 1 from rfl]
  · apply List.all_eq_true.mpr
    intro t ht
    rcases List.mem_cons.mp ht with h0 | h0
    · subst h0
      simp [hk]
    · have h2 := sameShape_kind first t (hsh t h0)
      rw [h2, hk]
      simp

theorem genVisitor_uniform_skip (path : List Nat) (first : Node)
    (others : List Node) (st : View.GenState)
    (hk : ¬ first.kind = NodeKind.entity) :
    View.genEntityLinkIdsVisitor path (first :: others) st = some st := by
  rw [View.genEntityLinkIdsVisitor, if_neg hk]

theorem countCheck_uniform (first : Node) (cs : NodeList)
    (others : List Node) (hchild : first.children = cs)
    (hsh : ∀ t ∈ others, sameShape first t = true) :
    others.all (fun n => n.childCount = cs.length) = true := by
  apply List.all_eq_true.mpr
  intro t ht
  have h2 := sameShape_childCount first t (hsh t ht)
  have h3 : first.childCount = cs.length := by
    rw [Node.childCount, hchild]
  rw [h2, h3]
  simp

end TB

namespace TB

theorem path_ne_append_cons (path : List Nat) (a : Nat) (x : List Nat) :
    path ≠ path ++ a :: x := by
  intro h
  have h2 := congrArg List.length h
  simp at h2

theorem append_cons_head_eq (path : List Nat) (a b : Nat) (x y : List Nat)
    (h : path ++ a :: x = path ++ b :: y) : a = b := by
  have h2 := List.append_cancel_left h
  rw [List.cons.injEq] at h2
  exact h2.1

theorem visitColumnsAt_uniform_entity (path : List Nat) (first : Node)
    (cs : NodeList) (others : List Node) (st : View.GenState)
    (hchild : first.children = cs)
    (hk : first.kind = NodeKind.entity)
    (hsh : ∀ t ∈ others, sameShape first t = true)
    (hcols : ∀ st0 : View.GenState, ColsSpec path 0 cs (others.length + 1)
      (View.visitColumns path 0 cs (others.map Node.children) st0) st0) :
    WalkSpec path first (others.length + 1)
      (View.visitColumnsAt path first cs others st) st := by
  rw [View.visitColumnsAt]
  simp only [genVisitor_uniform_entity path first others st hk hsh]
  rw [if_pos (countCheck_uniform first cs others hchild hsh)]
  obtain ⟨st2, hres, hmono, Δ1, hsplit, hsound, hcomp, hinj⟩ :=
    hcols (st.1 + 1, st.2 ++ (List.range (others.length + 1)).map
      (fun i => ((i, path), st.1)))
  have hmono2 : st.1 + 1 ≤ st2.1 := hmono
  refine ⟨st2, hres, Nat.le_trans (Nat.le_succ st.1) hmono2,
    (List.range (others.length + 1)).map (fun i => ((i, path), st.1)) ++ Δ1,
    hsplit.trans (List.append_assoc _ _ _), ?_, ?_, ?_⟩
  · intro i q c hm
    rcases List.mem_append.mp hm with hm0 | hm1
    · rw [List.mem_map] at hm0
      obtain ⟨i0, hi0, heq⟩ := hm0
      rw [Prod.mk.injEq, Prod.mk.injEq] at heq
      obtain ⟨⟨hi, hq⟩, hc⟩ := heq
      refine ⟨[], by rw [← hq, List.append_nil], ?_, ?_, ?_, ?_⟩
      · rw [entityAt_nil, hk]
        simp
      · rw [← hi]
        exact List.mem_range.mp hi0
      · rw [← hc]
      · rw [← hc]
        exact Nat.lt_of_lt_of_le (Nat.lt_succ_self st.1) hmono2
    · obtain ⟨k, ck, q0, hget, hq, hent, hi, hc1, hc2⟩ := hsound i q c hm1
      have hc1b : st.1 + 1 ≤ c := hc1
      refine ⟨k :: q0, ?_, ?_, hi, Nat.le_trans (Nat.le_succ st.1) hc1b, hc2⟩
      · rw [hq, Nat.zero_add]
      · rw [entityAt_cons_some first k q0 ck (by rw [hchild]; exact hget)]
        exact hent
  · intro q0 hent
    cases q0 with
    | nil =>
      refine ⟨st.1, fun i hi => ?_⟩
      apply List.mem_append.mpr
      left
      rw [List.append_nil]
      exact List.mem_map.mpr ⟨i, List.mem_range.mpr hi, rfl⟩
    | cons k q0 =>
      cases hgk : first.children.get? k with
      | none =>
        rw [entityAt_cons_none first k q0 hgk] at hent
        simp at hent
      | some ck =>
        rw [entityAt_cons_some first k q0 ck hgk] at hent
        obtain ⟨c, hc⟩ := hcomp k ck q0 (by rw [← hchild]; exact hgk) hent
        refine ⟨c, fun i hi => ?_⟩
        apply List.mem_append.mpr
        right
        have h3 := hc i hi
        rw [Nat.zero_add] at h3
        exact h3
  · intro i q c i2 q2 c2 hm hm2
    rcases List.mem_append.mp hm with h1 | h1 <;>
      rcases List.mem_append.mp hm2 with h2 | h2
    · rw [List.mem_map] at h1 h2
      obtain ⟨a1, -, he1⟩ := h1
      obtain ⟨a2, -, he2⟩ := h2
      rw [Prod.mk.injEq, Prod.mk.injEq] at he1 he2
      constructor
      · intro _
        rw [← he1.1.2, ← he2.1.2]
      · intro _
        rw [← he1.2, ← he2.2]
    · rw [List.mem_map] at h1
      obtain ⟨a1, -, he1⟩ := h1
      rw [Prod.mk.injEq, Prod.mk.injEq] at he1
      obtain ⟨k, ck, q0, -, hq2, -, -, hcge, -⟩ := hsound i2 q2 c2 h2
      have hcge2 : st.1 + 1 ≤ c2 := hcge
      constructor
      · intro hcc
        exfalso
        rw [← he1.2] at hcc
        omega
      · intro hqq
        exfalso
        rw [← he1.1.2] at hqq
        rw [hq2] at hqq
        exact path_ne_append_cons path (0 + k) q0 hqq
    · rw [List.mem_map] at h2
      obtain ⟨a2, -, he2⟩ := h2
      rw [Prod.mk.injEq, Prod.mk.injEq] at he2
      obtain ⟨k, ck, q0, -, hq1, -, -, hcge, -⟩ := hsound i q c h1
      have hcge2 : st.1 + 1 ≤ c := hcge
      constructor
      · intro hcc
        exfalso
        rw [← he2.2] at hcc
        omega
      · intro hqq
        exfalso
        rw [← he2.1.2] at hqq
        rw [hq1] at hqq
        exact path_ne_append_cons path (0 + k) q0 hqq.symm
    · exact hinj i q c i2 q2 c2 h1 h2

theorem visitColumnsAt_uniform_skip (path : List Nat) (first : Node)
    (cs : NodeList) (others : List Node) (st : View.GenState)
    (hchild : first.children = cs)
    (hk : ¬ first.kind = NodeKind.entity)
    (hsh : ∀ t ∈ others, sameShape first t = true)
    (hcols : ∀ st0 : View.GenState, ColsSpec path 0 cs (others.length + 1)
      (View.visitColumns path 0 cs (others.map Node.children) st0) st0) :
    WalkSpec path first (others.length + 1)
      (View.visitColumnsAt path first cs others st) st := by
  rw [View.visitColumnsAt]
  simp only [genVisitor_uniform_skip path first others st hk]
  rw [if_pos (countCheck_uniform first cs others hchild hsh)]
  obtain ⟨st2, hres, hmono, Δ1, hsplit, hsound, hcomp, hinj⟩ := hcols st
  refine ⟨st2, hres, hmono, Δ1, hsplit, ?_, ?_, hinj⟩
  · intro i q c hm
    obtain ⟨k, ck, q0, hget, hq, hent, hi, hc1, hc2⟩ := hsound i q c hm
    refine ⟨k :: q0, ?_, ?_, hi, hc1, hc2⟩
    · rw [hq, Nat.zero_add]
    · rw [entityAt_cons_some first k q0 ck (by rw [hchild]; exact hget)]
      exact hent
  · intro q0 hent
    cases q0 with
    | nil =>
      rw [entityAt_nil] at hent
      rw [decide_eq_true_eq] at hent
      exact absurd hent hk
    | cons k q0 =>
      cases hgk : first.children.get? k with
      | none =>
        rw [entityAt_cons_none first k q0 hgk] at hent
        simp at hent
      | some ck =>
        rw [entityAt_cons_some first k q0 ck hgk] at hent
        obtain ⟨c, hc⟩ := hcomp k ck q0 (by rw [← hchild]; exact hgk) hent
        refine ⟨c, fun i hi => ?_⟩
        have h3 := hc i hi
        rw [Nat.zero_add] at h3
        exact h3

end TB

namespace TB

theorem visitColumns_uniform_combine (path : List Nat) (j : Nat) (c : Node)
    (cs2 : NodeList) (otherCols : List NodeList) (st : View.GenState)
    (hhead : WalkSpec (path ++ [j]) c (otherCols.length + 1)
      (View.visitPosition (path ++ [j]) c
        (otherCols.map (View.headOr (.world .nil))) st) st)
    (htail : ∀ st0, ColsSpec path (j + 1) cs2 (otherCols.length + 1)
      (View.visitColumns path (j + 1) cs2 (otherCols.map View.tailOf) st0)
      st0) :
    ColsSpec path j (.cons c cs2) (otherCols.length + 1)
      (View.visitColumns path j (.cons c cs2) otherCols st) st := by
  rw [View.visitColumns]
  obtain ⟨stM, hres1, hmono1, ΔH, hsplit1, hsound1, hcomp1, hinj1⟩ := hhead
  obtain ⟨st2, hres2, hmono2, ΔT, hsplit2, hsound2, hcomp2, hinj2⟩ :=
    htail stM
  simp only [hres1]
  refine ⟨st2, hres2, Nat.le_trans hmono1 hmono2, ΔH ++ ΔT,
    ?_, ?_, ?_, ?_⟩
  · rw [hsplit2, hsplit1, List.append_assoc]
  · intro i q c0 hm
    rcases List.mem_append.mp hm with h1 | h1
    · obtain ⟨q0, hq, hent, hi, hc1, hc2⟩ := hsound1 i q c0 h1
      refine ⟨0, c, q0, rfl, ?_, hent, hi, hc1,
        Nat.lt_of_lt_of_le hc2 hmono2⟩
      rw [hq, Nat.add_zero, List.append_assoc]
      rfl
    · obtain ⟨k, ck, q0, hget, hq, hent, hi, hc1, hc2⟩ := hsound2 i q c0 h1
      refine ⟨k + 1, ck, q0, ?_, ?_, hent, hi,
        Nat.le_trans hmono1 hc1, hc2⟩
      · rw [NodeList.get?]
        exact hget
      · rw [hq, show j + 1 + k = j + (k + 1) by omega]
  · intro k ck q0 hget hent
    cases k with
    | zero =>
      rw [NodeList.get?, Option.some.injEq] at hget
      subst hget
      obtain ⟨c0, hc0⟩ := hcomp1 q0 hent
      refine ⟨c0, fun i hi => ?_⟩
      apply List.mem_append.mpr
      left
      have h3 := hc0 i hi
      rw [List.append_assoc] at h3
      rw [Nat.add_zero]
      exact h3
    | succ k =>
      rw [NodeList.get?] at hget
      obtain ⟨c0, hc0⟩ := hcomp2 k ck q0 hget hent
      refine ⟨c0, fun i hi => ?_⟩
      apply List.mem_append.mpr
      right
      have h3 := hc0 i hi
      rw [show j + 1 + k = j + (k + 1) by omega] at h3
      exact h3
  · intro i q c0 i2 q2 c02 hm hm2
    rcases List.mem_append.mp hm with h1 | h1 <;>
      rcases List.mem_append.mp hm2 with h2 | h2
    · exact hinj1 i q c0 i2 q2 c02 h1 h2
    · obtain ⟨q0, hq, -, -, -, hlt⟩ := hsound1 i q c0 h1
      obtain ⟨k, ck, q02, -, hq2, -, -, hge, -⟩ := hsound2 i2 q2 c02 h2
      constructor
      · intro hcc
        exfalso
        omega
      · intro hqq
        exfalso
        rw [hq, hq2, List.append_assoc] at hqq
        have := append_cons_head_eq path j (j + 1 + k) q0 q02
          (by rw [← hqq]; rfl)
        omega
    · obtain ⟨q0, hq, -, -, -, hlt⟩ := hsound1 i2 q2 c02 h2
      obtain ⟨k, ck, q02, -, hq2, -, -, hge, -⟩ := hsound2 i q c0 h1
      constructor
      · intro hcc
        exfalso
        omega
      · intro hqq
        exfalso
        rw [hq, hq2, List.append_assoc] at hqq
        have := append_cons_head_eq path j (j + 1 + k) q0 q02
          (by rw [hqq]; rfl)
        omega
    · exact hinj2 i q c0 i2 q2 c02 h1 h2

end TB

namespace TB

mutual

theorem visitPosition_uniform : ∀ (first : Node) (others : List Node)
      (path : List Nat) (st : View.GenState),
      (∀ t ∈ others, sameShape first t = true) →
      WalkSpec path first (others.length + 1)
        (View.visitPosition path first others st) st
  | .world cs, others, path, st, hsh => by
    rw [View.visitPosition]
    refine visitColumnsAt_uniform_skip path _ cs others st rfl
      (by simp [Node.kind]) hsh (fun st0 => ?_)
    have h2 := visitColumns_uniform cs (others.map Node.children) path 0 st0
      (by
        intro o ho
        rw [List.mem_map] at ho
        obtain ⟨t, ht, hto⟩ := ho
        rw [← hto]
        exact sameShape_children _ t (hsh t ht))
    simpa using h2
  | .layer cs, others, path, st, hsh => by
    rw [View.visitPosition]
    refine visitColumnsAt_uniform_skip path _ cs others st rfl
      (by simp [Node.kind]) hsh (fun st0 => ?_)
    have h2 := visitColumns_uniform cs (others.map Node.children) path 0 st0
      (by
        intro o ho
        rw [List.mem_map] at ho
        obtain ⟨t, ht, hto⟩ := ho
        rw [← hto]
        exact sameShape_children _ t (hsh t ht))
    simpa using h2
  | .group g cs, others, path, st, hsh => by
    rw [View.visitPosition]
    refine visitColumnsAt_uniform_skip path _ cs others st rfl
      (by simp [Node.kind]) hsh (fun st0 => ?_)
    have h2 := visitColumns_uniform cs (others.map Node.children) path 0 st0
      (by
        intro o ho
        rw [List.mem_map] at ho
        obtain ⟨t, ht, hto⟩ := ho
        rw [← hto]
        exact sameShape_children _ t (hsh t ht))
    simpa using h2
  | .entity e cs, others, path, st, hsh => by
    rw [View.visitPosition]
    refine visitColumnsAt_uniform_entity path _ cs others st rfl rfl hsh
      (fun st0 => ?_)
    have h2 := visitColumns_uniform cs (others.map Node.children) path 0 st0
      (by
        intro o ho
        rw [List.mem_map] at ho
        obtain ⟨t, ht, hto⟩ := ho
        rw [← hto]
        exact sameShape_children _ t (hsh t ht))
    simpa using h2
  | .brush b cs, others, path, st, hsh => by
    rw [View.visitPosition]
    refine visitColumnsAt_uniform_skip path _ cs others st rfl
      (by simp [Node.kind]) hsh (fun st0 => ?_)
    have h2 := visitColumns_uniform cs (others.map Node.children) path 0 st0
      (by
        intro o ho
        rw [List.mem_map] at ho
        obtain ⟨t, ht, hto⟩ := ho
        rw [← hto]
        exact sameShape_children _ t (hsh t ht))
    simpa using h2
  | .patch pp cs, others, path, st, hsh => by
    rw [View.visitPosition]
    refine visitColumnsAt_uniform_skip path _ cs others st rfl
      (by simp [Node.kind]) hsh (fun st0 => ?_)
    have h2 := visitColumns_uniform cs (others.map Node.children) path 0 st0
      (by
        intro o ho
        rw [List.mem_map] at ho
        obtain ⟨t, ht, hto⟩ := ho
        rw [← hto]
        exact sameShape_children _ t (hsh t ht))
    simpa using h2

theorem visitColumns_uniform : ∀ (cs : NodeList)
      (otherCols : List NodeList) (path : List Nat) (j : Nat)
      (st : View.GenState),
      (∀ o ∈ otherCols, sameShapeL cs o = true) →
      ColsSpec path j cs (otherCols.length + 1)
        (View.visitColumns path j cs otherCols st) st
  | .nil, otherCols, path, j, st, _ => by
    rw [View.visitColumns]
    exact ⟨st, rfl, Nat.le_refl _, [], (List.append_nil _).symm,
      fun i q c hm => absurd hm (List.not_mem_nil _),
      fun k ck q0 hk _ => by simp [NodeList.get?] at hk,
      fun i q c i2 q2 c2 hm _ => absurd hm (List.not_mem_nil _)⟩
  | .cons c cs2, otherCols, path, j, st, hsh => by
    have hheads : ∀ x ∈ otherCols.map (View.headOr (.world .nil)),
        sameShape c x = true := by
      intro x hx
      rw [List.mem_map] at hx
      obtain ⟨o, ho, hox⟩ := hx
      have h2 := hsh o ho
      cases o with
      | nil => simp [sameShapeL] at h2
      | cons oh ot =>
        rw [sameShapeL, Bool.and_eq_true] at h2
        rw [← hox]
        exact h2.1
    have htails : ∀ o ∈ otherCols.map View.tailOf,
        sameShapeL cs2 o = true := by
      intro o ho
      rw [List.mem_map] at ho
      obtain ⟨o2, ho2, ho2o⟩ := ho
      have h2 := hsh o2 ho2
      cases o2 with
      | nil => simp [sameShapeL] at h2
      | cons oh ot =>
        rw [sameShapeL, Bool.and_eq_true] at h2
        rw [← ho2o]
        exact h2.2
    apply visitColumns_uniform_combine
    · have h2 := visitPosition_uniform c
        (otherCols.map (View.headOr (.world .nil))) (path ++ [j]) st hheads
      simpa using h2
    · intro st0
      have h2 := visitColumns_uniform cs2 (otherCols.map View.tailOf) path
        (j + 1) st0 htails
      simpa using h2

end

end TB

namespace TB

/-- C6 (amended): `generateEntityLinkIds`, called with two or more groups
sharing one linked-group id: when every group is structurally isomorphic to
the first, the call succeeds and the returned map holds, for every entity
position of the first group, one fresh identifier shared by the nodes of
every group at that position, distinct identifiers across distinct
positions, and nothing else; and the call returns the empty optional
whenever at some position held by all groups either the child counts
differ, or the first group's node is an entity while some other group's
node is not.  A mixed position whose first node is not an entity does not
abort the call — the visitor skips it — which is the corrected part of the
claim. -/
theorem generateEntityLinkIds_spec (g : Node) (gs : List Node) (ctr : Nat)
    (sid : String) (hgs : gs ≠ [])
    (hshared : ∀ t ∈ g :: gs, t.linkedGroupId = some sid) :
    ((∀ t ∈ gs, sameShape g t = true) →
      ∃ m, View.generateEntityLinkIds (g :: gs) ctr = some m ∧
        (∀ q0, entityAt g q0 = true →
          ∃ c, ∀ i, i < gs.length + 1 → ((i, q0), c) ∈ m) ∧
        (∀ i q c, ((i, q), c) ∈ m →
          entityAt g q = true ∧ i < gs.length + 1 ∧ ctr ≤ c) ∧
        (∀ i q c i2 q2 c2, ((i, q), c) ∈ m → ((i2, q2), c2) ∈ m →
          (c = c2 ↔ q = q2))) ∧
    (∀ p, (∀ t ∈ g :: gs, (getAt p t).isSome = true) →
      badColumnAt p g gs = true →
      View.generateEntityLinkIds (g :: gs) ctr = none) := by
  constructor
  · intro hiso
    obtain ⟨st2, hres, hmono, Δ, hsplit, hsound, hcomp, hinj⟩ :=
      visitPosition_uniform g gs [] (ctr, []) hiso
    have hm : st2.2 = Δ := hsplit.trans (List.nil_append Δ)
    refine ⟨st2.2, ?_, ?_, ?_, ?_⟩
    · rw [View.generateEntityLinkIds, hres]
      rfl
    · intro q0 hent
      obtain ⟨c, hc⟩ := hcomp q0 hent
      refine ⟨c, fun i hi => ?_⟩
      rw [hm]
      exact hc i hi
    · intro i q c hmem
      rw [hm] at hmem
      obtain ⟨q0, hq, hent, hi, hc1, -⟩ := hsound i q c hmem
      have hq2 : q = q0 := hq
      rw [hq2]
      exact ⟨hent, hi, hc1⟩
    · intro i q c i2 q2 c2 hmem hmem2
      rw [hm] at hmem hmem2
      exact hinj i q c i2 q2 c2 hmem hmem2
  · intro p hall hbad
    rw [View.generateEntityLinkIds,
      visitPosition_bad p g gs [] (ctr, [])
        (fun t ht => hall t (List.mem_cons_of_mem g ht))
        (hall g (List.mem_cons_self g gs)) hbad]
    rfl

/-- Witness: two linked groups whose child columns put an entity first and
a brush second make the walk abort, so the call returns the empty
optional. -/
theorem generateEntityLinkIds_spec_witness :
    ([Node.group ⟨"h", Affine.id, some "a"⟩
        (.cons (.brush ⟨[]⟩ .nil) .nil)] ≠ ([] : List Node)) ∧
    (∀ t ∈ (Node.group ⟨"g", Affine.id, some "a"⟩
        (.cons (.entity ⟨[], [], none, ⟨0, 0, 0⟩⟩ .nil) .nil)) ::
        [Node.group ⟨"h", Affine.id, some "a"⟩
          (.cons (.brush ⟨[]⟩ .nil) .nil)],
      t.linkedGroupId = some "a") ∧
    (∀ t ∈ (Node.group ⟨"g", Affine.id, some "a"⟩
        (.cons (.entity ⟨[], [], none, ⟨0, 0, 0⟩⟩ .nil) .nil)) ::
        [Node.group ⟨"h", Affine.id, some "a"⟩
          (.cons (.brush ⟨[]⟩ .nil) .nil)],
      (getAt [0] t).isSome = true) ∧
    badColumnAt [0]
      (Node.group ⟨"g", Affine.id, some "a"⟩
        (.cons (.entity ⟨[], [], none, ⟨0, 0, 0⟩⟩ .nil) .nil))
      [Node.group ⟨"h", Affine.id, some "a"⟩
        (.cons (.brush ⟨[]⟩ .nil) .nil)] = true ∧
    View.generateEntityLinkIds
      ((Node.group ⟨"g", Affine.id, some "a"⟩
        (.cons (.entity ⟨[], [], none, ⟨0, 0, 0⟩⟩ .nil) .nil)) ::
        [Node.group ⟨"h", Affine.id, some "a"⟩
          (.cons (.brush ⟨[]⟩ .nil) .nil)]) 0 = none :=
  ⟨by decide, by decide, by decide, by decide,
    (generateEntityLinkIds_spec
      (Node.group ⟨"g", Affine.id, some "a"⟩
        (.cons (.entity ⟨[], [], none, ⟨0, 0, 0⟩⟩ .nil) .nil))
      [Node.group ⟨"h", Affine.id, some "a"⟩
        (.cons (.brush ⟨[]⟩ .nil) .nil)]
      0 "a" (by decide) (by decide)).2 [0] (by decide) (by decide)⟩

/-- C6 counterexample: two groups sharing one linked-group id whose only
child column holds a brush in the first group and an entity in the second:
the column is not uniformly an entity, yet `generateEntityLinkIds`
succeeds (with an empty map) instead of returning the empty optional,
because the visitor only checks columns whose first node is an entity. -/
theorem generateEntityLinkIds_mixed_skip :
    ((Node.group ⟨"g", Affine.id, some "a"⟩
      (.cons (.brush ⟨[]⟩ .nil) .nil)).linkedGroupId = some "a") ∧
    ((Node.group ⟨"h", Affine.id, some "a"⟩
      (.cons (.entity ⟨[], [], none, ⟨0, 0, 0⟩⟩ .nil) .nil)).linkedGroupId =
      some "a") ∧
    ((getAt [0] (Node.group ⟨"g", Affine.id, some "a"⟩
      (.cons (.brush ⟨[]⟩ .nil) .nil))).map Node.kind =
      some NodeKind.brush) ∧
    ((getAt [0] (Node.group ⟨"h", Affine.id, some "a"⟩
      (.cons (.entity ⟨[], [], none, ⟨0, 0, 0⟩⟩ .nil) .nil))).map
        Node.kind = some NodeKind.entity) ∧
    View.generateEntityLinkIds
      [Node.group ⟨"g", Affine.id, some "a"⟩
        (.cons (.brush ⟨[]⟩ .nil) .nil),
       Node.group ⟨"h", Affine.id, some "a"⟩
        (.cons (.entity ⟨[], [], none, ⟨0, 0, 0⟩⟩ .nil) .nil)] 0 =
      some [] := by
  refine ⟨rfl, rfl, rfl, rfl, ?_⟩
  simp [View.generateEntityLinkIds, View.visitPosition, View.visitColumnsAt,
    View.visitColumns, View.genEntityLinkIdsVisitor, Node.kind,
    Node.childCount, Node.children, NodeList.length, View.headOr,
    View.tailOf]

end TB
